import Mathlib

/-!
# Verification of the multi-day VRP planner core

Shallow embedding of `src/vrp/geo.py` and `src/vrp/solver.py`
(`build_global_plan` and its helpers).

Modelling conventions:

* Python floats appearing in geographic computations are idealized as `ℝ`
  (`haversine_km`, `travel_time_minutes`, `_build_time_matrix`); Python floats
  appearing in schedule times are idealized as `ℚ` (all pipeline arithmetic on
  them is `+`, `-`, `min`, `max` and comparisons, which ℚ models exactly).
* The OR-Tools CP solver called in `build_global_plan` is an external black box.
  Its returned assignment is modelled as a `CPSol` value passed to
  `buildGlobalPlan` (with `none` standing for "no solution found"), constrained
  in theorems by `CPValid`, which states exactly the constraints the Python code
  posts on the model: every visited node index names an expanded clone, every
  arrival lies in the `SetRange` time window of its clone, and the per-base
  disjunction (`AddDisjunction` over all clones of one `base_id`) lets at most
  one clone of each base be visited.
* The value `travel_time_minutes(haversine_km(a, b), speed_kmph)` used by the
  greedy sweeper and the re-sequencer is transcendental in the coordinates, so
  the post-processing pipeline is parameterized by `tf : Pt → Pt → ℚ` standing
  for that function; the matrix builder itself is verified separately over `ℝ`.
* Python `dict` iteration order is insertion order and is modelled by
  association lists; Python `set` iteration order (used only for the backfill
  `missing` list) is unspecified, and is modelled by filtering the driver list
  in its given order — every property proved below is insensitive to that
  order.
-/

namespace VRP

/-! ## Geographic primitives over ℝ (src/vrp/geo.py) -/

/-- Python `math.atan2`. -/
noncomputable def atan2 (y x : ℝ) : ℝ :=
  if 0 < x then Real.arctan (y / x)
  else if x < 0 then
    (if 0 ≤ y then Real.arctan (y / x) + Real.pi else Real.arctan (y / x) - Real.pi)
  else (if 0 < y then Real.pi / 2 else if y < 0 then -(Real.pi / 2) else 0)

/-- `geo.haversine_km`: great-circle distance between two (lat, lon) points. -/
noncomputable def haversine_km (origin destination : ℝ × ℝ) : ℝ :=
  let r : ℝ := 6371.0088
  let phi1 := origin.1 * Real.pi / 180
  let phi2 := destination.1 * Real.pi / 180
  let dphi := (destination.1 - origin.1) * Real.pi / 180
  let dlambda := (destination.2 - origin.2) * Real.pi / 180
  let a := Real.sin (dphi / 2) ^ 2 + Real.cos phi1 * Real.cos phi2 * Real.sin (dlambda / 2) ^ 2
  let c := 2 * atan2 (Real.sqrt a) (Real.sqrt (1 - a))
  r * c

/-- `geo.travel_time_minutes`; the Python `raise ValueError` is modelled as
`Except.error`. -/
noncomputable def travel_time_minutes (distance_km speed_kmph : ℝ) : Except String ℝ :=
  if speed_kmph ≤ 0 then .error "speed_kmph must be positive"
  else if distance_km ≤ 0 then .ok 0
  else .ok (distance_km / speed_kmph * 60)

/-- The value `travel_time_minutes` returns when the speed is positive. -/
noncomputable def travelMinutes (distance_km speed_kmph : ℝ) : ℝ :=
  if distance_km ≤ 0 then 0 else distance_km / speed_kmph * 60

/-- `solver._build_time_matrix`: (N+1)×(N+1) integer matrix of ceiled travel
minutes over depot (index 0) and the given points. -/
noncomputable def buildTimeMatrix (branch : ℝ × ℝ) (pts : List (ℝ × ℝ)) (speed : ℝ) :
    Except String (List (List ℤ)) :=
  let points := branch :: pts
  let n := points.length
  (List.range n).mapM fun i => (List.range n).mapM fun j =>
    if i = j then .ok 0
    else (travel_time_minutes (haversine_km (points.getD i branch) (points.getD j branch))
          speed).map (fun minutes => ⌈minutes⌉)

/-! ## String order and sorting (Python `sorted` / `list.sort`) -/

/-- Lexicographic order on Unicode code points, as Python compares strings. -/
def lexLt : List Char → List Char → Bool
  | [], [] => false
  | [], _ :: _ => true
  | _ :: _, [] => false
  | a :: as, b :: bs => if a.val < b.val then true else if b.val < a.val then false else lexLt as bs

/-- Python `a < b` on strings. -/
def strLt (a b : String) : Bool := lexLt a.toList b.toList

/-- Python `a <= b` on strings. -/
def strLe (a b : String) : Bool := !(strLt b a)

/-- Stable insertion of `a` into `l` with respect to `le`. -/
def insertLe {α : Type} (le : α → α → Bool) (a : α) : List α → List α
  | [] => [a]
  | b :: t => if le a b then a :: b :: t else b :: insertLe le a t

/-- Insertion sort; extensionally equal to Python `sorted` for a total order. -/
def isortBy {α : Type} (le : α → α → Bool) : List α → List α
  | [] => []
  | a :: t => insertLe le a (isortBy le t)

/-- Python `s.split("@")[0]`. -/
def splitAtSign (s : String) : String := String.mk (s.toList.takeWhile (fun c => c ≠ '@'))

/-! ## Data model (§3 of the spec; plain dicts in the source) -/

/-- A (lat, lon) point with rational coordinates. -/
abbrev Pt := ℚ × ℚ

/-- A target `datetime_window` value; `start`/`end` are "HH:MM" strings in the
source, modelled as hour/minute pairs (the `map(int, .split(":"))` parse). -/
structure DTW where
  date : String
  startHH : ℕ
  startMM : ℕ
  endHH : ℕ
  endMM : ℕ
deriving DecidableEq

/-- A base target. -/
structure Target where
  id : String
  lat : ℚ
  lon : ℚ
  stay_minutes : ℚ
  required : Bool
  time_window : Option (ℚ × ℚ)
  datetime_window : Option DTW
deriving DecidableEq

/-- A driver entry of `drivers_by_date`. -/
structure Driver where
  id : String
  start_time : ℚ
  end_time : ℚ
deriving DecidableEq

/-- A (driver, date) vehicle (solver.py 254–263). -/
structure Vehicle where
  id : String
  date : String
  day_idx : ℕ
  startT : ℚ
  endT : ℚ
deriving DecidableEq

/-- A route stop dict. -/
structure Stop where
  target_id : String
  arrival_min : ℚ
  depart_min : ℚ
  travel_minutes : ℚ
  stay_minutes : ℚ
deriving DecidableEq

/-- A route dict. -/
structure Route where
  driver_id : String
  stops : List Stop
  travel_minutes : ℚ
  stay_minutes : ℚ
  end_time : ℚ
  overtime_minutes : ℚ
  return_travel_minutes : ℚ
deriving DecidableEq

/-- An expanded per-date clone (solver.py 281–316): `{**t, node_id, base_id,
tw_abs}`; the original target fields stay available through `base`. -/
structure Clone where
  base : Target
  node_id : String
  base_id : String
  tw_abs : ℚ × ℚ
deriving DecidableEq

def dfltTarget : Target := ⟨"", 0, 0, 0, false, none, none⟩

def dfltClone : Clone := ⟨dfltTarget, "", "", (0, 0)⟩

def dfltStop : Stop := ⟨"", 0, 0, 0, 0⟩

def dfltRoute : Route := ⟨"", [], 0, 0, 0, 0, 0⟩

/-- `drivers_by_date` as an association list in dict insertion order. -/
abbrev DBD := List (String × List Driver)

/-- The `schedules` dict: date ↦ list of routes, in `dates` order.  (The
constant `status`/`unassigned` fields of each per-date dict are omitted.) -/
abbrev Scheds := List (String × List Route)

/-- `drivers_by_date.get(date, [])`. -/
def lookupD (dbd : DBD) (d : String) : List Driver := (dbd.lookup d).getD []

/-- `date_to_offset[d]` (solver.py 271): day index times 1440. -/
def offsetOf (dates : List String) (d : String) : ℚ := ((dates.indexOf d : ℕ) : ℚ) * 1440

/-- Keys of the Python dict `{t["id"]: t for t in targets}` in insertion order
(first occurrence of each id). -/
def pyKeys (targets : List Target) : List String :=
  targets.foldl (fun ks t => if ks.contains t.id then ks else ks ++ [t.id]) []

/-- The value the dict `{t["id"]: t}` holds for a given id (last wins). -/
def lastWithId (targets : List Target) (i : String) : Target :=
  ((targets.filter fun t => t.id == i).getLast?).getD dfltTarget

/-- `day_work_windows` (solver.py 272–279): (min start, max end) of that date's
drivers, defaulting to (0, 1440). -/
def dayWorkWindow (dbd : DBD) (d : String) : ℚ × ℚ :=
  match dbd.lookup d with
  | some (drv :: rest) =>
    (rest.foldl (fun acc x => min acc x.start_time) drv.start_time,
     rest.foldl (fun acc x => max acc x.end_time) drv.end_time)
  | _ => (0, 24 * 60)

/-! ## Target expansion (solver.py 280–316) -/

def dtwStart (w : DTW) : ℚ := (w.startHH : ℚ) * 60 + w.startMM

def dtwEnd (w : DTW) : ℚ := (w.endHH : ℚ) * 60 + w.endMM

/-- The single clone of a target whose `datetime_window` date is scheduled. -/
def cloneOfDtw (dates : List String) (t : Target) (w : DTW) : Clone :=
  let start := offsetOf dates w.date + dtwStart w
  let stop := offsetOf dates w.date + dtwEnd w
  ⟨t, t.id, t.id, (start, max (start + 1) (stop - t.stay_minutes))⟩

/-- Per-date clones of a target with a floating `time_window`, or (else branch)
with no window at all. -/
def expandFloating (dates : List String) (dbd : DBD) (t : Target) : List Clone :=
  match t.time_window with
  | some w =>
    let e2 := max (w.1 + 1) (w.2 - t.stay_minutes)
    dates.map fun d =>
      ⟨t, t.id ++ "@" ++ d, t.id, (offsetOf dates d + w.1, offsetOf dates d + e2)⟩
  | none =>
    dates.map fun d =>
      let w := dayWorkWindow dbd d
      let e2 := max (w.1 + 1) (w.2 - t.stay_minutes)
      ⟨t, t.id ++ "@" ++ d, t.id, (offsetOf dates d + w.1, offsetOf dates d + e2)⟩

/-- Expansion of one base target. -/
def expandTarget (dates : List String) (dbd : DBD) (t : Target) : List Clone :=
  match t.datetime_window with
  | some w => if dates.contains w.date then [cloneOfDtw dates t w] else expandFloating dates dbd t
  | none => expandFloating dates dbd t

/-- `expanded_targets`, in input target order. -/
def expandedTargets (dates : List String) (dbd : DBD) (targets : List Target) : List Clone :=
  targets.flatMap (expandTarget dates dbd)

/-- The vehicle list (solver.py 247–263), one per (date, driver) in order. -/
def vehicles (dates : List String) (dbd : DBD) : List Vehicle :=
  dates.enum.flatMap fun p =>
    (lookupD dbd p.2).map fun drv =>
      ⟨drv.id, p.2, p.1, (p.1 : ℚ) * 1440 + drv.start_time, (p.1 : ℚ) * 1440 + drv.end_time⟩

/-- Dates recorded in `warnings` because they have no drivers. -/
def missingDriverDates (dates : List String) (dbd : DBD) : List String :=
  dates.filter fun d => (lookupD dbd d).isEmpty

/-! ## The external CP solution and its posted constraints -/

/-- The assignment the CP solver returns, observed through the extraction loop:
per vehicle the chain of visited (node index, arrival time) pairs (node indices
are 1-based into `expanded_targets`), plus the end-cumul value per vehicle. -/
structure CPSol where
  visits : List (List (ℕ × ℚ))
  endArr : List ℚ

/-- `expanded_targets[nk - 1]`. -/
def cloneAt (exp : List Clone) (nk : ℕ) : Clone := exp.getD (nk - 1) dfltClone

/-- The constraints `build_global_plan` posts on the routing model, as observed
on a returned assignment: shapes match the vehicle list, every visited node is
a real clone whose arrival lies in its `SetRange` window (solver.py 374–380),
and the per-base disjunction (solver.py 395–402) allows at most one clone per
`base_id` in the whole solution. -/
def CPValid (exp : List Clone) (veh : List Vehicle) (sol : CPSol) : Prop :=
  sol.visits.length = veh.length ∧ sol.endArr.length = veh.length ∧
  (∀ vr ∈ sol.visits, ∀ p ∈ vr,
      1 ≤ p.1 ∧ p.1 ≤ exp.length ∧
      (cloneAt exp p.1).tw_abs.1 ≤ p.2 ∧ p.2 ≤ (cloneAt exp p.1).tw_abs.2) ∧
  (sol.visits.flatten.map fun p => (cloneAt exp p.1).base_id).Nodup

/-! ## Solution extraction (solver.py 430–474) -/

/-- Append a route to `schedules[d]["routes"]`. -/
def appendRoute (s : Scheds) (d : String) (r : Route) : Scheds :=
  s.map fun e => if e.1 = d then (e.1, e.2 ++ [r]) else e

/-- The per-vehicle stop walk: state is (stops, prev_depart, total_travel,
total_stay). -/
def extStops (exp : List Clone) :
    List (ℕ × ℚ) → ℚ → List Stop → ℚ → ℚ → List Stop × ℚ × ℚ × ℚ
  | [], prevDepart, acc, tTravel, tStay => (acc, prevDepart, tTravel, tStay)
  | (nk, arrival) :: rest, prevDepart, acc, tTravel, tStay =>
    let c := cloneAt exp nk
    let travel := max 0 (arrival - prevDepart)
    let depart := arrival + c.base.stay_minutes
    extStops exp rest depart
      (acc ++ [⟨c.base.id, arrival, depart, travel, c.base.stay_minutes⟩])
      (tTravel + travel) (tStay + c.base.stay_minutes)

/-- The route extracted for one vehicle. -/
def extractVeh (exp : List Clone) (v : Vehicle) (vis : List (ℕ × ℚ)) (endArrival : ℚ) : Route :=
  let r := extStops exp vis v.startT [] 0 0
  let returnTravel := max 0 (endArrival - r.2.1)
  { driver_id := v.id
    stops := r.1
    travel_minutes := r.2.2.1 + returnTravel
    stay_minutes := r.2.2.2
    end_time := endArrival
    overtime_minutes := max 0 (endArrival - v.endT)
    return_travel_minutes := returnTravel }

/-- Extraction over all vehicles, appending each route to its date. -/
def extractAll (exp : List Clone) (veh : List Vehicle) (sol : CPSol) (s0 : Scheds) : Scheds :=
  (veh.zip (sol.visits.zip sol.endArr)).foldl
    (fun s q => appendRoute s q.1.date (extractVeh exp q.1 q.2.1 q.2.2)) s0

/-! ## Greedy sweeper (solver.py 479–542) -/

/-- The inner while loop building one greedy route; pops targets from the head
of `remaining` while they fit before the driver's end and the stop cap.
Returns (stops, remaining, current, prev_point, travel_acc). -/
def sweepRoute (tf : Pt → Pt → ℚ) (maxStops : ℕ) (endT : ℚ) :
    List Target → ℚ → Pt → List Stop → ℚ → List Stop × List Target × ℚ × Pt × ℚ
  | [], current, prevPt, acc, travelAcc => (acc, [], current, prevPt, travelAcc)
  | t :: rest, current, prevPt, acc, travelAcc =>
    if acc.length < maxStops then
      if endT < current + tf prevPt (t.lat, t.lon) + t.stay_minutes then
        (acc, t :: rest, current, prevPt, travelAcc)
      else
        sweepRoute tf maxStops endT rest (current + tf prevPt (t.lat, t.lon) + t.stay_minutes)
          (t.lat, t.lon)
          (acc ++ [⟨t.id, current + tf prevPt (t.lat, t.lon),
            current + tf prevPt (t.lat, t.lon) + t.stay_minutes,
            tf prevPt (t.lat, t.lon), t.stay_minutes⟩])
          (travelAcc + tf prevPt (t.lat, t.lon))
    else (acc, t :: rest, current, prevPt, travelAcc)

/-- Assemble the greedy route from the sweep loop's final state (stops,
remaining, current, prev_point, travel_acc): the return leg is added only when
the route is non-empty, but the route itself is built unconditionally. -/
def sweepFinish (tf : Pt → Pt → ℚ) (branchPt : Pt) (drv : Driver)
    (res : List Stop × List Target × ℚ × Pt × ℚ) : Route × List Target :=
  if res.1.isEmpty then
    (⟨drv.id, res.1, res.2.2.2.2, (res.1.map Stop.stay_minutes).sum, res.2.2.1, 0, 0⟩, res.2.1)
  else
    (⟨drv.id, res.1, res.2.2.2.2 + tf res.2.2.2.1 branchPt, (res.1.map Stop.stay_minutes).sum,
      res.2.2.1 + tf res.2.2.2.1 branchPt, 0, tf res.2.2.2.1 branchPt⟩, res.2.1)

/-- One greedy route for one driver (solver.py 494–542). -/
def sweepDriver (tf : Pt → Pt → ℚ) (maxStops : ℕ) (branchPt : Pt) (offset : ℚ)
    (drv : Driver) (rem : List Target) : Route × List Target :=
  sweepFinish tf branchPt drv
    (sweepRoute tf maxStops (offset + drv.end_time) rem (offset + drv.start_time) branchPt [] 0)

/-- The driver loop for one date; breaks when nothing remains.  Also returns the
appended (absolute driver end, route) pairs in construction order. -/
def sweepDrivers (tf : Pt → Pt → ℚ) (maxStops : ℕ) (branchPt : Pt) (offset : ℚ) (d : String) :
    List Driver → List Target → Scheds → Scheds × List Target × List (ℚ × Route)
  | [], rem, s => (s, rem, [])
  | drv :: ds, rem, s =>
    if rem.isEmpty then (s, rem, [])
    else
      ((sweepDrivers tf maxStops branchPt offset d ds
          (sweepDriver tf maxStops branchPt offset drv rem).2
          (appendRoute s d (sweepDriver tf maxStops branchPt offset drv rem).1)).1,
       (sweepDrivers tf maxStops branchPt offset d ds
          (sweepDriver tf maxStops branchPt offset drv rem).2
          (appendRoute s d (sweepDriver tf maxStops branchPt offset drv rem).1)).2.1,
       (offset + drv.end_time, (sweepDriver tf maxStops branchPt offset drv rem).1) ::
       (sweepDrivers tf maxStops branchPt offset d ds
          (sweepDriver tf maxStops branchPt offset drv rem).2
          (appendRoute s d (sweepDriver tf maxStops branchPt offset drv rem).1)).2.2)

/-- The date loop of the sweeper over `dates.enum`. -/
def sweepDates (tf : Pt → Pt → ℚ) (maxStops : ℕ) (branchPt : Pt) (dbd : DBD) :
    List (ℕ × String) → List Target → Scheds → Scheds × List Target × List (ℚ × Route)
  | [], rem, s => (s, rem, [])
  | p :: ds, rem, s =>
    if rem.isEmpty then (s, rem, [])
    else
      ((sweepDates tf maxStops branchPt dbd ds
          (sweepDrivers tf maxStops branchPt ((p.1 : ℚ) * 1440) p.2 (lookupD dbd p.2) rem s).2.1
          (sweepDrivers tf maxStops branchPt ((p.1 : ℚ) * 1440) p.2 (lookupD dbd p.2) rem s).1).1,
       (sweepDates tf maxStops branchPt dbd ds
          (sweepDrivers tf maxStops branchPt ((p.1 : ℚ) * 1440) p.2 (lookupD dbd p.2) rem s).2.1
          (sweepDrivers tf maxStops branchPt ((p.1 : ℚ) * 1440) p.2 (lookupD dbd p.2) rem s).1).2.1,
       (sweepDrivers tf maxStops branchPt ((p.1 : ℚ) * 1440) p.2 (lookupD dbd p.2) rem s).2.2 ++
       (sweepDates tf maxStops branchPt dbd ds
          (sweepDrivers tf maxStops branchPt ((p.1 : ℚ) * 1440) p.2 (lookupD dbd p.2) rem s).2.1
          (sweepDrivers tf maxStops branchPt ((p.1 : ℚ) * 1440) p.2 (lookupD dbd p.2) rem s).1).2.2)

/-! ## Driver backfill (solver.py 547–642) -/

/-- `schedules[d]["routes"]`. -/
def routesOf (s : Scheds) (d : String) : List Route := (s.lookup d).getD []

/-- Dates having some non-empty route (solver.py 548). -/
def usedDays (dates : List String) (s : Scheds) : List String :=
  dates.filter fun d => (routesOf s d).any fun r => !r.stops.isEmpty

/-- Donor slots (solver.py 556–564): non-empty routes on later used days first,
then routes with more than one stop on any used day. -/
def donorSlots (s : Scheds) (ud : List String) : List (String × ℕ) :=
  ((ud.drop 1).flatMap fun d =>
    ((routesOf s d).enum.filter fun p => !p.2.stops.isEmpty).map fun p => (d, p.1)) ++
  (ud.flatMap fun d =>
    ((routesOf s d).enum.filter fun p => p.2.stops.length > 1).map fun p => (d, p.1))

/-- In-place update of a list element at an index (no-op out of range). -/
def modifyIdx {α : Type} (f : α → α) : ℕ → List α → List α
  | _, [] => []
  | 0, x :: t => f x :: t
  | n + 1, x :: t => x :: modifyIdx f n t

/-- In-place update of `schedules[d]["routes"][ri]`. -/
def updRoute (s : Scheds) (d : String) (ri : ℕ) (f : Route → Route) : Scheds :=
  s.map fun e => if e.1 = d then (e.1, modifyIdx f ri e.2) else e

/-- Donor route after `stops.pop(-1)` and the stay decrement (solver.py 575–576). -/
def popRoute (r : Route) (st : Stop) : Route :=
  { r with stops := r.stops.dropLast, stay_minutes := max 0 (r.stay_minutes - st.stay_minutes) }

/-- The new single-stop route appended for a missing driver (solver.py 583–601). -/
def newBackfillRoute (drvId : String) (offset : ℚ) (drv : Driver) (st : Stop) : Route :=
  let arrival := offset + drv.start_time
  let depart := min (offset + drv.end_time) (arrival + st.stay_minutes)
  ⟨drvId, [⟨st.target_id, arrival, depart, 0, st.stay_minutes⟩],
   0, st.stay_minutes, depart, 0, 0⟩

/-- The backfill loop pairing missing drivers with donor slots (solver.py
566–601).  Returns the updated schedules and the unserved `missing[donor_idx:]`
suffix. -/
def backfillLoop (availFirst : List Driver) (firstDay : String) (offset : ℚ) :
    List String → List (String × ℕ) → Scheds → Scheds × List String
  | [], _, s => (s, [])
  | drvId :: rest, [], s => (s, drvId :: rest)
  | drvId :: rest, sl :: slots, s =>
    if ((routesOf s sl.1).getD sl.2 dfltRoute).stops.isEmpty then
      backfillLoop availFirst firstDay offset rest slots s
    else
      match availFirst.find? (fun drv => drv.id == drvId) with
      | none =>
        backfillLoop availFirst firstDay offset rest slots
          (updRoute s sl.1 sl.2 (fun r => popRoute r
            (((routesOf s sl.1).getD sl.2 dfltRoute).stops.getLast?.getD dfltStop)))
      | some drv =>
        backfillLoop availFirst firstDay offset rest slots
          (appendRoute
            (updRoute s sl.1 sl.2 (fun r => popRoute r
              (((routesOf s sl.1).getD sl.2 dfltRoute).stops.getLast?.getD dfltStop)))
            firstDay
            (newBackfillRoute drvId offset drv
              (((routesOf s sl.1).getD sl.2 dfltRoute).stops.getLast?.getD dfltStop)))

/-- The last route of maximal stop count (ties to the last index), as the
Python `l >= longest_len` scan computes it (solver.py 604–610). -/
def longestRouteIdx (rs : List Route) : Option (ℕ × Route) :=
  rs.enum.foldl
    (fun acc p =>
      match acc with
      | none => some p
      | some q => if q.2.stops.length ≤ p.2.stops.length then some p else acc)
    none

/-- Hand the stolen stop to the first findable driver of `missing_rest`, then
stop (the Python loop breaks after one append; solver.py 616–642). -/
def giveToFirst (availFirst : List Driver) (firstDay : String) (offset : ℚ) (st : Stop) :
    List String → Scheds → Scheds
  | [], s => s
  | drvId :: rest, s =>
    match availFirst.find? (fun drv => drv.id == drvId) with
    | none => giveToFirst availFirst firstDay offset st rest s
    | some drv => appendRoute s firstDay (newBackfillRoute drvId offset drv st)

/-- The donor-exhausted fallback: steal the last stop of the longest first-day
route (solver.py 602–642). -/
def backfillFallback (availFirst : List Driver) (firstDay : String) (offset : ℚ)
    (unserved : List String) (s : Scheds) : Scheds :=
  match longestRouteIdx (routesOf s firstDay) with
  | none => s
  | some q =>
    if q.2.stops.isEmpty then s
    else
      giveToFirst availFirst firstDay offset (q.2.stops.getLast?.getD dfltStop) unserved
        (updRoute s firstDay q.1 (fun rt => popRoute rt (q.2.stops.getLast?.getD dfltStop)))

/-- The drivers of the earliest used day without a non-empty route (solver.py
551–553).  The Python `missing` list comes from a set difference with
unspecified iteration order; it is modelled in driver-list order (every
property proved below is order-insensitive). -/
def backfillMissing (dbd : DBD) (s : Scheds) (firstDay : String) : List String :=
  ((lookupD dbd firstDay).map Driver.id).filter fun i =>
    !(((routesOf s firstDay).filter fun r => !r.stops.isEmpty).map Route.driver_id).contains i

/-- The whole backfill repair (solver.py 547–642). -/
def backfill (dates : List String) (dbd : DBD) (s : Scheds) : Scheds :=
  match usedDays dates s with
  | [] => s
  | firstDay :: _ =>
    if (backfillMissing dbd s firstDay).isEmpty then s
    else
      if (backfillLoop (lookupD dbd firstDay) firstDay (offsetOf dates firstDay)
            (backfillMissing dbd s firstDay) (donorSlots s (usedDays dates s)) s).2.isEmpty then
        (backfillLoop (lookupD dbd firstDay) firstDay (offsetOf dates firstDay)
          (backfillMissing dbd s firstDay) (donorSlots s (usedDays dates s)) s).1
      else
        backfillFallback (lookupD dbd firstDay) firstDay (offsetOf dates firstDay)
          (backfillLoop (lookupD dbd firstDay) firstDay (offsetOf dates firstDay)
            (backfillMissing dbd s firstDay) (donorSlots s (usedDays dates s)) s).2
          (backfillLoop (lookupD dbd firstDay) firstDay (offsetOf dates firstDay)
            (backfillMissing dbd s firstDay) (donorSlots s (usedDays dates s)) s).1

/-! ## Route re-sequencer (solver.py 644–770) -/

/-- Clearing a set bit makes a number smaller (for the Held-Karp recursion). -/
def xorShiftLtOfTestBit (mask k : ℕ) (h : mask.testBit k) : mask ^^^ (1 <<< k) < mask := by
  apply Nat.lt_of_testBit k
  · simp [Nat.testBit_xor, Nat.one_shiftLeft, h]
  · exact h
  · intro j hj
    simp [Nat.testBit_xor, Nat.one_shiftLeft, Nat.testBit_two_pow_of_ne (Nat.ne_of_lt hj)]

/-- One candidate cell of the Held-Karp relaxation: predecessor `j` feeding
stop `k` over the remaining set `sub`, given the sub-table entry `o`
(`none` = the `math.inf` cell). -/
def hkCand (dist : ℕ → ℕ → ℚ) (k sub j : ℕ) (o : Option (ℚ × Option ℕ)) :
    Option (ℚ × ℕ) :=
  if sub.testBit j then
    match o with
    | some c => some (c.1 + dist (j + 1) (k + 1), j)
    | none => none
  else none

/-- The Held-Karp table (solver.py 662–681): cost and predecessor for visiting
exactly the stop set `mask` (bit j ↔ 0-based stop j) ending at stop `k`.
`none` entries correspond to the `math.inf` cells of the imperative table;
the fold keeps the first minimiser, as the ascending strict-improvement scan
does. -/
def hkDP (dist : ℕ → ℕ → ℚ) (m : ℕ) (mask k : ℕ) : Option (ℚ × Option ℕ) :=
  if h : mask.testBit k then
    if mask = 1 <<< k then some (dist 0 (k + 1), none)
    else
      match (List.range m).filterMap fun j =>
        hkCand dist k (mask ^^^ (1 <<< k)) j (hkDP dist m (mask ^^^ (1 <<< k)) j) with
      | [] => none
      | c :: cs =>
        some ((cs.foldl (fun b q => if q.1 < b.1 then q else b) c).1,
          some ((cs.foldl (fun b q => if q.1 < b.1 then q else b) c).2))
  else none
termination_by mask
decreasing_by exact xorShiftLtOfTestBit mask k h

/-- The parent-pointer walk reconstructing the optimal sequence (solver.py
690–698), from chosen last stop back to the first; 0-based stop indices. -/
def hkRecon (dist : ℕ → ℕ → ℚ) (m : ℕ) (mask last : ℕ) : List ℕ :=
  if h : mask.testBit last then
    if mask ^^^ (1 <<< last) = 0 then [last]
    else
      match hkDP dist m mask last with
      | some (_, some p) => last :: hkRecon dist m (mask ^^^ (1 <<< last)) p
      | _ => [last]
  else [last]
termination_by mask
decreasing_by exact xorShiftLtOfTestBit mask last h

/-- The closing candidate for the full tour: last stop `j` plus the return
leg to the depot (solver.py 683–688). -/
def hkFinCand (dist : ℕ → ℕ → ℚ) (j : ℕ) (o : Option (ℚ × Option ℕ)) :
    Option (ℚ × ℕ) :=
  match o with
  | some c => some (c.1 + dist (j + 1) 0, j)
  | none => none

/-- Exact TSP order for m ≤ 20 stops (solver.py 660–699): best last stop by
ascending strict-improvement scan, then reconstruction; result is 1-based
coords indices. -/
def hkOrder (dist : ℕ → ℕ → ℚ) (m : ℕ) : List ℕ :=
  match (List.range m).filterMap fun j =>
    hkFinCand dist j (hkDP dist m ((1 <<< m) - 1) j) with
  | [] => []
  | c :: cs =>
    (hkRecon dist m ((1 <<< m) - 1)
      ((cs.foldl (fun b q => if q.1 < b.1 then q else b) c).2)).reverse.map (· + 1)

/-- `order[i:j+1] = reversed(order[i:j+1])`. -/
def reverseSeg (order : List ℕ) (i j : ℕ) : List ℕ :=
  order.take i ++ ((order.drop i).take (j + 1 - i)).reverse ++ order.drop (j + 1)

/-- `a = order[i-1] if i > 0 else 0` (solver.py 710). -/
def prevNode (order : List ℕ) (i : ℕ) : ℕ :=
  if 0 < i then order.getD (i - 1) 0 else 0

/-- `d = order[j+1] if j+1 < len(order) else len(coords)-1` (solver.py 713). -/
def nextNode (mlen : ℕ) (order : List ℕ) (j : ℕ) : ℕ :=
  if j + 1 < order.length then order.getD (j + 1) 0 else mlen + 1

/-- The 2-opt move candidate for the pair `(i, j)` (solver.py 708–716):
accepted when reversing `order[i:j+1]` improves the tour by more than 1e-6. -/
def improveAt (dist : ℕ → ℕ → ℚ) (mlen : ℕ) (order : List ℕ) (i j : ℕ) :
    Option (List ℕ) :=
  if j = order.length - 1 ∧ i = 0 then none
  else
    if dist (prevNode order i) (order.getD j 0) +
        dist (order.getD i 0) (nextNode mlen order j) + 1 / 1000000 <
        dist (prevNode order i) (order.getD i 0) +
        dist (order.getD j 0) (nextNode mlen order j) then
      some (reverseSeg order i j)
    else none

/-- One scan for the first improving 2-opt move (solver.py 706–717). -/
def findImprove (dist : ℕ → ℕ → ℚ) (mlen : ℕ) (order : List ℕ) : Option (List ℕ) :=
  (List.range (order.length - 1)).findSome? fun i =>
    ((List.range (order.length - (i + 2))).map (· + (i + 2))).findSome? fun j =>
      improveAt dist mlen order i j

/-- Iterate first-improvement moves.  Each accepted move lowers the tour cost
by more than 1e-6, so the Python while-loop terminates; the fuel below is
immaterial to every property proved in this file (all are invariant under any
number of iterations). -/
def twoOptIter (dist : ℕ → ℕ → ℚ) (mlen : ℕ) : ℕ → List ℕ → List ℕ
  | 0, order => order
  | fuel + 1, order =>
    match findImprove dist mlen order with
    | none => order
    | some order2 => twoOptIter dist mlen fuel order2

/-- Three outer 2-opt rounds (solver.py 701–719). -/
def twoOptRounds (dist : ℕ → ℕ → ℚ) (mlen : ℕ) (order : List ℕ) : List ℕ :=
  twoOptIter dist mlen (Nat.factorial (order.length + 1))
    (twoOptIter dist mlen (Nat.factorial (order.length + 1))
      (twoOptIter dist mlen (Nat.factorial (order.length + 1)) order))

/-- The route rebuild over the chosen order (solver.py 721–745): state is
(new_stops, current, travel_total, stay_total, prev_coord). -/
def rebuildLoop (tf : Pt → Pt → ℚ) (targets : List Target) (stops : List Stop) :
    List ℕ → List Stop × ℚ × ℚ × ℚ × Pt → List Stop × ℚ × ℚ × ℚ × Pt
  | [], st => st
  | idx :: rest, (acc, current, travelT, stayT, prevPt) =>
    let tid := (stops.getD (idx - 1) dfltStop).target_id
    let t := lastWithId targets tid
    let travel := tf prevPt (t.lat, t.lon)
    let arrival := current + travel
    let depart := arrival + t.stay_minutes
    rebuildLoop tf targets stops rest
      (acc ++ [⟨tid, arrival, depart, travel, t.stay_minutes⟩], depart, travelT + travel,
       stayT + t.stay_minutes, (t.lat, t.lon))

/-- The coordinate list `[depot, s1, …, sm, depot]` (solver.py 655). -/
def routeCoords (branchPt : Pt) (targets : List Target) (stops : List Stop) : List Pt :=
  (branchPt :: stops.map fun st =>
    ((lastWithId targets st.target_id).lat, (lastWithId targets st.target_id).lon)) ++
  [branchPt]

/-- The per-route distance matrix in minutes (solver.py 656), as a function. -/
def routeDist (tf : Pt → Pt → ℚ) (branchPt : Pt) (targets : List Target) (stops : List Stop)
    (i j : ℕ) : ℚ :=
  tf ((routeCoords branchPt targets stops).getD i branchPt)
    ((routeCoords branchPt targets stops).getD j branchPt)

/-- The stop order chosen by the re-sequencer: exact Held-Karp for ≤ 20 stops,
2-opt otherwise (solver.py 658–719). -/
def routeOrder (tf : Pt → Pt → ℚ) (branchPt : Pt) (targets : List Target)
    (stops : List Stop) : List ℕ :=
  if stops.length ≤ 20 then hkOrder (routeDist tf branchPt targets stops) stops.length
  else twoOptRounds (routeDist tf branchPt targets stops) stops.length
    (List.range' 1 stops.length)

/-- The final rebuild-loop state for a route. -/
def rebuildRes (tf : Pt → Pt → ℚ) (branchPt : Pt) (targets : List Target)
    (stops : List Stop) (driverStart : ℚ) : List Stop × ℚ × ℚ × ℚ × Pt :=
  rebuildLoop tf targets stops (routeOrder tf branchPt targets stops)
    ([], driverStart, 0, 0, branchPt)

/-- The rebuilt route (solver.py 721–758). -/
def rebuildRoute (tf : Pt → Pt → ℚ) (branchPt : Pt) (targets : List Target)
    (route : Route) (driverStart driverEnd : ℚ) : Route :=
  { route with
    stops := (rebuildRes tf branchPt targets route.stops driverStart).1
    travel_minutes := (rebuildRes tf branchPt targets route.stops driverStart).2.2.1
    stay_minutes := (rebuildRes tf branchPt targets route.stops driverStart).2.2.2.1
    return_travel_minutes :=
      tf (rebuildRes tf branchPt targets route.stops driverStart).2.2.2.2 branchPt
    end_time := (rebuildRes tf branchPt targets route.stops driverStart).2.1 +
      tf (rebuildRes tf branchPt targets route.stops driverStart).2.2.2.2 branchPt
    overtime_minutes := max 0
      ((rebuildRes tf branchPt targets route.stops driverStart).2.1 +
        tf (rebuildRes tf branchPt targets route.stops driverStart).2.2.2.2 branchPt -
        driverEnd) }

/-- `optimize_route_order` (solver.py 645–758). -/
def optimizeRouteOrder (tf : Pt → Pt → ℚ) (branchPt : Pt) (targets : List Target)
    (route : Route) (driverStart driverEnd : ℚ) : Route :=
  if route.stops.length < 3 then route
  else if route.stops.any (fun st =>
      (lastWithId targets st.target_id).time_window.isSome ||
      (lastWithId targets st.target_id).datetime_window.isSome) then route
  else rebuildRoute tf branchPt targets route driverStart driverEnd

/-- `driver_time_map[d].get(drv_id)` (solver.py 760–763). -/
def driverTimes (dates : List String) (dbd : DBD) (d : String) (drvId : String) :
    Option (ℚ × ℚ) :=
  match dbd.lookup d with
  | none => none
  | some drvs =>
    (drvs.find? fun drv => drv.id == drvId).map fun drv =>
      (offsetOf dates d + drv.start_time, offsetOf dates d + drv.end_time)

/-- The re-sequencing pass over every schedule (solver.py 764–770). -/
def reseq (tf : Pt → Pt → ℚ) (branchPt : Pt) (dates : List String) (dbd : DBD)
    (targets : List Target) (s : Scheds) : Scheds :=
  s.map fun e =>
    (e.1, e.2.map fun r =>
      match driverTimes dates dbd e.1 r.driver_id with
      | none => r
      | some q => optimizeRouteOrder tf branchPt targets r q.1 q.2)

/-! ## build_global_plan assembled (solver.py 229–778) -/

/-- The input bundle of `build_global_plan`.  `tf a b` stands for
`travel_time_minutes(haversine_km(a, b), speed_kmph)`; `speed_kmph` and
`max_solve_seconds` enter only through `tf` and the external solver call. -/
structure Args where
  dates : List String
  branchPt : Pt
  dbd : DBD
  targets : List Target
  tf : Pt → Pt → ℚ
  maxStops : ℕ

/-- The returned plan object.  `planError` carries no schedules, matching the
early-return error dicts. -/
inductive PlanResult where
  | planError (message : String)
  | noSolution (message : String) (unassigned : List String)
  | success (dates : List String) (schedules : Scheds) (unassigned : List String)
      (warnings : List String)

def expOf (a : Args) : List Clone := expandedTargets a.dates a.dbd a.targets

def vehOf (a : Args) : List Vehicle := vehicles a.dates a.dbd

/-- The empty per-date schedule skeleton (solver.py 415). -/
def stage0 (a : Args) : Scheds := a.dates.map fun d => (d, [])

/-- Schedules after CP extraction. -/
def stage1 (a : Args) (sol : CPSol) : Scheds := extractAll (expOf a) (vehOf a) sol (stage0 a)

/-- `assigned_ids` after extraction (solver.py 480–484), as a list with set
membership semantics. -/
def aset1 (a : Args) (sol : CPSol) : List String :=
  (stage1 a sol).flatMap fun e => e.2.flatMap fun r => r.stops.map fun st =>
    splitAtSign st.target_id

/-- `remaining` (solver.py 485–488): unassigned dict values sorted by id. -/
def remaining0 (a : Args) (sol : CPSol) : List Target :=
  isortBy (fun t u => strLe t.id u.id)
    (((pyKeys a.targets).filter fun k => !(aset1 a sol).contains k).map (lastWithId a.targets))

/-- The sweeper stage result: schedules, leftover remaining, appended
(driver-end, route) pairs. -/
def sweepResult (a : Args) (sol : CPSol) : Scheds × List Target × List (ℚ × Route) :=
  if (remaining0 a sol).isEmpty then (stage1 a sol, [], [])
  else sweepDates a.tf a.maxStops a.branchPt a.dbd a.dates.enum (remaining0 a sol) (stage1 a sol)

/-- Schedules after the greedy sweeper. -/
def stage2 (a : Args) (sol : CPSol) : Scheds := (sweepResult a sol).1

/-- The routes the sweeper appended, with their drivers' absolute end times. -/
def greedyRoutes (a : Args) (sol : CPSol) : List (ℚ × Route) := (sweepResult a sol).2.2

/-- `assigned_ids` after the sweeper (the sweeper adds each popped target id). -/
def asetFinal (a : Args) (sol : CPSol) : List String :=
  aset1 a sol ++ (greedyRoutes a sol).flatMap fun p => p.2.stops.map Stop.target_id

/-- `global_unassigned` (solver.py 545): sorted set difference. -/
def unassignedFinal (a : Args) (sol : CPSol) : List String :=
  isortBy strLe ((pyKeys a.targets).filter fun k => !(asetFinal a sol).contains k)

/-- Schedules after the driver backfill. -/
def stage3 (a : Args) (sol : CPSol) : Scheds := backfill a.dates a.dbd (stage2 a sol)

/-- Schedules after the re-sequencer: the final plan's schedules. -/
def stage4 (a : Args) (sol : CPSol) : Scheds :=
  reseq a.tf a.branchPt a.dates a.dbd a.targets (stage3 a sol)

/-- `build_global_plan`, with the CP solve outcome supplied as `cp`. -/
def buildGlobalPlan (a : Args) (cp : Option CPSol) : PlanResult :=
  if a.dates.isEmpty then .planError "No dates provided"
  else if (vehOf a).isEmpty then .planError "No drivers provided for given dates"
  else
    match cp with
    | none => .noSolution "No feasible solution found within time limit" (pyKeys a.targets)
    | some sol =>
      .success a.dates (stage4 a sol) (unassignedFinal a sol) (missingDriverDates a.dates a.dbd)

/-! ## The CP capacity dimension (solver.py 358–372) -/

/-- The unary demand vector: 0 at the depot, 1 per expanded node. -/
def cpDemands (nExp : ℕ) : List ℕ := 0 :: List.replicate nExp 1

/-- The per-vehicle capacities: uncapped single vehicle, otherwise
`max_stops_per_vehicle` with the dynamic bump for large multi-day instances. -/
def cpCapacities (nVeh nExp nDates maxStops : ℕ) : List ℕ :=
  if nVeh = 1 then [nExp + 1]
  else
    let dyn := if 50 < nExp ∧ 1 < nDates then min (max maxStops 20) 25 else maxStops
    List.replicate nVeh dyn

/-- The capacity vector `build_global_plan` posts for given inputs. -/
def cpCapacitiesOf (a : Args) : List ℕ :=
  cpCapacities (vehOf a).length (expOf a).length a.dates.length a.maxStops

/-! ## Observables used by the claims -/

/-- All stop target ids across all routes of all dates, in schedule order. -/
def planIds (s : Scheds) : List String :=
  s.flatMap fun e => e.2.flatMap fun r => r.stops.map Stop.target_id

/-- All stops across all routes. -/
def planStops (s : Scheds) : List Stop :=
  s.flatMap fun e => e.2.flatMap fun r => r.stops

/-- Every (date, route) pair of a schedule satisfies `P`. -/
def AllRoutes (P : String → Route → Prop) (s : Scheds) : Prop :=
  ∀ e ∈ s, ∀ r ∈ e.2, P e.1 r

instance (P : String → Route → Prop) [∀ d r, Decidable (P d r)] (s : Scheds) :
    Decidable (AllRoutes P s) := by
  unfold AllRoutes; exact inferInstance

/-- Well-formed input: distinct dates, distinct target ids, a well-formed
drivers dict whose keys are scheduled dates (the source indexes
`date_to_offset[d]` for every key), distinct driver ids per date, and
non-inverted work windows. -/
def WFa (a : Args) : Prop :=
  a.dates.Nodup ∧ (a.targets.map Target.id).Nodup ∧
  (a.dbd.map Prod.fst).Nodup ∧
  (∀ e ∈ a.dbd, e.1 ∈ a.dates ∧ (e.2.map Driver.id).Nodup) ∧
  (∀ e ∈ a.dbd, ∀ drv ∈ e.2, drv.start_time ≤ drv.end_time)

/-- No target id contains the reserved `'@'` character (the extraction stage
re-derives base ids via `split("@")[0]`). -/
def NoAtIds (a : Args) : Prop := ∀ t ∈ a.targets, '@' ∉ t.id.toList

instance (exp : List Clone) (veh : List Vehicle) (sol : CPSol) :
    Decidable (CPValid exp veh sol) := by
  unfold CPValid; exact inferInstance

instance (a : Args) : Decidable (WFa a) := by
  unfold WFa; exact inferInstance

instance (a : Args) : Decidable (NoAtIds a) := by
  unfold NoAtIds; exact inferInstance

/-- The claimed per-stop invariant (C2): arrival within the absolute time
window of a clone of the stop's target, and departure = arrival + stay. -/
def C2Prop (exp : List Clone) (st : Stop) : Prop :=
  (∃ c ∈ exp, c.base.id = st.target_id ∧
    c.tw_abs.1 ≤ st.arrival_min ∧ st.arrival_min ≤ c.tw_abs.2) ∧
  st.depart_min = st.arrival_min + st.stay_minutes

instance (exp : List Clone) (st : Stop) : Decidable (C2Prop exp st) := by
  unfold C2Prop; exact inferInstance

/-- The claimed per-route bound (C7): `end_time ≤ abs_end + overtime`. -/
def C7Prop (dates : List String) (dbd : DBD) (d : String) (r : Route) : Prop :=
  ∀ drv ∈ lookupD dbd d, drv.id = r.driver_id →
    r.end_time ≤ offsetOf dates d + drv.end_time + r.overtime_minutes

instance (dates : List String) (dbd : DBD) (d : String) (r : Route) :
    Decidable (C7Prop dates dbd d r) := by
  unfold C7Prop; exact inferInstance

/-- The repaired per-route bound (C7 amended): the same bound weakened by the
non-negative part of the return leg. -/
def C7PropAmended (dates : List String) (dbd : DBD) (d : String) (r : Route) : Prop :=
  ∀ drv ∈ lookupD dbd d, drv.id = r.driver_id →
    r.end_time ≤ offsetOf dates d + drv.end_time + r.overtime_minutes +
      max 0 r.return_travel_minutes

/-- The claimed C4 coverage property: every driver available on the earliest
used day has a non-empty route on that day. -/
def CoversDrivers (dbd : DBD) (s : Scheds) (d : String) : Prop :=
  ∀ drv ∈ lookupD dbd d, ∃ r ∈ routesOf s d, r.driver_id = drv.id ∧ r.stops ≠ []

instance (dbd : DBD) (s : Scheds) (d : String) : Decidable (CoversDrivers dbd s d) := by
  unfold CoversDrivers; exact inferInstance

/-! ## Concrete instances used by counterexamples and witnesses -/

/-- C1 counterexample input: a target id containing `'@'` (ids are arbitrary
unique strings per the spec data model). -/
def argsA : Args :=
  ⟨["d1"], (0, 0), [("d1", [⟨"A", 480, 960⟩])],
   [⟨"a", 0, 0, 0, true, none, none⟩, ⟨"a@x", 0, 0, 0, true, none, none⟩],
   fun _ _ => 0, 15⟩

/-- A CP assignment for `argsA` visiting only the clone of target `"a@x"`. -/
def solA : CPSol := ⟨[[(2, 480)]], [480]⟩

/-- C10 counterexample input, same shape as `argsA`. -/
def argsA2 : Args :=
  ⟨["d1"], (0, 0), [("d1", [⟨"A", 480, 960⟩])],
   [⟨"b", 0, 0, 0, true, none, none⟩, ⟨"b@y", 0, 0, 0, true, none, none⟩],
   fun _ _ => 0, 15⟩

def solA2 : CPSol := ⟨[[(2, 480)]], [480]⟩

/-- C2 counterexample input: a time-windowed target the CP solver drops and
the greedy sweeper schedules outside its window. -/
def argsB : Args :=
  ⟨["d1"], (0, 0), [("d1", [⟨"A", 480, 960⟩])],
   [⟨"T1", 0, 0, 0, true, some (600, 601), none⟩], fun _ _ => 0, 15⟩

def solB : CPSol := ⟨[[]], [480]⟩

/-- C4 counterexample input: three drivers, one target, no donor slots. -/
def argsC : Args :=
  ⟨["d1"], (0, 0), [("d1", [⟨"A", 480, 960⟩, ⟨"B", 480, 960⟩, ⟨"C", 480, 960⟩])],
   [⟨"T1", 0, 0, 0, true, none, none⟩], fun _ _ => 0, 15⟩

def solC : CPSol := ⟨[[(1, 480)], [], []], [480, 480, 480]⟩

/-- C5 counterexample input: the lone remaining target never fits, so the
sweeper appends an empty route. -/
def argsD : Args :=
  ⟨["d1"], (0, 0), [("d1", [⟨"A", 480, 960⟩])],
   [⟨"T1", 0, 0, 1000, true, none, none⟩], fun _ _ => 0, 15⟩

def solD : CPSol := ⟨[[]], [480]⟩

/-- C7 counterexample input: positive travel times; the greedy route's return
leg overshoots the driver's end with `overtime_minutes = 0`. -/
def argsE : Args :=
  ⟨["d1"], (0, 0), [("d1", [⟨"A", 0, 100⟩])],
   [⟨"T1", 1, 1, 10, true, none, none⟩],
   (fun p q => if p = q then 0 else 60), 15⟩

def solE : CPSol := ⟨[[]], [0]⟩

/-- C6 counterexample input: 26 windowless targets over 2 dates expand to 52
clones (> 50) with 2 vehicles, triggering the dynamic capacity bump. -/
def argsF : Args :=
  ⟨["d1", "d2"], (0, 0), [("d1", [⟨"A", 480, 960⟩]), ("d2", [⟨"B", 480, 960⟩])],
   (List.range 26).map (fun i => ⟨toString i, 0, 0, 0, true, none, none⟩),
   fun _ _ => 0, 15⟩

/-- Witness instance: two targets assigned to driver A by the CP solver, and a
second driver B the backfill serves from A's two-stop route. -/
def argsW : Args :=
  ⟨["d1"], (0, 0), [("d1", [⟨"A", 480, 960⟩, ⟨"B", 480, 960⟩])],
   [⟨"t1", 0, 0, 0, true, none, none⟩, ⟨"t2", 0, 0, 0, true, none, none⟩],
   fun _ _ => 0, 15⟩

def solW : CPSol := ⟨[[(1, 480), (2, 490)], []], [500, 480]⟩

/-- Empty-dates input (C3 witness). -/
def argsG1 : Args := ⟨[], (0, 0), [], [], fun _ _ => 0, 15⟩

/-- Dates without drivers (C3 witness). -/
def argsG2 : Args := ⟨["d1"], (0, 0), [], [], fun _ _ => 0, 15⟩

/-! # Theorems -/

/-! ## Generic helper lemmas -/

theorem mapM_ok_of_forall {α β : Type} (f : α → Except String β) (g : α → β) :
    ∀ l : List α, (∀ x ∈ l, f x = .ok (g x)) → l.mapM f = .ok (l.map g) := by
  intro l
  induction l with
  | nil => intro _; rfl
  | cons a t ih =>
    intro h
    have ha := h a (List.mem_cons_self a t)
    have ht := ih fun x hx => h x (List.mem_cons_of_mem a hx)
    simp only [List.mapM_cons, ha, ht, List.map_cons]
    rfl

theorem vehicles_eq_nil_iff (dates : List String) (dbd : DBD) :
    vehicles dates dbd = [] ↔ ∀ d ∈ dates, lookupD dbd d = [] := by
  unfold vehicles
  rw [List.flatMap_eq_nil_iff]
  constructor
  · intro h d hd
    have : ∃ i, (i, d) ∈ dates.enum := by
      rcases List.mem_iff_get.mp hd with ⟨i, hi⟩
      exact ⟨i, by simpa [hi] using List.mem_enum_iff_getElem?.mpr (by simp [← hi, List.get_eq_getElem])⟩
    rcases this with ⟨i, hi⟩
    have := h (i, d) hi
    simpa [List.map_eq_nil_iff] using this
  · intro h p hp
    have hd : p.2 ∈ dates := by
      have := List.enum_map_snd dates
      exact this ▸ List.mem_map_of_mem Prod.snd hp
    simp [h p.2 hd]

/-! ## C3: early error statuses -/

/-- C3: `build_global_plan` returns the error "No dates provided" exactly when
`dates` is empty, and "No drivers provided for given dates" exactly when
`dates` is non-empty but no scheduled date has drivers; an error result carries
no schedules (the `planError` constructor has no schedule component), so in
particular it is never a `success`. -/
theorem C3_error_statuses (a : Args) (cp : Option CPSol) :
    (buildGlobalPlan a cp = .planError "No dates provided" ↔ a.dates = []) ∧
    (a.dates ≠ [] →
      (buildGlobalPlan a cp = .planError "No drivers provided for given dates" ↔
        ∀ d ∈ a.dates, lookupD a.dbd d = [])) ∧
    (∀ msg, buildGlobalPlan a cp = .planError msg →
      ∀ ds ss uu ww, buildGlobalPlan a cp ≠ .success ds ss uu ww) := by
  refine ⟨?_, ?_, ?_⟩
  · unfold buildGlobalPlan
    by_cases h1 : a.dates.isEmpty
    · simp [h1, List.isEmpty_iff.mp h1]
    · simp only [h1, Bool.false_eq_true, if_false]
      have h1' : ¬ a.dates = [] := by simpa [List.isEmpty_iff] using h1
      by_cases h2 : (vehOf a).isEmpty
      · simp [h2, h1']
      · simp only [h2, Bool.false_eq_true, if_false]
        cases cp with
        | none => simp [h1']
        | some sol => simp [h1']
  · intro hne
    have h1 : a.dates.isEmpty = false := by
      simpa [List.isEmpty_iff] using hne
    unfold buildGlobalPlan
    simp only [h1, Bool.false_eq_true, if_false]
    by_cases h2 : (vehOf a).isEmpty
    · have hnil : vehicles a.dates a.dbd = [] := by
        simpa [vehOf, List.isEmpty_iff] using h2
      have hall := (vehicles_eq_nil_iff a.dates a.dbd).mp hnil
      simp only [h2, if_true]
      simpa using fun _ _ => hall _ ‹_›
    · have hveh : ¬ vehicles a.dates a.dbd = [] := by
        simpa [vehOf, List.isEmpty_iff] using h2
      have : ¬ (∀ d ∈ a.dates, lookupD a.dbd d = []) :=
        fun hall => hveh ((vehicles_eq_nil_iff a.dates a.dbd).mpr hall)
      simp only [h2, Bool.false_eq_true, if_false]
      cases cp with
      | none => simp [this]
      | some sol => simp [this]
  · intro msg hmsg ds ss uu ww hsucc
    rw [hmsg] at hsucc
    exact PlanResult.noConfusion hsucc

/-- C3 witness: both error messages fire on concrete inputs. -/
theorem C3_error_statuses_witness :
    buildGlobalPlan argsG1 none = .planError "No dates provided" ∧
    (argsG2.dates ≠ [] ∧
      buildGlobalPlan argsG2 none = .planError "No drivers provided for given dates") := by
  refine ⟨?_, ?_, ?_⟩
  · exact (C3_error_statuses argsG1 none).1.mpr rfl
  · decide
  · exact ((C3_error_statuses argsG2 none).2.1 (by decide)).mpr (by decide)

/-! ## C9: travel_time_minutes and haversine_km basics -/

theorem travel_time_minutes_pos (d s : ℝ) (hs : 0 < s) :
    travel_time_minutes d s = .ok (travelMinutes d s) := by
  unfold travel_time_minutes travelMinutes
  rw [if_neg (not_le.mpr hs)]
  by_cases hd : d ≤ 0 <;> simp [hd]

/-- C9: `travel_time_minutes` fails exactly when the speed is nonpositive; for
positive speed it returns 0 for nonpositive distance and `60·d/s` otherwise;
and the haversine distance from a point to itself is zero. -/
theorem C9_geo_primitives :
    (∀ d s : ℝ, (∃ msg, travel_time_minutes d s = .error msg) ↔ s ≤ 0) ∧
    (∀ d s : ℝ, 0 < s →
      travel_time_minutes d s = .ok (if d ≤ 0 then 0 else 60 * d / s)) ∧
    (∀ p : ℝ × ℝ, haversine_km p p = 0) := by
  refine ⟨?_, ?_, ?_⟩
  · intro d s
    unfold travel_time_minutes
    by_cases hs : s ≤ 0
    · simp [hs]
    · by_cases hd : d ≤ 0 <;> simp [hs, hd]
  · intro d s hs
    rw [travel_time_minutes_pos d s hs]
    unfold travelMinutes
    by_cases hd : d ≤ 0
    · simp [hd]
    · rw [if_neg hd, if_neg hd]
      ring_nf
  · intro p
    unfold haversine_km atan2
    simp [Real.arctan_zero]

/-- C9 witness: concrete instances of each conjunct. -/
theorem C9_geo_primitives_witness :
    ((∃ msg, travel_time_minutes 1 0 = .error msg) ↔ (0 : ℝ) ≤ 0) ∧
    travel_time_minutes 2 1 = .ok (if (2 : ℝ) ≤ 0 then 0 else 60 * 2 / 1) ∧
    haversine_km (3, 4) (3, 4) = 0 :=
  ⟨C9_geo_primitives.1 1 0, C9_geo_primitives.2.1 2 1 one_pos, C9_geo_primitives.2.2 (3, 4)⟩

/-! ## C8: the time matrix -/

theorem haversine_symm (p q : ℝ × ℝ) : haversine_km p q = haversine_km q p := by
  have key : ∀ x y : ℝ,
      Real.sin ((x - y) * Real.pi / 180 / 2) ^ 2 =
        Real.sin ((y - x) * Real.pi / 180 / 2) ^ 2 := by
    intro x y
    have hx : (x - y) * Real.pi / 180 / 2 = -((y - x) * Real.pi / 180 / 2) := by ring
    rw [hx, Real.sin_neg, neg_sq]
  simp only [haversine_km]
  rw [key p.1 q.1, key p.2 q.2, mul_comm (Real.cos (p.1 * Real.pi / 180))]

/-- The value of an entry of the time matrix for positive speed. -/
noncomputable def matrixEntry (branch : ℝ × ℝ) (pts : List (ℝ × ℝ)) (speed : ℝ)
    (i j : ℕ) : ℤ :=
  if i = j then 0
  else ⌈travelMinutes (haversine_km ((branch :: pts).getD i branch)
        ((branch :: pts).getD j branch)) speed⌉

/-- C8: for positive speed the matrix builder succeeds with an
(N+1)×(N+1) matrix whose (i,j) entry is the ceiled travel time between points
i and j (depot = 0), zero on the diagonal, and symmetric. -/
theorem C8_time_matrix (branch : ℝ × ℝ) (pts : List (ℝ × ℝ)) (speed : ℝ) (hs : 0 < speed) :
    ∃ M, buildTimeMatrix branch pts speed = .ok M ∧
      M.length = pts.length + 1 ∧
      (∀ row ∈ M, row.length = pts.length + 1) ∧
      (∀ i j, i < pts.length + 1 → j < pts.length + 1 →
        (M.getD i []).getD j 0 = matrixEntry branch pts speed i j) ∧
      (∀ i, (M.getD i []).getD i 0 = 0) ∧
      (∀ i j, (M.getD i []).getD j 0 = (M.getD j []).getD i 0) := by
  classical
  set n := (branch :: pts).length with hn
  have hentry : ∀ i j : ℕ,
      (if i = j then (Except.ok 0 : Except String ℤ)
       else (travel_time_minutes (haversine_km ((branch :: pts).getD i branch)
              ((branch :: pts).getD j branch)) speed).map (fun minutes => ⌈minutes⌉)) =
        .ok (matrixEntry branch pts speed i j) := by
    intro i j
    unfold matrixEntry
    by_cases hij : i = j
    · simp [hij]
    · rw [if_neg hij, if_neg hij, travel_time_minutes_pos _ _ hs]
      rfl
  have hrow : ∀ i : ℕ,
      (List.range n).mapM (fun j =>
        if i = j then (Except.ok 0 : Except String ℤ)
        else (travel_time_minutes (haversine_km ((branch :: pts).getD i branch)
              ((branch :: pts).getD j branch)) speed).map (fun minutes => ⌈minutes⌉)) =
        .ok ((List.range n).map (matrixEntry branch pts speed i)) := by
    intro i
    exact mapM_ok_of_forall _ _ _ (fun j _ => hentry i j)
  have hM : buildTimeMatrix branch pts speed =
      .ok ((List.range n).map (fun i => (List.range n).map (matrixEntry branch pts speed i))) := by
    unfold buildTimeMatrix
    exact mapM_ok_of_forall _ _ _ (fun i _ => hrow i)
  have gmr : ∀ {α : Type} (f : ℕ → α) (k i : ℕ) (d : α), i < k →
      ((List.range k).map f).getD i d = f i := by
    intro α f k i d h
    rw [List.getD_eq_getElem _ _ (by simpa using h), List.getElem_map, List.getElem_range]
  have gout : ∀ {α : Type} (f : ℕ → α) (k i : ℕ) (d : α), ¬ i < k →
      ((List.range k).map f).getD i d = d := by
    intro α f k i d h
    exact List.getD_eq_default _ _ (by simpa using not_lt.mp h)
  refine ⟨_, hM, ?_, ?_, ?_, ?_, ?_⟩
  · simp [hn]
  · intro row hrow'
    rcases List.mem_map.mp hrow' with ⟨i, _, hi⟩
    simp [← hi, hn]
  · intro i j hi hj
    have hi' : i < n := by simpa [hn] using hi
    have hj' : j < n := by simpa [hn] using hj
    rw [gmr _ _ _ _ hi', gmr _ _ _ _ hj']
  · intro i
    by_cases hi : i < n
    · rw [gmr _ _ _ _ hi, gmr _ _ _ _ hi]
      simp [matrixEntry]
    · rw [gout _ _ _ _ hi]
      rfl
  · intro i j
    have hsym : ∀ i' j', matrixEntry branch pts speed i' j' = matrixEntry branch pts speed j' i' := by
      intro i' j'
      unfold matrixEntry
      by_cases hij : i' = j'
      · simp [hij]
      · rw [if_neg hij, if_neg (Ne.symm hij), haversine_symm]
    by_cases hi : i < n <;> by_cases hj : j < n
    · rw [gmr _ _ _ _ hi, gmr _ _ _ _ hj, gmr _ _ _ _ hj, gmr _ _ _ _ hi]
      exact hsym i j
    · rw [gmr _ _ _ _ hi, gout _ _ _ _ hj, gout _ _ _ _ hj]
      rfl
    · rw [gout _ _ _ _ hi, gmr _ _ _ _ hj, gout _ _ _ _ hi]
      rfl
    · rw [gout _ _ _ _ hi, gout _ _ _ _ hj]
      rfl

/-- C8 witness: the bound hypothesis holds at speed 1 with a singleton list. -/
theorem C8_time_matrix_witness :
    (0 : ℝ) < 1 ∧
    ∃ M, buildTimeMatrix (0, 0) [(0, 1)] 1 = .ok M ∧
      M.length = 2 ∧ (∀ row ∈ M, row.length = 2) ∧
      (∀ i j, i < 2 → j < 2 → (M.getD i []).getD j 0 = matrixEntry (0, 0) [(0, 1)] 1 i j) ∧
      (∀ i, (M.getD i []).getD i 0 = 0) ∧
      (∀ i j, (M.getD i []).getD j 0 = (M.getD j []).getD i 0) :=
  ⟨one_pos, C8_time_matrix (0, 0) [(0, 1)] 1 one_pos⟩

/-! ## C6: the capacity dimension -/

/-- C6 counterexample: with 52 expanded clones over 2 dates and 2 vehicles the
posted capacity is 20 per vehicle, not `max_stops_per_vehicle = 15`. -/
theorem C6_counterexample :
    2 ≤ (vehOf argsF).length ∧ argsF.maxStops = 15 ∧
    (expOf argsF).length = 52 ∧
    cpCapacitiesOf argsF = [20, 20] ∧
    cpCapacitiesOf argsF ≠ List.replicate (vehOf argsF).length argsF.maxStops := by
  refine ⟨by decide, rfl, by decide, by decide, by decide⟩

/-- C6 amended: demands are 0 at the depot and 1 per node; a single vehicle is
capped above the node count; with several vehicles every capacity equals
`max_stops_per_vehicle` except that instances with more than 50 clones over
more than one date get `min(max(max_stops, 20), 25)` instead. -/
theorem C6_capacity_amended (a : Args) :
    cpDemands (expOf a).length = 0 :: List.replicate (expOf a).length 1 ∧
    ((vehOf a).length = 1 →
      cpCapacitiesOf a = [(expOf a).length + 1] ∧ (expOf a).length ≤ (expOf a).length + 1) ∧
    (2 ≤ (vehOf a).length →
      cpCapacitiesOf a =
        List.replicate (vehOf a).length
          (if 50 < (expOf a).length ∧ 1 < a.dates.length then min (max a.maxStops 20) 25
           else a.maxStops)) := by
  refine ⟨rfl, ?_, ?_⟩
  · intro h1
    unfold cpCapacitiesOf cpCapacities
    simp [h1]
  · intro h2
    have h1 : (vehOf a).length ≠ 1 := by omega
    unfold cpCapacitiesOf cpCapacities
    simp [h1]

/-- C6 amended witness. -/
theorem C6_capacity_amended_witness :
    2 ≤ (vehOf argsW).length ∧
    cpCapacitiesOf argsW =
      List.replicate (vehOf argsW).length
        (if 50 < (expOf argsW).length ∧ 1 < argsW.dates.length then min (max argsW.maxStops 20) 25
         else argsW.maxStops) :=
  ⟨by decide, (C6_capacity_amended argsW).2.2 (by decide)⟩

/-! ## Sorting, split and schedule-algebra helpers -/

theorem insertLe_perm {α : Type} (le : α → α → Bool) (a : α) (l : List α) :
    (insertLe le a l).Perm (a :: l) := by
  induction l with
  | nil => exact List.Perm.refl _
  | cons b t ih =>
    unfold insertLe
    by_cases h : le a b = true
    · rw [if_pos h]
    · rw [if_neg h]
      exact ((ih.cons b).trans (List.Perm.swap a b t))

theorem isortBy_perm {α : Type} (le : α → α → Bool) (l : List α) :
    (isortBy le l).Perm l := by
  induction l with
  | nil => exact List.Perm.refl _
  | cons a t ih => exact (insertLe_perm le a (isortBy le t)).trans (ih.cons a)

theorem mem_isortBy {α : Type} (le : α → α → Bool) (l : List α) (x : α) :
    x ∈ isortBy le l ↔ x ∈ l :=
  (isortBy_perm le l).mem_iff

theorem splitAtSign_eq_self (s : String) (h : '@' ∉ s.toList) : splitAtSign s = s := by
  unfold splitAtSign
  have key : s.toList.takeWhile (fun c => decide (c ≠ '@')) = s.toList := by
    simp
    exact fun x hx e => h (e ▸ hx)
  rw [key]
  cases s
  rfl

theorem perm_snoc_mid {α : Type} (A B : List α) (x : α) :
    (A ++ x :: B).Perm ((A ++ B) ++ [x]) := by
  have h1 : (A ++ x :: B).Perm (x :: (A ++ B)) := List.perm_middle
  have h2 : (x :: (A ++ B)).Perm ((A ++ B) ++ [x]) := by
    simpa using (@List.perm_append_comm _ [x] (A ++ B))
  exact h1.trans h2

theorem appendRoute_keys (s : Scheds) (d : String) (r : Route) :
    (appendRoute s d r).map Prod.fst = s.map Prod.fst := by
  unfold appendRoute
  rw [List.map_map]
  apply List.map_congr_left
  intro e _
  by_cases h : e.1 = d <;> simp [h]

theorem updRoute_keys (s : Scheds) (d : String) (ri : ℕ) (f : Route → Route) :
    (updRoute s d ri f).map Prod.fst = s.map Prod.fst := by
  unfold updRoute
  rw [List.map_map]
  apply List.map_congr_left
  intro e _
  by_cases h : e.1 = d <;> simp [h]

theorem appendRoute_of_not_mem (s : Scheds) (d : String) (r : Route)
    (h : d ∉ s.map Prod.fst) : appendRoute s d r = s := by
  induction s with
  | nil => rfl
  | cons e t ih =>
    have hne : e.1 ≠ d := fun he => h (by simp [he])
    have ht : d ∉ t.map Prod.fst := fun hm => h (List.mem_cons_of_mem _ hm)
    show (if e.1 = d then (e.1, e.2 ++ [r]) else e) :: appendRoute t d r = e :: t
    rw [if_neg hne, ih ht]

theorem updRoute_of_not_mem (s : Scheds) (d : String) (ri : ℕ) (f : Route → Route)
    (h : d ∉ s.map Prod.fst) : updRoute s d ri f = s := by
  induction s with
  | nil => rfl
  | cons e t ih =>
    have hne : e.1 ≠ d := fun he => h (by simp [he])
    have ht : d ∉ t.map Prod.fst := fun hm => h (List.mem_cons_of_mem _ hm)
    show (if e.1 = d then (e.1, modifyIdx f ri e.2) else e) :: updRoute t d ri f = e :: t
    rw [if_neg hne, ih ht]

theorem planIds_cons (e : String × List Route) (t : Scheds) :
    planIds (e :: t) = (e.2.flatMap fun r => r.stops.map Stop.target_id) ++ planIds t := by
  unfold planIds
  rw [List.flatMap_cons]

theorem planIds_appendRoute (s : Scheds) (d : String) (r : Route)
    (hnd : (s.map Prod.fst).Nodup) (hd : d ∈ s.map Prod.fst) :
    (planIds (appendRoute s d r)).Perm (planIds s ++ r.stops.map Stop.target_id) := by
  induction s with
  | nil => simp at hd
  | cons e t ih =>
    have hnd2 : (e.1 :: t.map Prod.fst).Nodup := by simpa using hnd
    have hnd' : (t.map Prod.fst).Nodup := (List.nodup_cons.mp hnd2).2
    by_cases h : e.1 = d
    · have hdt : d ∉ t.map Prod.fst := by
        have := (List.nodup_cons.mp hnd2).1
        rw [h] at this
        exact this
      have hstep : appendRoute (e :: t) d r = (e.1, e.2 ++ [r]) :: t := by
        show (if e.1 = d then (e.1, e.2 ++ [r]) else e) :: appendRoute t d r = _
        rw [if_pos h, appendRoute_of_not_mem t d r hdt]
      rw [hstep, planIds_cons, planIds_cons]
      rw [List.flatMap_append]
      simp only [List.flatMap_cons, List.flatMap_nil, List.append_nil]
      rw [List.append_assoc, List.append_assoc]
      exact List.Perm.append_left _ List.perm_append_comm
    · have hd' : d ∈ t.map Prod.fst := by
        rw [List.map_cons] at hd
        rcases List.mem_cons.mp hd with h1 | h2
        · exact absurd h1.symm h
        · exact h2
      have hstep : appendRoute (e :: t) d r = e :: appendRoute t d r := by
        show (if e.1 = d then (e.1, e.2 ++ [r]) else e) :: appendRoute t d r = _
        rw [if_neg h]
      rw [hstep, planIds_cons, planIds_cons, List.append_assoc]
      exact List.Perm.append_left _ (ih hnd' hd')

theorem AllRoutes_appendRoute {P : String → Route → Prop} {s : Scheds}
    (hs : AllRoutes P s) {d : String} {r : Route} (hr : P d r) :
    AllRoutes P (appendRoute s d r) := by
  intro e he r' hr'
  unfold appendRoute at he
  rcases List.mem_map.mp he with ⟨e0, he0, heq⟩
  by_cases h : e0.1 = d
  · rw [if_pos h] at heq
    subst heq
    rcases List.mem_append.mp hr' with h1 | h2
    · exact hs e0 he0 r' h1
    · have hr2 : r' = r := by simpa using h2
      subst hr2
      show P e0.1 r'
      rw [h]
      exact hr
  · rw [if_neg h] at heq
    subst heq
    exact hs e0 he0 r' hr'

theorem mem_modifyIdx {α : Type} (f : α → α) :
    ∀ (n : ℕ) (l : List α), ∀ x ∈ modifyIdx f n l, x ∈ l ∨ ∃ y ∈ l, x = f y
  | _, [], x, hx => by simp [modifyIdx] at hx
  | 0, a :: t, x, hx => by
    rcases (by simpa [modifyIdx] using hx : x = f a ∨ x ∈ t) with h | h
    · exact Or.inr ⟨a, List.mem_cons_self a t, h⟩
    · exact Or.inl (List.mem_cons_of_mem _ h)
  | n + 1, a :: t, x, hx => by
    rcases (by simpa [modifyIdx] using hx : x = a ∨ x ∈ modifyIdx f n t) with h | h
    · exact Or.inl (h ▸ List.mem_cons_self a t)
    · rcases mem_modifyIdx f n t x h with h1 | ⟨y, hy, hxy⟩
      · exact Or.inl (List.mem_cons_of_mem _ h1)
      · exact Or.inr ⟨y, List.mem_cons_of_mem _ hy, hxy⟩

theorem routesOf_cons_eq (e : String × List Route) (t : Scheds) (d : String) (h : e.1 = d) :
    routesOf (e :: t) d = e.2 := by
  unfold routesOf
  cases e with
  | mk k v =>
    simp only at h
    simp [List.lookup, h]

theorem routesOf_cons_ne (e : String × List Route) (t : Scheds) (d : String) (h : e.1 ≠ d) :
    routesOf (e :: t) d = routesOf t d := by
  unfold routesOf
  cases e with
  | mk k v =>
    simp only at h
    simp [List.lookup, beq_false_of_ne (Ne.symm h)]

theorem flatIds_modify_pop (st : Stop) :
    ∀ (ri : ℕ) (rs : List Route),
      (rs.getD ri dfltRoute).stops.getLast? = some st →
      ((modifyIdx (fun r => popRoute r st) ri rs).flatMap
          (fun r => r.stops.map Stop.target_id) ++ [st.target_id]).Perm
        (rs.flatMap fun r => r.stops.map Stop.target_id)
  | ri, [], hst => by
    simp [List.getD, dfltRoute] at hst
  | 0, r :: t, hst => by
    rw [List.getD_cons_zero] at hst
    have hne : r.stops ≠ [] := by
      intro he
      rw [he] at hst
      simp at hst
    have hl : r.stops.getLast hne = st := by
      have := List.getLast?_eq_getLast r.stops hne
      rw [this] at hst
      exact Option.some.inj hst
    have hsplit : r.stops.dropLast ++ [st] = r.stops := by
      rw [← hl]
      exact List.dropLast_append_getLast hne
    have hids : r.stops.dropLast.map Stop.target_id ++ [st.target_id] =
        r.stops.map Stop.target_id := by
      rw [← hsplit, List.map_append]
      simp [hsplit]
    rw [show modifyIdx (fun r' => popRoute r' st) 0 (r :: t) = popRoute r st :: t from rfl,
      List.flatMap_cons, List.flatMap_cons]
    have hpop : (popRoute r st).stops = r.stops.dropLast := rfl
    rw [hpop]
    have hp1 : ((r.stops.dropLast.map Stop.target_id ++
          t.flatMap fun r' => r'.stops.map Stop.target_id) ++ [st.target_id]).Perm
        ((r.stops.dropLast.map Stop.target_id ++ [st.target_id]) ++
          t.flatMap fun r' => r'.stops.map Stop.target_id) := by
      rw [List.append_assoc, List.append_assoc]
      exact List.Perm.append_left _ List.perm_append_comm
    rw [hids] at hp1
    exact hp1
  | n + 1, r :: t, hst => by
    rw [List.getD_cons_succ] at hst
    rw [show modifyIdx (fun r' => popRoute r' st) (n + 1) (r :: t) =
        r :: modifyIdx (fun r' => popRoute r' st) n t from rfl,
      List.flatMap_cons, List.flatMap_cons, List.append_assoc]
    exact List.Perm.append_left _ (flatIds_modify_pop st n t hst)

theorem planIds_updRoute_pop (s : Scheds) (d : String) (ri : ℕ) (st : Stop)
    (hnd : (s.map Prod.fst).Nodup)
    (hst : ((routesOf s d).getD ri dfltRoute).stops.getLast? = some st) :
    (planIds (updRoute s d ri (fun r => popRoute r st)) ++ [st.target_id]).Perm (planIds s) := by
  induction s with
  | nil =>
    unfold routesOf at hst
    simp [List.getD, dfltRoute] at hst
  | cons e t ih =>
    have hnd2 : (e.1 :: t.map Prod.fst).Nodup := by simpa using hnd
    by_cases h : e.1 = d
    · have hdt : d ∉ t.map Prod.fst := by
        have := (List.nodup_cons.mp hnd2).1
        rw [h] at this
        exact this
      have hstep : updRoute (e :: t) d ri (fun r => popRoute r st) =
          (e.1, modifyIdx (fun r => popRoute r st) ri e.2) :: t := by
        show (if e.1 = d then (e.1, modifyIdx (fun r => popRoute r st) ri e.2) else e) ::
          updRoute t d ri (fun r => popRoute r st) = _
        rw [if_pos h, updRoute_of_not_mem t d ri _ hdt]
      rw [routesOf_cons_eq e t d h] at hst
      rw [hstep, planIds_cons, planIds_cons]
      have hmod := flatIds_modify_pop st ri e.2 hst
      have hp1 : (((modifyIdx (fun r => popRoute r st) ri e.2).flatMap
              (fun r => r.stops.map Stop.target_id) ++ planIds t) ++ [st.target_id]).Perm
          (((modifyIdx (fun r => popRoute r st) ri e.2).flatMap
              (fun r => r.stops.map Stop.target_id) ++ [st.target_id]) ++ planIds t) := by
        rw [List.append_assoc, List.append_assoc]
        exact List.Perm.append_left _ List.perm_append_comm
      exact hp1.trans (List.Perm.append_right _ hmod)
    · have hstep : updRoute (e :: t) d ri (fun r => popRoute r st) =
          e :: updRoute t d ri (fun r => popRoute r st) := by
        show (if e.1 = d then (e.1, modifyIdx (fun r => popRoute r st) ri e.2) else e) ::
          updRoute t d ri (fun r => popRoute r st) = _
        rw [if_neg h]
      rw [routesOf_cons_ne e t d h] at hst
      rw [hstep, planIds_cons, planIds_cons, List.append_assoc]
      exact List.Perm.append_left _ (ih (List.nodup_cons.mp hnd2).2 hst)

theorem vehicles_date_mem (dates : List String) (dbd : DBD) :
    ∀ v ∈ vehicles dates dbd, v.date ∈ dates := by
  intro v hv
  unfold vehicles at hv
  rcases List.mem_flatMap.mp hv with ⟨p, hp, hv2⟩
  rcases List.mem_map.mp hv2 with ⟨drv, _, heq⟩
  have hd : p.2 ∈ dates := by
    have h2 := List.enum_map_snd dates
    exact h2 ▸ List.mem_map_of_mem Prod.snd hp
  rw [← heq]
  exact hd

theorem cloneAt_mem (exp : List Clone) (nk : ℕ) (h1 : 1 ≤ nk) (h2 : nk ≤ exp.length) :
    cloneAt exp nk ∈ exp := by
  unfold cloneAt
  rw [List.getD_eq_getElem _ _ (by omega)]
  exact List.getElem_mem _

theorem expandFloating_base (dates : List String) (dbd : DBD) (t : Target) :
    ∀ c ∈ expandFloating dates dbd t, c.base = t ∧ c.base_id = t.id := by
  intro c hc
  unfold expandFloating at hc
  cases ht : t.time_window with
  | some w =>
    rw [ht] at hc
    rcases List.mem_map.mp hc with ⟨d, _, heq⟩
    rw [← heq]
    exact ⟨rfl, rfl⟩
  | none =>
    rw [ht] at hc
    rcases List.mem_map.mp hc with ⟨d, _, heq⟩
    rw [← heq]
    exact ⟨rfl, rfl⟩

theorem expandTarget_base (dates : List String) (dbd : DBD) (t : Target) :
    ∀ c ∈ expandTarget dates dbd t, c.base = t ∧ c.base_id = t.id := by
  intro c hc
  unfold expandTarget at hc
  cases hw : t.datetime_window with
  | some w =>
    rw [hw] at hc
    have hc2 : c ∈ (if dates.contains w.date = true then [cloneOfDtw dates t w]
        else expandFloating dates dbd t) := hc
    by_cases hd : dates.contains w.date = true
    · rw [if_pos hd] at hc2
      have hceq : c = cloneOfDtw dates t w := by simpa using hc2
      rw [hceq]
      exact ⟨rfl, rfl⟩
    · rw [if_neg hd] at hc2
      exact expandFloating_base dates dbd t c hc2
  | none =>
    rw [hw] at hc
    exact expandFloating_base dates dbd t c hc

theorem expandedTargets_base (dates : List String) (dbd : DBD) (targets : List Target) :
    ∀ c ∈ expandedTargets dates dbd targets, ∃ t ∈ targets, c.base = t ∧ c.base_id = t.id := by
  intro c hc
  rcases List.mem_flatMap.mp hc with ⟨t, ht, hc2⟩
  exact ⟨t, ht, expandTarget_base dates dbd t c hc2⟩

theorem extStops_ids (exp : List Clone) :
    ∀ (vis : List (ℕ × ℚ)) (pd : ℚ) (acc : List Stop) (tT tS : ℚ),
      ((extStops exp vis pd acc tT tS).1).map Stop.target_id =
        acc.map Stop.target_id ++ vis.map fun p => (cloneAt exp p.1).base.id
  | [], pd, acc, tT, tS => by simp [extStops]
  | (nk, arrival) :: rest, pd, acc, tT, tS => by
    rw [show extStops exp ((nk, arrival) :: rest) pd acc tT tS =
      extStops exp rest (arrival + (cloneAt exp nk).base.stay_minutes)
        (acc ++ [⟨(cloneAt exp nk).base.id, arrival,
          arrival + (cloneAt exp nk).base.stay_minutes,
          max 0 (arrival - pd), (cloneAt exp nk).base.stay_minutes⟩])
        (tT + max 0 (arrival - pd)) (tS + (cloneAt exp nk).base.stay_minutes) from rfl]
    rw [extStops_ids exp rest _ _ _ _]
    simp

theorem extStops_mem (exp : List Clone) :
    ∀ (vis : List (ℕ × ℚ)) (pd : ℚ) (acc : List Stop) (tT tS : ℚ),
      ∀ st ∈ (extStops exp vis pd acc tT tS).1,
        st ∈ acc ∨ ∃ p ∈ vis, st.target_id = (cloneAt exp p.1).base.id ∧
          st.arrival_min = p.2 ∧
          st.depart_min = p.2 + (cloneAt exp p.1).base.stay_minutes ∧
          st.stay_minutes = (cloneAt exp p.1).base.stay_minutes
  | [], pd, acc, tT, tS, st, hst => Or.inl (by simpa [extStops] using hst)
  | (nk, arrival) :: rest, pd, acc, tT, tS, st, hst => by
    rw [show extStops exp ((nk, arrival) :: rest) pd acc tT tS =
      extStops exp rest (arrival + (cloneAt exp nk).base.stay_minutes)
        (acc ++ [⟨(cloneAt exp nk).base.id, arrival,
          arrival + (cloneAt exp nk).base.stay_minutes,
          max 0 (arrival - pd), (cloneAt exp nk).base.stay_minutes⟩])
        (tT + max 0 (arrival - pd)) (tS + (cloneAt exp nk).base.stay_minutes) from rfl] at hst
    rcases extStops_mem exp rest _ _ _ _ st hst with h1 | ⟨p, hp, hrest⟩
    · rcases List.mem_append.mp h1 with h2 | h3
      · exact Or.inl h2
      · have : st = ⟨(cloneAt exp nk).base.id, arrival,
            arrival + (cloneAt exp nk).base.stay_minutes,
            max 0 (arrival - pd), (cloneAt exp nk).base.stay_minutes⟩ := by simpa using h3
        refine Or.inr ⟨(nk, arrival), List.mem_cons_self _ _, ?_⟩
        rw [this]
        exact ⟨rfl, rfl, rfl, rfl⟩
    · exact Or.inr ⟨p, List.mem_cons_of_mem _ hp, hrest⟩

theorem extractVeh_ids (exp : List Clone) (v : Vehicle) (vis : List (ℕ × ℚ)) (ea : ℚ) :
    (extractVeh exp v vis ea).stops.map Stop.target_id =
      vis.map fun p => (cloneAt exp p.1).base.id := by
  unfold extractVeh
  rw [extStops_ids exp vis v.startT [] 0 0]
  simp

theorem extractVeh_mem (exp : List Clone) (v : Vehicle) (vis : List (ℕ × ℚ)) (ea : ℚ) :
    ∀ st ∈ (extractVeh exp v vis ea).stops,
      ∃ p ∈ vis, st.target_id = (cloneAt exp p.1).base.id ∧
        st.arrival_min = p.2 ∧
        st.depart_min = p.2 + (cloneAt exp p.1).base.stay_minutes ∧
        st.stay_minutes = (cloneAt exp p.1).base.stay_minutes := by
  intro st hst
  have := extStops_mem exp vis v.startT [] 0 0 st hst
  rcases this with h1 | h2
  · simp at h1
  · exact h2

theorem extractAll_keys (exp : List Clone) (veh : List Vehicle) (sol : CPSol) (s0 : Scheds) :
    (extractAll exp veh sol s0).map Prod.fst = s0.map Prod.fst := by
  unfold extractAll
  generalize veh.zip (sol.visits.zip sol.endArr) = l
  induction l generalizing s0 with
  | nil => rfl
  | cons q t ih =>
    rw [List.foldl_cons, ih, appendRoute_keys]

theorem planIds_extractFold (exp : List Clone) :
    ∀ (l : List (Vehicle × List (ℕ × ℚ) × ℚ)) (s0 : Scheds),
      (s0.map Prod.fst).Nodup → (∀ q ∈ l, q.1.date ∈ s0.map Prod.fst) →
      (planIds (l.foldl
          (fun s q => appendRoute s q.1.date (extractVeh exp q.1 q.2.1 q.2.2)) s0)).Perm
        (planIds s0 ++ l.flatMap fun q => q.2.1.map fun p => (cloneAt exp p.1).base.id)
  | [], s0, _, _ => by simp
  | q :: t, s0, hnd, hdates => by
    rw [List.foldl_cons]
    have hq : q.1.date ∈ s0.map Prod.fst := hdates q (List.mem_cons_self _ _)
    have h1 := planIds_appendRoute s0 q.1.date (extractVeh exp q.1 q.2.1 q.2.2) hnd hq
    have hkeys : (appendRoute s0 q.1.date (extractVeh exp q.1 q.2.1 q.2.2)).map Prod.fst =
        s0.map Prod.fst := appendRoute_keys _ _ _
    have ih := planIds_extractFold exp t
      (appendRoute s0 q.1.date (extractVeh exp q.1 q.2.1 q.2.2))
      (by rw [hkeys]; exact hnd)
      (by intro q' hq'; rw [hkeys]; exact hdates q' (List.mem_cons_of_mem _ hq'))
    rw [extractVeh_ids] at h1
    have h2 := ih.trans (List.Perm.append_right _ h1)
    rw [List.flatMap_cons, ← List.append_assoc]
    exact h2

theorem sweepRoute_master (tf : Pt → Pt → ℚ) (maxStops : ℕ) (endT : ℚ) :
    ∀ (rem : List Target) (cur : ℚ) (pt : Pt) (acc : List Stop) (tacc : ℚ),
      ∃ k, ∃ new : List Stop,
        (sweepRoute tf maxStops endT rem cur pt acc tacc).1 = acc ++ new ∧
        new.map Stop.target_id = (rem.map Target.id).take k ∧
        (sweepRoute tf maxStops endT rem cur pt acc tacc).2.1 = rem.drop k ∧
        (∀ st ∈ new, st.depart_min = st.arrival_min + st.stay_minutes ∧ st.depart_min ≤ endT) ∧
        (acc.length ≤ maxStops → (acc ++ new).length ≤ maxStops) ∧
        (new = [] → (sweepRoute tf maxStops endT rem cur pt acc tacc).2.2.1 = cur) ∧
        (cur ≤ endT → (sweepRoute tf maxStops endT rem cur pt acc tacc).2.2.1 ≤ endT)
  | [], cur, pt, acc, tacc =>
    ⟨0, [], by simp [sweepRoute], by simp, by simp [sweepRoute], by simp,
      by simp, fun _ => rfl, fun h => h⟩
  | t :: rest, cur, pt, acc, tacc => by
    by_cases hlen : acc.length < maxStops
    · by_cases hguard : endT < cur + tf pt (t.lat, t.lon) + t.stay_minutes
      · refine ⟨0, [], ?_, by simp, ?_, by simp, by simpa using fun h => h, fun _ => ?_, fun h => ?_⟩
        · simp [sweepRoute, hlen, hguard]
        · simp [sweepRoute, hlen, hguard]
        · simp [sweepRoute, hlen, hguard]
        · simp [sweepRoute, hlen, hguard]
          exact h
      · have hrec : sweepRoute tf maxStops endT (t :: rest) cur pt acc tacc =
            sweepRoute tf maxStops endT rest (cur + tf pt (t.lat, t.lon) + t.stay_minutes)
              (t.lat, t.lon)
              (acc ++ [⟨t.id, cur + tf pt (t.lat, t.lon),
                cur + tf pt (t.lat, t.lon) + t.stay_minutes, tf pt (t.lat, t.lon),
                t.stay_minutes⟩]) (tacc + tf pt (t.lat, t.lon)) := by
          conv_lhs => rw [sweepRoute]
          rw [if_pos hlen, if_neg hguard]
        rcases sweepRoute_master tf maxStops endT rest
            (cur + tf pt (t.lat, t.lon) + t.stay_minutes) (t.lat, t.lon)
            (acc ++ [⟨t.id, cur + tf pt (t.lat, t.lon),
              cur + tf pt (t.lat, t.lon) + t.stay_minutes, tf pt (t.lat, t.lon),
              t.stay_minutes⟩]) (tacc + tf pt (t.lat, t.lon)) with
          ⟨k, new, h1, h2, h3, h4, h5, h6, h7⟩
        have hdep : cur + tf pt (t.lat, t.lon) + t.stay_minutes ≤ endT := not_lt.mp hguard
        refine ⟨k + 1, ⟨t.id, cur + tf pt (t.lat, t.lon),
          cur + tf pt (t.lat, t.lon) + t.stay_minutes, tf pt (t.lat, t.lon),
          t.stay_minutes⟩ :: new, ?_, ?_, ?_, ?_, ?_, ?_, ?_⟩
        · rw [hrec, h1, List.append_assoc]
          rfl
        · simp [h2]
        · rw [hrec, h3]
          rfl
        · intro st hst
          rcases List.mem_cons.mp hst with h | h
          · subst h
            constructor
            · show cur + tf pt (t.lat, t.lon) + t.stay_minutes =
                cur + tf pt (t.lat, t.lon) + t.stay_minutes
              rfl
            · exact hdep
          · exact h4 st h
        · intro hacc
          have := h5 (by simpa using Nat.succ_le_of_lt hlen)
          simpa using this
        · intro hnew
          exact absurd hnew (by simp)
        · intro _
          rw [hrec]
          exact h7 hdep
    · refine ⟨0, [], ?_, by simp, ?_, by simp, by simpa using fun h => h, fun _ => ?_, fun h => ?_⟩
      · simp [sweepRoute, hlen]
      · simp [sweepRoute, hlen]
      · simp [sweepRoute, hlen]
      · simp [sweepRoute, hlen]
        exact h

theorem sweepDriver_facts (tf : Pt → Pt → ℚ) (maxStops : ℕ) (branchPt : Pt) (offset : ℚ)
    (drv : Driver) (rem : List Target) :
    ∃ k, (sweepDriver tf maxStops branchPt offset drv rem).2 = rem.drop k ∧
      (sweepDriver tf maxStops branchPt offset drv rem).1.stops.map Stop.target_id =
        (rem.map Target.id).take k ∧
      (sweepDriver tf maxStops branchPt offset drv rem).1.driver_id = drv.id ∧
      (sweepDriver tf maxStops branchPt offset drv rem).1.overtime_minutes = 0 ∧
      (sweepDriver tf maxStops branchPt offset drv rem).1.stops.length ≤ maxStops ∧
      (∀ st ∈ (sweepDriver tf maxStops branchPt offset drv rem).1.stops,
        st.depart_min = st.arrival_min + st.stay_minutes ∧
        st.depart_min ≤ offset + drv.end_time) ∧
      (drv.start_time ≤ drv.end_time →
        (sweepDriver tf maxStops branchPt offset drv rem).1.end_time ≤
          offset + drv.end_time +
            max 0 (sweepDriver tf maxStops branchPt offset drv rem).1.return_travel_minutes) := by
  rcases sweepRoute_master tf maxStops (offset + drv.end_time) rem (offset + drv.start_time)
      branchPt [] 0 with ⟨k, new, h1, h2, h3, h4, h5, h6, h7⟩
  rw [List.nil_append] at h1
  unfold sweepDriver sweepFinish
  rw [h1, h3]
  by_cases hnil : new = []
  · subst hnil
    simp only [List.isEmpty_nil, if_true]
    refine ⟨k, by first | rfl | trivial | simp, by simpa using h2,
      by first | rfl | trivial | simp, by first | rfl | trivial | simp, by simp, by simp, ?_⟩
    intro hse
    have h6' := h6 rfl
    simp only [h6']
    have hle : offset + drv.start_time ≤ offset + drv.end_time := by linarith
    simpa using hle
  · rw [if_neg (by simpa [List.isEmpty_iff] using hnil)]
    refine ⟨k, rfl, h2, rfl, rfl, by simpa using h5 (by simp), h4, ?_⟩
    intro hse
    have hcur := h7 (by linarith)
    have hr : (tf (sweepRoute tf maxStops (offset + drv.end_time) rem
          (offset + drv.start_time) branchPt [] 0).2.2.2.1 branchPt) ≤
        max 0 (tf (sweepRoute tf maxStops (offset + drv.end_time) rem
          (offset + drv.start_time) branchPt [] 0).2.2.2.1 branchPt) := le_max_right _ _
    show (sweepRoute tf maxStops (offset + drv.end_time) rem (offset + drv.start_time)
        branchPt [] 0).2.2.1 + _ ≤ _
    linarith

theorem sweepDrivers_master (tf : Pt → Pt → ℚ) (maxStops : ℕ) (branchPt : Pt) (offset : ℚ)
    (d : String) :
    ∀ (drvs : List Driver) (rem : List Target) (s : Scheds),
      (((sweepDrivers tf maxStops branchPt offset d drvs rem s).1).map Prod.fst =
        s.map Prod.fst) ∧
      (∃ k, (sweepDrivers tf maxStops branchPt offset d drvs rem s).2.1 = rem.drop k ∧
        ((sweepDrivers tf maxStops branchPt offset d drvs rem s).2.2.flatMap
            fun pr => pr.2.stops.map Stop.target_id) = (rem.map Target.id).take k) ∧
      (∀ pr ∈ (sweepDrivers tf maxStops branchPt offset d drvs rem s).2.2,
        ∃ drv ∈ drvs, ∃ rem', pr = (offset + drv.end_time,
          (sweepDriver tf maxStops branchPt offset drv rem').1)) ∧
      ((s.map Prod.fst).Nodup → d ∈ s.map Prod.fst →
        (planIds (sweepDrivers tf maxStops branchPt offset d drvs rem s).1).Perm
          (planIds s ++ ((sweepDrivers tf maxStops branchPt offset d drvs rem s).2.2.flatMap
            fun pr => pr.2.stops.map Stop.target_id)))
  | [], rem, s => by
    refine ⟨rfl, ⟨0, by simp [sweepDrivers], by simp [sweepDrivers]⟩, ?_, ?_⟩
    · intro pr hpr
      simp [sweepDrivers] at hpr
    · intro _ _
      simp [sweepDrivers]
  | drv :: ds, rem, s => by
    by_cases hrem : rem.isEmpty
    · rw [show sweepDrivers tf maxStops branchPt offset d (drv :: ds) rem s = (s, rem, []) by
        rw [sweepDrivers, if_pos hrem]]
      refine ⟨rfl, ⟨0, by simp, by simp⟩, ?_, ?_⟩
      · intro pr hpr
        simp at hpr
      · intro _ _
        simp
    · have hrec : sweepDrivers tf maxStops branchPt offset d (drv :: ds) rem s =
          ((sweepDrivers tf maxStops branchPt offset d ds
              (sweepDriver tf maxStops branchPt offset drv rem).2
              (appendRoute s d (sweepDriver tf maxStops branchPt offset drv rem).1)).1,
           (sweepDrivers tf maxStops branchPt offset d ds
              (sweepDriver tf maxStops branchPt offset drv rem).2
              (appendRoute s d (sweepDriver tf maxStops branchPt offset drv rem).1)).2.1,
           (offset + drv.end_time, (sweepDriver tf maxStops branchPt offset drv rem).1) ::
           (sweepDrivers tf maxStops branchPt offset d ds
              (sweepDriver tf maxStops branchPt offset drv rem).2
              (appendRoute s d (sweepDriver tf maxStops branchPt offset drv rem).1)).2.2) := by
        rw [sweepDrivers, if_neg hrem]
      rcases sweepDrivers_master tf maxStops branchPt offset d ds
          (sweepDriver tf maxStops branchPt offset drv rem).2
          (appendRoute s d (sweepDriver tf maxStops branchPt offset drv rem).1) with
        ⟨ihkeys, ⟨k2, ihdrop, ihids⟩, ihmem, ihperm⟩
      rcases sweepDriver_facts tf maxStops branchPt offset drv rem with
        ⟨k1, hd1, hd2, _, _, _, _, _⟩
      have hkeys : ((sweepDrivers tf maxStops branchPt offset d (drv :: ds) rem s).1).map
          Prod.fst = s.map Prod.fst := by
        rw [hrec]
        rw [ihkeys, appendRoute_keys]
      refine ⟨hkeys, ⟨k1 + k2, ?_, ?_⟩, ?_, ?_⟩
      · rw [hrec]
        show (sweepDrivers tf maxStops branchPt offset d ds _ _).2.1 = _
        rw [ihdrop, hd1, List.drop_drop]
      · rw [hrec]
        show ((offset + drv.end_time, (sweepDriver tf maxStops branchPt offset drv rem).1) ::
          (sweepDrivers tf maxStops branchPt offset d ds _ _).2.2).flatMap
            (fun pr => pr.2.stops.map Stop.target_id) = _
        rw [List.flatMap_cons, ihids, hd1, hd2, List.take_add]
        congr 1
        rw [List.map_drop]
      · intro pr hpr
        rw [hrec] at hpr
        rcases List.mem_cons.mp hpr with h | h
        · exact ⟨drv, List.mem_cons_self _ _, rem, h⟩
        · rcases ihmem pr h with ⟨drv', hdrv', rem', heq⟩
          exact ⟨drv', List.mem_cons_of_mem _ hdrv', rem', heq⟩
      · intro hnd hd
        rw [hrec]
        have hkeys2 : (appendRoute s d
            (sweepDriver tf maxStops branchPt offset drv rem).1).map Prod.fst =
            s.map Prod.fst := appendRoute_keys _ _ _
        have h1 := ihperm (by rw [hkeys2]; exact hnd) (by rw [hkeys2]; exact hd)
        have h2 := planIds_appendRoute s d
          (sweepDriver tf maxStops branchPt offset drv rem).1 hnd hd
        have h3 := h1.trans (List.Perm.append_right _ h2)
        show (planIds (sweepDrivers tf maxStops branchPt offset d ds _ _).1).Perm _
        rw [List.flatMap_cons, ← List.append_assoc]
        exact h3

theorem sweepDates_master (tf : Pt → Pt → ℚ) (maxStops : ℕ) (branchPt : Pt) (dbd : DBD) :
    ∀ (ds : List (ℕ × String)) (rem : List Target) (s : Scheds),
      (((sweepDates tf maxStops branchPt dbd ds rem s).1).map Prod.fst = s.map Prod.fst) ∧
      (∃ k, (sweepDates tf maxStops branchPt dbd ds rem s).2.1 = rem.drop k ∧
        ((sweepDates tf maxStops branchPt dbd ds rem s).2.2.flatMap
            fun pr => pr.2.stops.map Stop.target_id) = (rem.map Target.id).take k) ∧
      (∀ pr ∈ (sweepDates tf maxStops branchPt dbd ds rem s).2.2,
        ∃ p ∈ ds, ∃ drv ∈ lookupD dbd p.2, ∃ rem',
          pr = ((p.1 : ℚ) * 1440 + drv.end_time,
            (sweepDriver tf maxStops branchPt ((p.1 : ℚ) * 1440) drv rem').1)) ∧
      ((s.map Prod.fst).Nodup → (∀ p ∈ ds, p.2 ∈ s.map Prod.fst) →
        (planIds (sweepDates tf maxStops branchPt dbd ds rem s).1).Perm
          (planIds s ++ ((sweepDates tf maxStops branchPt dbd ds rem s).2.2.flatMap
            fun pr => pr.2.stops.map Stop.target_id)))
  | [], rem, s => by
    refine ⟨rfl, ⟨0, by simp [sweepDates], by simp [sweepDates]⟩, ?_, ?_⟩
    · intro pr hpr
      simp [sweepDates] at hpr
    · intro _ _
      simp [sweepDates]
  | p :: ds, rem, s => by
    by_cases hrem : rem.isEmpty
    · rw [show sweepDates tf maxStops branchPt dbd (p :: ds) rem s = (s, rem, []) by
        rw [sweepDates, if_pos hrem]]
      refine ⟨rfl, ⟨0, by simp, by simp⟩, ?_, ?_⟩
      · intro pr hpr
        simp at hpr
      · intro _ _
        simp
    · have hrec : sweepDates tf maxStops branchPt dbd (p :: ds) rem s =
          ((sweepDates tf maxStops branchPt dbd ds
              (sweepDrivers tf maxStops branchPt ((p.1 : ℚ) * 1440) p.2 (lookupD dbd p.2) rem
                s).2.1
              (sweepDrivers tf maxStops branchPt ((p.1 : ℚ) * 1440) p.2 (lookupD dbd p.2) rem
                s).1).1,
           (sweepDates tf maxStops branchPt dbd ds
              (sweepDrivers tf maxStops branchPt ((p.1 : ℚ) * 1440) p.2 (lookupD dbd p.2) rem
                s).2.1
              (sweepDrivers tf maxStops branchPt ((p.1 : ℚ) * 1440) p.2 (lookupD dbd p.2) rem
                s).1).2.1,
           (sweepDrivers tf maxStops branchPt ((p.1 : ℚ) * 1440) p.2 (lookupD dbd p.2) rem
              s).2.2 ++
           (sweepDates tf maxStops branchPt dbd ds
              (sweepDrivers tf maxStops branchPt ((p.1 : ℚ) * 1440) p.2 (lookupD dbd p.2) rem
                s).2.1
              (sweepDrivers tf maxStops branchPt ((p.1 : ℚ) * 1440) p.2 (lookupD dbd p.2) rem
                s).1).2.2) := by
        rw [sweepDates, if_neg hrem]
      rcases sweepDrivers_master tf maxStops branchPt ((p.1 : ℚ) * 1440) p.2 (lookupD dbd p.2)
          rem s with ⟨dkeys, ⟨k1, ddrop, dids⟩, dmem, dperm⟩
      rcases sweepDates_master tf maxStops branchPt dbd ds
          (sweepDrivers tf maxStops branchPt ((p.1 : ℚ) * 1440) p.2 (lookupD dbd p.2) rem
            s).2.1
          (sweepDrivers tf maxStops branchPt ((p.1 : ℚ) * 1440) p.2 (lookupD dbd p.2) rem
            s).1 with ⟨ihkeys, ⟨k2, ihdrop, ihids⟩, ihmem, ihperm⟩
      refine ⟨?_, ⟨k1 + k2, ?_, ?_⟩, ?_, ?_⟩
      · rw [hrec]
        show ((sweepDates tf maxStops branchPt dbd ds _ _).1).map Prod.fst = _
        rw [ihkeys, dkeys]
      · rw [hrec]
        show (sweepDates tf maxStops branchPt dbd ds _ _).2.1 = _
        rw [ihdrop, ddrop, List.drop_drop]
      · rw [hrec]
        show ((sweepDrivers tf maxStops branchPt ((p.1 : ℚ) * 1440) p.2 (lookupD dbd p.2) rem
            s).2.2 ++ (sweepDates tf maxStops branchPt dbd ds _ _).2.2).flatMap
              (fun pr => pr.2.stops.map Stop.target_id) = _
        rw [List.flatMap_append, ihids, ddrop, dids, List.take_add]
        congr 1
        rw [List.map_drop]
      · intro pr hpr
        rw [hrec] at hpr
        rcases List.mem_append.mp hpr with h | h
        · rcases dmem pr h with ⟨drv, hdrv, rem', heq⟩
          exact ⟨p, List.mem_cons_self _ _, drv, hdrv, rem', heq⟩
        · rcases ihmem pr h with ⟨p', hp', drv, hdrv, rem', heq⟩
          exact ⟨p', List.mem_cons_of_mem _ hp', drv, hdrv, rem', heq⟩
      · intro hnd hdts
        rw [hrec]
        have h1 := ihperm (by rw [dkeys]; exact hnd)
          (by intro q hq; rw [dkeys]; exact hdts q (List.mem_cons_of_mem _ hq))
        have h2 := dperm hnd (hdts p (List.mem_cons_self _ _))
        have h3 := h1.trans (List.Perm.append_right _ h2)
        show (planIds (sweepDates tf maxStops branchPt dbd ds _ _).1).Perm _
        rw [List.flatMap_append, ← List.append_assoc]
        exact h3

theorem sweepDrivers_AllRoutes (tf : Pt → Pt → ℚ) (maxStops : ℕ) (branchPt : Pt) (offset : ℚ)
    (d : String) (P : String → Route → Prop)
    (hnew : ∀ drv rem', P d (sweepDriver tf maxStops branchPt offset drv rem').1) :
    ∀ (drvs : List Driver) (rem : List Target) (s : Scheds), AllRoutes P s →
      AllRoutes P (sweepDrivers tf maxStops branchPt offset d drvs rem s).1
  | [], rem, s, hs => hs
  | drv :: ds, rem, s, hs => by
    by_cases hrem : rem.isEmpty
    · rw [show sweepDrivers tf maxStops branchPt offset d (drv :: ds) rem s = (s, rem, []) by
        rw [sweepDrivers, if_pos hrem]]
      exact hs
    · rw [sweepDrivers, if_neg hrem]
      exact sweepDrivers_AllRoutes tf maxStops branchPt offset d P hnew ds
        (sweepDriver tf maxStops branchPt offset drv rem).2
        (appendRoute s d (sweepDriver tf maxStops branchPt offset drv rem).1)
        (AllRoutes_appendRoute hs (hnew drv rem))

theorem sweepDates_AllRoutes (tf : Pt → Pt → ℚ) (maxStops : ℕ) (branchPt : Pt) (dbd : DBD)
    (P : String → Route → Prop)
    (hnew : ∀ (p : ℕ × String) (drv : Driver) (rem' : List Target),
      P p.2 (sweepDriver tf maxStops branchPt ((p.1 : ℚ) * 1440) drv rem').1) :
    ∀ (ds : List (ℕ × String)) (rem : List Target) (s : Scheds), AllRoutes P s →
      AllRoutes P (sweepDates tf maxStops branchPt dbd ds rem s).1
  | [], rem, s, hs => hs
  | p :: ds, rem, s, hs => by
    by_cases hrem : rem.isEmpty
    · rw [show sweepDates tf maxStops branchPt dbd (p :: ds) rem s = (s, rem, []) by
        rw [sweepDates, if_pos hrem]]
      exact hs
    · rw [sweepDates, if_neg hrem]
      exact sweepDates_AllRoutes tf maxStops branchPt dbd P hnew ds
        (sweepDrivers tf maxStops branchPt ((p.1 : ℚ) * 1440) p.2 (lookupD dbd p.2) rem s).2.1
        (sweepDrivers tf maxStops branchPt ((p.1 : ℚ) * 1440) p.2 (lookupD dbd p.2) rem s).1
        (sweepDrivers_AllRoutes tf maxStops branchPt ((p.1 : ℚ) * 1440) p.2 P
          (fun drv rem' => hnew p drv rem') (lookupD dbd p.2) rem s hs)

theorem find?_of_exists (avail : List Driver) (i : String)
    (h : ∃ drv ∈ avail, drv.id = i) :
    ∃ drv, avail.find? (fun d => d.id == i) = some drv := by
  rcases h with ⟨drv, hdrv, hid⟩
  have : (avail.find? (fun d => d.id == i)).isSome := by
    rw [List.find?_isSome]
    exact ⟨drv, hdrv, by simp [hid]⟩
  rcases Option.isSome_iff_exists.mp this with ⟨drv', hd⟩
  exact ⟨drv', hd⟩

theorem giveToFirst_facts (avail : List Driver) (fd : String) (offset : ℚ) (st : Stop) :
    ∀ (unserved : List String) (s : Scheds),
      (s.map Prod.fst).Nodup → fd ∈ s.map Prod.fst →
      (∃ i ∈ unserved, ∃ drv ∈ avail, drv.id = i) →
      ((giveToFirst avail fd offset st unserved s).map Prod.fst = s.map Prod.fst) ∧
      (planIds (giveToFirst avail fd offset st unserved s)).Perm
        (planIds s ++ [st.target_id])
  | [], s, _, _, hex => by
    rcases hex with ⟨i, hi, _⟩
    simp at hi
  | drvId :: rest, s, hnd, hfd, hex => by
    cases hfind : avail.find? (fun d => d.id == drvId) with
    | some drv =>
      rw [show giveToFirst avail fd offset st (drvId :: rest) s =
          appendRoute s fd (newBackfillRoute drvId offset drv st) by
        rw [giveToFirst, hfind]]
      refine ⟨appendRoute_keys _ _ _, ?_⟩
      have h1 := planIds_appendRoute s fd (newBackfillRoute drvId offset drv st) hnd hfd
      have h2 : (newBackfillRoute drvId offset drv st).stops.map Stop.target_id =
          [st.target_id] := rfl
      rw [h2] at h1
      exact h1
    | none =>
      rw [show giveToFirst avail fd offset st (drvId :: rest) s =
          giveToFirst avail fd offset st rest s by
        rw [giveToFirst, hfind]]
      have hex' : ∃ i ∈ rest, ∃ drv ∈ avail, drv.id = i := by
        rcases hex with ⟨i, hi, drv, hdrv, hid⟩
        rcases List.mem_cons.mp hi with h | h
        · exfalso
          subst h
          have : (avail.find? (fun d => d.id == i)).isSome := by
            rw [List.find?_isSome]
            exact ⟨drv, hdrv, by simp [hid]⟩
          rw [hfind] at this
          simp at this
        · exact ⟨i, h, drv, hdrv, hid⟩
      exact giveToFirst_facts avail fd offset st rest s hnd hfd hex'

theorem backfillLoop_results (avail : List Driver) (fd : String) (offset : ℚ) :
    ∀ (missing : List String) (slots : List (String × ℕ)) (s : Scheds),
      (s.map Prod.fst).Nodup → fd ∈ s.map Prod.fst →
      (∀ i ∈ missing, ∃ drv ∈ avail, drv.id = i) →
      ((backfillLoop avail fd offset missing slots s).1.map Prod.fst = s.map Prod.fst) ∧
      (planIds (backfillLoop avail fd offset missing slots s).1).Perm (planIds s) ∧
      (∀ i ∈ (backfillLoop avail fd offset missing slots s).2, i ∈ missing)
  | [], slots, s, _, _, _ => ⟨rfl, List.Perm.refl _, by intro i hi; simp [backfillLoop] at hi⟩
  | drvId :: rest, [], s, _, _, _ =>
    ⟨rfl, List.Perm.refl _, by intro i hi; exact hi⟩
  | drvId :: rest, sl :: slots, s, hnd, hfd, hmiss => by
    by_cases hempty : ((routesOf s sl.1).getD sl.2 dfltRoute).stops.isEmpty
    · rw [show backfillLoop avail fd offset (drvId :: rest) (sl :: slots) s =
          backfillLoop avail fd offset rest slots s by
        rw [backfillLoop, if_pos hempty]]
      have := backfillLoop_results avail fd offset rest slots s hnd hfd
        (fun i hi => hmiss i (List.mem_cons_of_mem _ hi))
      exact ⟨this.1, this.2.1, fun i hi => List.mem_cons_of_mem _ (this.2.2 i hi)⟩
    · rcases find?_of_exists avail drvId (hmiss drvId (List.mem_cons_self _ _)) with ⟨drv, hfind⟩
      rw [show backfillLoop avail fd offset (drvId :: rest) (sl :: slots) s =
          backfillLoop avail fd offset rest slots
            (appendRoute (updRoute s sl.1 sl.2 (fun r => popRoute r
                (((routesOf s sl.1).getD sl.2 dfltRoute).stops.getLast?.getD dfltStop)))
              fd (newBackfillRoute drvId offset drv
                (((routesOf s sl.1).getD sl.2 dfltRoute).stops.getLast?.getD dfltStop))) by
        rw [backfillLoop, if_neg hempty, hfind]]
      have hsne : ((routesOf s sl.1).getD sl.2 dfltRoute).stops ≠ [] := by
        simpa [List.isEmpty_iff] using hempty
      have hst : ((routesOf s sl.1).getD sl.2 dfltRoute).stops.getLast? =
          some (((routesOf s sl.1).getD sl.2 dfltRoute).stops.getLast?.getD dfltStop) := by
        rw [List.getLast?_eq_getLast _ hsne]
        rfl
      have hupd := planIds_updRoute_pop s sl.1 sl.2
        (((routesOf s sl.1).getD sl.2 dfltRoute).stops.getLast?.getD dfltStop) hnd hst
      have hkeys1 : (updRoute s sl.1 sl.2 (fun r => popRoute r
          (((routesOf s sl.1).getD sl.2 dfltRoute).stops.getLast?.getD dfltStop))).map
            Prod.fst = s.map Prod.fst := updRoute_keys _ _ _ _
      have happ := planIds_appendRoute
        (updRoute s sl.1 sl.2 (fun r => popRoute r
          (((routesOf s sl.1).getD sl.2 dfltRoute).stops.getLast?.getD dfltStop)))
        fd (newBackfillRoute drvId offset drv
          (((routesOf s sl.1).getD sl.2 dfltRoute).stops.getLast?.getD dfltStop))
        (by rw [hkeys1]; exact hnd) (by rw [hkeys1]; exact hfd)
      have hkeys2 : (appendRoute (updRoute s sl.1 sl.2 (fun r => popRoute r
          (((routesOf s sl.1).getD sl.2 dfltRoute).stops.getLast?.getD dfltStop)))
          fd (newBackfillRoute drvId offset drv
            (((routesOf s sl.1).getD sl.2 dfltRoute).stops.getLast?.getD dfltStop))).map
              Prod.fst = s.map Prod.fst := by
        rw [appendRoute_keys, hkeys1]
      have hrec := backfillLoop_results avail fd offset rest slots
        (appendRoute (updRoute s sl.1 sl.2 (fun r => popRoute r
            (((routesOf s sl.1).getD sl.2 dfltRoute).stops.getLast?.getD dfltStop)))
          fd (newBackfillRoute drvId offset drv
            (((routesOf s sl.1).getD sl.2 dfltRoute).stops.getLast?.getD dfltStop)))
        (by rw [hkeys2]; exact hnd) (by rw [hkeys2]; exact hfd)
        (fun i hi => hmiss i (List.mem_cons_of_mem _ hi))
      refine ⟨by rw [hrec.1, hkeys2], ?_, fun i hi => List.mem_cons_of_mem _ (hrec.2.2 i hi)⟩
      have hnewids : (newBackfillRoute drvId offset drv
          (((routesOf s sl.1).getD sl.2 dfltRoute).stops.getLast?.getD dfltStop)).stops.map
            Stop.target_id =
          [(((routesOf s sl.1).getD sl.2 dfltRoute).stops.getLast?.getD dfltStop).target_id] :=
        rfl
      rw [hnewids] at happ
      exact hrec.2.1.trans (happ.trans hupd)

theorem foldl_pick_mem (L : List (ℕ × Route)) :
    ∀ (acc : Option (ℕ × Route)) (q : ℕ × Route),
      L.foldl (fun acc p =>
        match acc with
        | none => some p
        | some q0 => if q0.2.stops.length ≤ p.2.stops.length then some p else acc) acc =
          some q →
      acc = some q ∨ q ∈ L := by
  induction L with
  | nil =>
    intro acc q h
    exact Or.inl (by simpa using h)
  | cons p t ih =>
    intro acc q h
    rw [List.foldl_cons] at h
    rcases ih _ q h with h1 | h2
    · cases acc with
      | none =>
        have : p = q := by simpa using h1
        exact Or.inr (this ▸ List.mem_cons_self _ _)
      | some q0 =>
        by_cases hc : q0.2.stops.length ≤ p.2.stops.length
        · have : p = q := by simpa [hc] using h1
          exact Or.inr (this ▸ List.mem_cons_self _ _)
        · have : q0 = q := by simpa [hc] using h1
          exact Or.inl (by rw [this])
    · exact Or.inr (List.mem_cons_of_mem _ h2)

theorem longestRouteIdx_getD (rs : List Route) (q : ℕ × Route)
    (h : longestRouteIdx rs = some q) : rs.getD q.1 dfltRoute = q.2 := by
  unfold longestRouteIdx at h
  rcases foldl_pick_mem rs.enum none q h with h1 | h2
  · simp at h1
  · rcases List.mem_enum h2 with ⟨hlt, heq⟩
    rw [List.getD_eq_getElem _ _ hlt, ← heq]

theorem backfillFallback_facts (avail : List Driver) (fd : String) (offset : ℚ)
    (unserved : List String) (s : Scheds)
    (hnd : (s.map Prod.fst).Nodup) (hfd : fd ∈ s.map Prod.fst)
    (hex : ∃ i ∈ unserved, ∃ drv ∈ avail, drv.id = i) :
    ((backfillFallback avail fd offset unserved s).map Prod.fst = s.map Prod.fst) ∧
    (planIds (backfillFallback avail fd offset unserved s)).Perm (planIds s) := by
  cases hq : longestRouteIdx (routesOf s fd) with
  | none =>
    have hred : backfillFallback avail fd offset unserved s = s := by
      unfold backfillFallback
      rw [hq]
    rw [hred]
    exact ⟨rfl, List.Perm.refl _⟩
  | some q =>
    by_cases hempty : q.2.stops.isEmpty
    · have hred : backfillFallback avail fd offset unserved s = s := by
        unfold backfillFallback
        rw [hq]
        exact if_pos hempty
      rw [hred]
      exact ⟨rfl, List.Perm.refl _⟩
    · have hred : backfillFallback avail fd offset unserved s =
          giveToFirst avail fd offset (q.2.stops.getLast?.getD dfltStop) unserved
            (updRoute s fd q.1 (fun rt => popRoute rt (q.2.stops.getLast?.getD dfltStop))) := by
        unfold backfillFallback
        rw [hq]
        exact if_neg hempty
      rw [hred]
      have hq2 : (routesOf s fd).getD q.1 dfltRoute = q.2 := longestRouteIdx_getD _ _ hq
      have hsne : q.2.stops ≠ [] := by simpa [List.isEmpty_iff] using hempty
      have hst : ((routesOf s fd).getD q.1 dfltRoute).stops.getLast? =
          some (q.2.stops.getLast?.getD dfltStop) := by
        rw [hq2, List.getLast?_eq_getLast _ hsne]
        rfl
      have hupd := planIds_updRoute_pop s fd q.1 (q.2.stops.getLast?.getD dfltStop) hnd hst
      have hkeys1 : (updRoute s fd q.1 (fun rt => popRoute rt
          (q.2.stops.getLast?.getD dfltStop))).map Prod.fst = s.map Prod.fst :=
        updRoute_keys _ _ _ _
      have hgive := giveToFirst_facts avail fd offset (q.2.stops.getLast?.getD dfltStop)
        unserved
        (updRoute s fd q.1 (fun rt => popRoute rt (q.2.stops.getLast?.getD dfltStop)))
        (by rw [hkeys1]; exact hnd) (by rw [hkeys1]; exact hfd) hex
      refine ⟨by rw [hgive.1, hkeys1], ?_⟩
      exact hgive.2.trans hupd

theorem AllRoutes_updRoute {P : String → Route → Prop} {s : Scheds}
    (hs : AllRoutes P s) {d : String} {ri : ℕ} {f : Route → Route}
    (hf : ∀ r, P d r → P d (f r)) :
    AllRoutes P (updRoute s d ri f) := by
  intro e he r' hr'
  unfold updRoute at he
  rcases List.mem_map.mp he with ⟨e0, he0, heq⟩
  by_cases h : e0.1 = d
  · rw [if_pos h] at heq
    subst heq
    rcases mem_modifyIdx f ri e0.2 r' hr' with h1 | ⟨y, hy, hxy⟩
    · exact hs e0 he0 r' h1
    · subst hxy
      show P e0.1 (f y)
      rw [h]
      exact hf y (by have := hs e0 he0 y hy; rwa [h] at this)
  · rw [if_neg h] at heq
    subst heq
    exact hs e0 he0 r' hr'

/-! ## Held-Karp and 2-opt order lemmas -/

theorem exists_testBit_of_ne_zero {n : ℕ} (h : n ≠ 0) : ∃ i, n.testBit i = true := by
  by_contra hc
  push_neg at hc
  apply h
  apply Nat.eq_of_testBit_eq
  intro i
  rw [Nat.zero_testBit]
  simpa using hc i

theorem testBit_lt_of_lt_two_pow {mask k m : ℕ} (hm : mask < 2 ^ m)
    (hk : mask.testBit k = true) : k < m := by
  by_contra hc
  push_neg at hc
  have h1 : 2 ^ m ≤ 2 ^ k := Nat.pow_le_pow_right (by norm_num) hc
  have h2 : 2 ^ k ≤ mask := Nat.testBit_implies_ge hk
  omega

theorem testBit_xor_shift_self (mask k : ℕ) :
    (mask ^^^ (1 <<< k)).testBit k = !mask.testBit k := by
  simp [Nat.testBit_xor, Nat.one_shiftLeft, Nat.testBit_two_pow_self]

theorem testBit_xor_shift_ne (mask k j : ℕ) (h : j ≠ k) :
    (mask ^^^ (1 <<< k)).testBit j = mask.testBit j := by
  simp [Nat.testBit_xor, Nat.one_shiftLeft, Nat.testBit_two_pow_of_ne (Ne.symm h)]

theorem filter_eq_singleton {α : Type} {l : List α} (hl : l.Nodup) {k : α} (hk : k ∈ l)
    {p : α → Bool} (hp : ∀ x, p x = true ↔ x = k) : l.filter p = [k] := by
  induction l with
  | nil => cases hk
  | cons a t ih =>
    rcases List.nodup_cons.mp hl with ⟨hat, htnd⟩
    rcases List.mem_cons.mp hk with rfl | hkt
    · rw [List.filter_cons_of_pos ((hp k).mpr rfl)]
      have hnil : t.filter p = [] := by
        rw [List.filter_eq_nil_iff]
        intro x hx hpx
        have hxa : x = k := (hp x).mp hpx
        rw [hxa] at hx
        exact hat hx
      rw [hnil]
    · have hak : a ≠ k := fun hh => hat (hh ▸ hkt)
      rw [List.filter_cons_of_neg (fun hpa => hak ((hp a).mp hpa))]
      exact ih htnd hkt

theorem filter_perm_cons_of {α : Type} {l : List α} (hl : l.Nodup) {k : α}
    (hk : k ∈ l) {p q : α → Bool} (hpk : p k = true) (hqk : q k = false)
    (hagree : ∀ x, x ≠ k → p x = q x) : (l.filter p).Perm (k :: l.filter q) := by
  induction l with
  | nil => cases hk
  | cons a t ih =>
    rcases List.nodup_cons.mp hl with ⟨hat, htnd⟩
    rcases List.mem_cons.mp hk with rfl | hkt
    · rw [List.filter_cons_of_pos hpk, List.filter_cons_of_neg (by simp [hqk])]
      have hft : t.filter p = t.filter q := by
        apply List.filter_congr
        intro x hx
        exact hagree x (fun hh => hat (hh ▸ hx))
      rw [hft]
    · have hak : a ≠ k := fun hh => hat (hh ▸ hkt)
      have hpa : p a = q a := hagree a hak
      by_cases hqa : q a = true
      · rw [List.filter_cons_of_pos (by rw [hpa]; exact hqa), List.filter_cons_of_pos hqa]
        exact ((ih htnd hkt).cons a).trans (List.Perm.swap k a _)
      · rw [List.filter_cons_of_neg (by rw [hpa]; exact hqa), List.filter_cons_of_neg hqa]
        exact ih htnd hkt

theorem foldl_best_mem (c : ℚ × ℕ) (cs : List (ℚ × ℕ)) :
    cs.foldl (fun b q => if q.1 < b.1 then q else b) c ∈ c :: cs := by
  induction cs generalizing c with
  | nil => simp [List.foldl]
  | cons a t ih =>
    rw [List.foldl_cons]
    rcases List.mem_cons.mp (ih (if a.1 < c.1 then a else c)) with h1 | h1
    · rw [h1]
      by_cases hac : a.1 < c.1
      · rw [if_pos hac]
        exact List.mem_cons_of_mem c (List.mem_cons_self a t)
      · rw [if_neg hac]
        exact List.mem_cons_self c (a :: t)
    · exact List.mem_cons_of_mem c (List.mem_cons_of_mem a h1)

theorem hkCand_some (dist : ℕ → ℕ → ℚ) (k sub j : ℕ) (o : Option (ℚ × Option ℕ))
    (q : ℚ × ℕ) (h : hkCand dist k sub j o = some q) :
    sub.testBit j = true ∧ q.2 = j ∧ o.isSome := by
  unfold hkCand at h
  by_cases ht : sub.testBit j
  · rw [if_pos ht] at h
    cases o with
    | some c =>
      refine ⟨ht, ?_, rfl⟩
      have h2 := Option.some.inj h
      rw [← h2]
    | none => exact Option.noConfusion h
  · rw [if_neg ht] at h
    exact Option.noConfusion h

theorem hkFinCand_some (dist : ℕ → ℕ → ℚ) (j : ℕ) (o : Option (ℚ × Option ℕ))
    (q : ℚ × ℕ) (h : hkFinCand dist j o = some q) : q.2 = j ∧ o.isSome := by
  unfold hkFinCand at h
  cases o with
  | some c =>
    refine ⟨?_, rfl⟩
    have h2 := Option.some.inj h
    rw [← h2]
  | none => exact Option.noConfusion h

theorem hkDP_some_testBit (dist : ℕ → ℕ → ℚ) (m mask k : ℕ) (r : ℚ × Option ℕ)
    (h : hkDP dist m mask k = some r) : mask.testBit k = true := by
  by_cases hk : mask.testBit k
  · exact hk
  · rw [hkDP, dif_neg hk] at h
    exact Option.noConfusion h

theorem hkDP_isSome (dist : ℕ → ℕ → ℚ) (m : ℕ) : ∀ mask, mask < 2 ^ m →
    ∀ k, mask.testBit k = true → (hkDP dist m mask k).isSome = true := by
  intro mask
  induction mask using Nat.strong_induction_on with
  | _ mask ih =>
    intro hm k hk
    rw [hkDP, dif_pos hk]
    by_cases he : mask = 1 <<< k
    · rw [if_pos he]
      rfl
    · rw [if_neg he]
      have hsub0 : mask ^^^ (1 <<< k) ≠ 0 := fun h0 => he (Nat.xor_eq_zero.mp h0)
      rcases exists_testBit_of_ne_zero hsub0 with ⟨j, hj⟩
      have hlt : mask ^^^ (1 <<< k) < mask := xorShiftLtOfTestBit mask k hk
      have hjm : j < m := testBit_lt_of_lt_two_pow (Nat.lt_trans hlt hm) hj
      have hsome := ih (mask ^^^ (1 <<< k)) hlt (Nat.lt_trans hlt hm) j hj
      cases hfm : (List.range m).filterMap (fun j =>
          hkCand dist k (mask ^^^ (1 <<< k)) j (hkDP dist m (mask ^^^ (1 <<< k)) j)) with
      | nil =>
        exfalso
        have hall := List.filterMap_eq_nil_iff.mp hfm
        have hj3 : hkCand dist k (mask ^^^ (1 <<< k)) j (hkDP dist m (mask ^^^ (1 <<< k)) j)
            = none := hall j (List.mem_range.mpr hjm)
        unfold hkCand at hj3
        rw [if_pos hj] at hj3
        rcases Option.isSome_iff_exists.mp hsome with ⟨v, hv⟩
        rw [hv] at hj3
        exact Option.noConfusion hj3
      | cons c cs => rfl

theorem hkDP_parent (dist : ℕ → ℕ → ℚ) (m mask k : ℕ) (hk : mask.testBit k = true)
    (hne : mask ≠ 1 <<< k) (r : ℚ × Option ℕ) (h : hkDP dist m mask k = some r) :
    ∃ p, r.2 = some p ∧ (mask ^^^ (1 <<< k)).testBit p = true ∧ p < m := by
  rw [hkDP, dif_pos hk, if_neg hne] at h
  cases hfm : (List.range m).filterMap (fun j =>
      hkCand dist k (mask ^^^ (1 <<< k)) j (hkDP dist m (mask ^^^ (1 <<< k)) j)) with
  | nil =>
    rw [hfm] at h
    exact Option.noConfusion h
  | cons c cs =>
    rw [hfm] at h
    have h2 : ((cs.foldl (fun b q => if q.1 < b.1 then q else b) c).1,
        some ((cs.foldl (fun b q => if q.1 < b.1 then q else b) c).2)) = r :=
      Option.some.inj h
    have hbm : (cs.foldl (fun b q => if q.1 < b.1 then q else b) c) ∈ c :: cs :=
      foldl_best_mem c cs
    rw [← hfm] at hbm
    rcases List.mem_filterMap.mp hbm with ⟨j, hjmem, hj⟩
    have hj2 : hkCand dist k (mask ^^^ (1 <<< k)) j (hkDP dist m (mask ^^^ (1 <<< k)) j) =
        some (cs.foldl (fun b q => if q.1 < b.1 then q else b) c) := hj
    rcases hkCand_some dist k (mask ^^^ (1 <<< k)) j _ _ hj2 with ⟨htb, hsnd, _⟩
    refine ⟨j, ?_, htb, List.mem_range.mp hjmem⟩
    rw [← h2]
    exact congrArg some hsnd

theorem hkRecon_perm (dist : ℕ → ℕ → ℚ) (m : ℕ) : ∀ mask, mask < 2 ^ m →
    ∀ last, mask.testBit last = true →
    (hkRecon dist m mask last).Perm ((List.range m).filter fun i => mask.testBit i) := by
  intro mask
  induction mask using Nat.strong_induction_on with
  | _ mask ih =>
    intro hm last hlast
    have hlastm : last < m := testBit_lt_of_lt_two_pow hm hlast
    by_cases hsub0 : mask ^^^ (1 <<< last) = 0
    · have hred : hkRecon dist m mask last = [last] := by
        rw [hkRecon, dif_pos hlast, if_pos hsub0]
      have hmask : mask = 1 <<< last := Nat.xor_eq_zero.mp hsub0
      have hfilter : ((List.range m).filter fun i => mask.testBit i) = [last] := by
        apply filter_eq_singleton (List.nodup_range m) (List.mem_range.mpr hlastm)
        intro x
        rw [hmask, Nat.one_shiftLeft]
        constructor
        · intro hx
          by_contra hxe
          rw [Nat.testBit_two_pow_of_ne (fun hh => hxe hh.symm)] at hx
          exact Bool.noConfusion hx
        · intro hx
          subst hx
          exact Nat.testBit_two_pow_self
      rw [hred, hfilter]
    · have hne : mask ≠ 1 <<< last := fun hh => hsub0 (by rw [hh, Nat.xor_self])
      have hlt : mask ^^^ (1 <<< last) < mask := xorShiftLtOfTestBit mask last hlast
      have hsome := hkDP_isSome dist m mask hm last hlast
      rcases Option.isSome_iff_exists.mp hsome with ⟨r, hdp⟩
      obtain ⟨rc, ro⟩ := r
      rcases hkDP_parent dist m mask last hlast hne (rc, ro) hdp with ⟨p, hp2, hpt, hpm⟩
      have hro : ro = some p := hp2
      rw [hro] at hdp
      have hred : hkRecon dist m mask last =
          last :: hkRecon dist m (mask ^^^ (1 <<< last)) p := by
        conv_lhs => rw [hkRecon]
        rw [dif_pos hlast, if_neg hsub0, hdp]
      rw [hred]
      have hrec := ih (mask ^^^ (1 <<< last)) hlt (Nat.lt_trans hlt hm) p hpt
      have hperm : ((List.range m).filter fun i => mask.testBit i).Perm
          (last :: (List.range m).filter fun i => (mask ^^^ (1 <<< last)).testBit i) :=
        filter_perm_cons_of (List.nodup_range m) (List.mem_range.mpr hlastm)
          (by exact hlast) (by rw [testBit_xor_shift_self, hlast]; rfl)
          (fun x hx => (testBit_xor_shift_ne mask last x hx).symm)
      exact (hrec.cons last).trans hperm.symm

theorem hkOrder_perm (dist : ℕ → ℕ → ℚ) (m : ℕ) (hm : 0 < m) :
    (hkOrder dist m).Perm (List.range' 1 m) := by
  have hfull : (1 <<< m) - 1 < 2 ^ m := by
    rw [Nat.one_shiftLeft]
    exact Nat.sub_lt (pow_pos (by norm_num) m) (by norm_num)
  have htb0 : ((1 <<< m) - 1).testBit 0 = true := by
    simp [Nat.one_shiftLeft, Nat.testBit_two_pow_sub_one, hm]
  have hsome0 := hkDP_isSome dist m ((1 <<< m) - 1) hfull 0 htb0
  rw [hkOrder]
  cases hfm : (List.range m).filterMap (fun j =>
      hkFinCand dist j (hkDP dist m ((1 <<< m) - 1) j)) with
  | nil =>
    exfalso
    have hall := List.filterMap_eq_nil_iff.mp hfm
    have h0 : hkFinCand dist 0 (hkDP dist m ((1 <<< m) - 1) 0) = none :=
      hall 0 (List.mem_range.mpr hm)
    unfold hkFinCand at h0
    rcases Option.isSome_iff_exists.mp hsome0 with ⟨v, hv⟩
    rw [hv] at h0
    exact Option.noConfusion h0
  | cons c cs =>
    have hbm : (cs.foldl (fun b q => if q.1 < b.1 then q else b) c) ∈ c :: cs :=
      foldl_best_mem c cs
    rw [← hfm] at hbm
    rcases List.mem_filterMap.mp hbm with ⟨j, hjmem, hj⟩
    have hj2 : hkFinCand dist j (hkDP dist m ((1 <<< m) - 1) j) =
        some (cs.foldl (fun b q => if q.1 < b.1 then q else b) c) := hj
    rcases hkFinCand_some dist j _ _ hj2 with ⟨hsnd, hdpsome⟩
    rcases Option.isSome_iff_exists.mp hdpsome with ⟨r, hdp⟩
    have htbb : ((1 <<< m) - 1).testBit
        ((cs.foldl (fun b q => if q.1 < b.1 then q else b) c).2) = true := by
      rw [hsnd]
      exact hkDP_some_testBit dist m _ j r hdp
    have hrecon := hkRecon_perm dist m ((1 <<< m) - 1) hfull _ htbb
    have hfself : ((List.range m).filter fun i => ((1 <<< m) - 1).testBit i) =
        List.range m := by
      rw [List.filter_eq_self]
      intro x hx
      simp [Nat.one_shiftLeft, Nat.testBit_two_pow_sub_one, List.mem_range.mp hx]
    rw [hfself] at hrecon
    have h4 := ((List.reverse_perm _).trans hrecon).map (fun x => x + 1)
    have h6 : (List.range m).map (fun x => x + 1) = List.range' 1 m := by
      rw [List.range'_eq_map_range]
      exact List.map_congr_left (fun a _ => Nat.add_comm a 1)
    rw [← h6]
    exact h4

theorem reverseSeg_perm (order : List ℕ) (i j : ℕ) (hij : i ≤ j + 1) :
    (reverseSeg order i j).Perm order := by
  unfold reverseSeg
  rw [List.append_assoc]
  conv_rhs => rw [← List.take_append_drop i order]
  apply List.Perm.append_left
  have hC : (order.drop i).drop (j + 1 - i) = order.drop (j + 1) := by
    rw [List.drop_drop, Nat.add_sub_cancel' hij]
  conv_rhs => rw [← List.take_append_drop (j + 1 - i) (order.drop i)]
  rw [hC]
  exact List.Perm.append (List.reverse_perm _) (List.Perm.refl _)

theorem improveAt_some (dist : ℕ → ℕ → ℚ) (mlen : ℕ) (order : List ℕ) (i j : ℕ)
    (o2 : List ℕ) (h : improveAt dist mlen order i j = some o2) :
    o2 = reverseSeg order i j := by
  unfold improveAt at h
  split at h
  · exact Option.noConfusion h
  · split at h
    · exact (Option.some.inj h).symm
    · exact Option.noConfusion h

theorem findImprove_perm (dist : ℕ → ℕ → ℚ) (mlen : ℕ) (order o2 : List ℕ)
    (h : findImprove dist mlen order = some o2) : o2.Perm order := by
  unfold findImprove at h
  rcases List.exists_of_findSome?_eq_some h with ⟨i, hi, h2⟩
  rcases List.exists_of_findSome?_eq_some h2 with ⟨j, hj, h3⟩
  rcases List.mem_map.mp hj with ⟨x, hx, hxj⟩
  have hxj2 : x + (i + 2) = j := hxj
  have h4 : improveAt dist mlen order i j = some o2 := h3
  rw [improveAt_some dist mlen order i j o2 h4]
  exact reverseSeg_perm order i j (by omega)

theorem twoOptIter_perm (dist : ℕ → ℕ → ℚ) (mlen : ℕ) :
    ∀ (fuel : ℕ) (order : List ℕ), (twoOptIter dist mlen fuel order).Perm order
  | 0, order => List.Perm.refl order
  | fuel + 1, order => by
    rw [twoOptIter]
    cases hfi : findImprove dist mlen order with
    | none => exact List.Perm.refl order
    | some o2 =>
      exact (twoOptIter_perm dist mlen fuel o2).trans (findImprove_perm dist mlen order o2 hfi)

theorem twoOptRounds_perm (dist : ℕ → ℕ → ℚ) (mlen : ℕ) (order : List ℕ) :
    (twoOptRounds dist mlen order).Perm order := by
  unfold twoOptRounds
  exact (twoOptIter_perm dist mlen _ _).trans
    ((twoOptIter_perm dist mlen _ _).trans (twoOptIter_perm dist mlen _ _))

/-! ## Rebuild and re-sequencing lemmas -/

theorem map_getD_range {α : Type} (d : α) : ∀ l : List α,
    (List.range l.length).map (fun i => l.getD i d) = l
  | [] => rfl
  | a :: t => by
    rw [List.length_cons, List.range_succ_eq_map, List.map_cons, List.map_map]
    have h0 : (a :: t).getD 0 d = a := rfl
    rw [h0]
    congr 1
    refine Eq.trans ?_ (map_getD_range d t)
    apply List.map_congr_left
    intro x _
    show (a :: t).getD (Nat.succ x) d = t.getD x d
    rfl

theorem rebuildLoop_ids (tf : Pt → Pt → ℚ) (targets : List Target) (stops : List Stop) :
    ∀ (idxs : List ℕ) (acc : List Stop) (cur tv sy : ℚ) (pp : Pt),
    ((rebuildLoop tf targets stops idxs (acc, cur, tv, sy, pp)).1).map Stop.target_id =
      acc.map Stop.target_id ++
        idxs.map (fun idx => (stops.getD (idx - 1) dfltStop).target_id)
  | [], acc, cur, tv, sy, pp => by simp [rebuildLoop]
  | idx :: rest, acc, cur, tv, sy, pp => by
    simp only [rebuildLoop]
    rw [rebuildLoop_ids]
    simp [List.map_append, List.append_assoc]

theorem routeOrder_perm (tf : Pt → Pt → ℚ) (branchPt : Pt) (targets : List Target)
    (stops : List Stop) (h : 0 < stops.length) :
    (routeOrder tf branchPt targets stops).Perm (List.range' 1 stops.length) := by
  unfold routeOrder
  by_cases h20 : stops.length ≤ 20
  · rw [if_pos h20]
    exact hkOrder_perm _ stops.length h
  · rw [if_neg h20]
    exact twoOptRounds_perm _ stops.length _

theorem optimizeRouteOrder_ids (tf : Pt → Pt → ℚ) (branchPt : Pt) (targets : List Target)
    (r : Route) (dS dE : ℚ) :
    ((optimizeRouteOrder tf branchPt targets r dS dE).stops.map Stop.target_id).Perm
      (r.stops.map Stop.target_id) := by
  unfold optimizeRouteOrder
  by_cases h1 : r.stops.length < 3
  · rw [if_pos h1]
  · rw [if_neg h1]
    by_cases h2 : r.stops.any (fun st =>
        (lastWithId targets st.target_id).time_window.isSome ||
        (lastWithId targets st.target_id).datetime_window.isSome)
    · rw [if_pos h2]
    · rw [if_neg h2]
      have hstops : (rebuildRoute tf branchPt targets r dS dE).stops =
          (rebuildRes tf branchPt targets r.stops dS).1 := rfl
      rw [hstops]
      unfold rebuildRes
      rw [rebuildLoop_ids]
      simp only [List.map_nil, List.nil_append]
      have hpos : 0 < r.stops.length := by omega
      have hperm := (routeOrder_perm tf branchPt targets r.stops hpos).map
        (fun idx => (r.stops.getD (idx - 1) dfltStop).target_id)
      apply hperm.trans
      have he : (List.range' 1 r.stops.length).map
          (fun idx => (r.stops.getD (idx - 1) dfltStop).target_id) =
          r.stops.map Stop.target_id := by
        rw [List.range'_eq_map_range, List.map_map]
        have hc : ∀ x ∈ List.range r.stops.length,
            ((fun idx => (r.stops.getD (idx - 1) dfltStop).target_id) ∘ (fun x => 1 + x)) x =
            (fun i => (r.stops.getD i dfltStop).target_id) x := by
          intro x _
          show (r.stops.getD (1 + x - 1) dfltStop).target_id = _
          have hx1 : 1 + x - 1 = x := by omega
          rw [hx1]
        rw [List.map_congr_left hc]
        have hmm : (List.range r.stops.length).map
            (fun i => (r.stops.getD i dfltStop).target_id) =
            ((List.range r.stops.length).map (fun i => r.stops.getD i dfltStop)).map
              Stop.target_id := by
          rw [List.map_map]
          rfl
        rw [hmm, map_getD_range]
      rw [he]

theorem optimizeRouteOrder_driver (tf : Pt → Pt → ℚ) (branchPt : Pt) (targets : List Target)
    (r : Route) (dS dE : ℚ) :
    (optimizeRouteOrder tf branchPt targets r dS dE).driver_id = r.driver_id := by
  unfold optimizeRouteOrder
  by_cases h1 : r.stops.length < 3
  · rw [if_pos h1]
  · rw [if_neg h1]
    by_cases h2 : r.stops.any (fun st =>
        (lastWithId targets st.target_id).time_window.isSome ||
        (lastWithId targets st.target_id).datetime_window.isSome)
    · rw [if_pos h2]
    · rw [if_neg h2]
      rfl

theorem optimizeRouteOrder_stops_ne (tf : Pt → Pt → ℚ) (branchPt : Pt)
    (targets : List Target) (r : Route) (dS dE : ℚ) (h : r.stops ≠ []) :
    (optimizeRouteOrder tf branchPt targets r dS dE).stops ≠ [] := by
  have hperm := optimizeRouteOrder_ids tf branchPt targets r dS dE
  have hlen := hperm.length_eq
  rw [List.length_map, List.length_map] at hlen
  intro hnil
  rw [hnil] at hlen
  simp at hlen
  exact h (List.length_eq_zero.mp hlen.symm)

theorem rebuildRoute_end_le (tf : Pt → Pt → ℚ) (branchPt : Pt) (targets : List Target)
    (route : Route) (dS dE : ℚ) :
    (rebuildRoute tf branchPt targets route dS dE).end_time ≤
      dE + (rebuildRoute tf branchPt targets route dS dE).overtime_minutes := by
  have he : (rebuildRoute tf branchPt targets route dS dE).end_time =
      (rebuildRes tf branchPt targets route.stops dS).2.1 +
        tf (rebuildRes tf branchPt targets route.stops dS).2.2.2.2 branchPt := rfl
  have ho : (rebuildRoute tf branchPt targets route dS dE).overtime_minutes =
      max 0 ((rebuildRes tf branchPt targets route.stops dS).2.1 +
        tf (rebuildRes tf branchPt targets route.stops dS).2.2.2.2 branchPt - dE) := rfl
  rw [he, ho]
  have hmx := le_max_right (0 : ℚ) ((rebuildRes tf branchPt targets route.stops dS).2.1 +
    tf (rebuildRes tf branchPt targets route.stops dS).2.2.2.2 branchPt - dE)
  linarith

theorem optimizeRouteOrder_bound (tf : Pt → Pt → ℚ) (branchPt : Pt) (targets : List Target)
    (r : Route) (dS dE : ℚ)
    (h : r.end_time ≤ dE + r.overtime_minutes + max 0 r.return_travel_minutes) :
    (optimizeRouteOrder tf branchPt targets r dS dE).end_time ≤
      dE + (optimizeRouteOrder tf branchPt targets r dS dE).overtime_minutes +
        max 0 (optimizeRouteOrder tf branchPt targets r dS dE).return_travel_minutes := by
  unfold optimizeRouteOrder
  by_cases h1 : r.stops.length < 3
  · rw [if_pos h1]
    exact h
  · rw [if_neg h1]
    by_cases h2 : r.stops.any (fun st =>
        (lastWithId targets st.target_id).time_window.isSome ||
        (lastWithId targets st.target_id).datetime_window.isSome)
    · rw [if_pos h2]
      exact h
    · rw [if_neg h2]
      have hb := rebuildRoute_end_le tf branchPt targets r dS dE
      have hm := le_max_left (0 : ℚ)
        (rebuildRoute tf branchPt targets r dS dE).return_travel_minutes
      linarith

theorem flatMap_map_perm {α β : Type} (g : α → α) (f : α → List β) :
    ∀ l : List α, (∀ x ∈ l, (f (g x)).Perm (f x)) →
      ((l.map g).flatMap f).Perm (l.flatMap f)
  | [], _ => List.Perm.refl _
  | a :: t, h => by
    rw [List.map_cons, List.flatMap_cons, List.flatMap_cons]
    exact (h a (List.mem_cons_self a t)).append
      (flatMap_map_perm g f t (fun x hx => h x (List.mem_cons_of_mem a hx)))

theorem reseq_keys (tf : Pt → Pt → ℚ) (branchPt : Pt) (dates : List String) (dbd : DBD)
    (targets : List Target) (s : Scheds) :
    (reseq tf branchPt dates dbd targets s).map Prod.fst = s.map Prod.fst := by
  unfold reseq
  rw [List.map_map]
  apply List.map_congr_left
  intro e _
  rfl

theorem planIds_reseq (tf : Pt → Pt → ℚ) (branchPt : Pt) (dates : List String) (dbd : DBD)
    (targets : List Target) :
    ∀ s : Scheds, (planIds (reseq tf branchPt dates dbd targets s)).Perm (planIds s)
  | [] => List.Perm.refl _
  | e :: t => by
    have hstep : reseq tf branchPt dates dbd targets (e :: t) =
        (e.1, e.2.map fun r =>
          match driverTimes dates dbd e.1 r.driver_id with
          | none => r
          | some q => optimizeRouteOrder tf branchPt targets r q.1 q.2) ::
        reseq tf branchPt dates dbd targets t := by
      unfold reseq
      rw [List.map_cons]
    rw [hstep, planIds_cons, planIds_cons]
    apply List.Perm.append
    · apply flatMap_map_perm
      intro r _
      cases hdt : driverTimes dates dbd e.1 r.driver_id with
      | none => exact List.Perm.refl _
      | some q => exact optimizeRouteOrder_ids tf branchPt targets r q.1 q.2
    · exact planIds_reseq tf branchPt dates dbd targets t

theorem routesOf_reseq (tf : Pt → Pt → ℚ) (branchPt : Pt) (dates : List String) (dbd : DBD)
    (targets : List Target) (d : String) :
    ∀ s : Scheds, routesOf (reseq tf branchPt dates dbd targets s) d =
      (routesOf s d).map (fun r =>
        match driverTimes dates dbd d r.driver_id with
        | none => r
        | some q => optimizeRouteOrder tf branchPt targets r q.1 q.2)
  | [] => rfl
  | e :: t => by
    have hstep : reseq tf branchPt dates dbd targets (e :: t) =
        (e.1, e.2.map fun r =>
          match driverTimes dates dbd e.1 r.driver_id with
          | none => r
          | some q => optimizeRouteOrder tf branchPt targets r q.1 q.2) ::
        reseq tf branchPt dates dbd targets t := by
      unfold reseq
      rw [List.map_cons]
    rw [hstep]
    by_cases h : e.1 = d
    · rw [routesOf_cons_eq e t d h,
        routesOf_cons_eq (e.1, e.2.map fun r =>
            match driverTimes dates dbd e.1 r.driver_id with
            | none => r
            | some q => optimizeRouteOrder tf branchPt targets r q.1 q.2)
          (reseq tf branchPt dates dbd targets t) d h]
      rw [h]
    · rw [routesOf_cons_ne e t d h,
        routesOf_cons_ne (e.1, e.2.map fun r =>
            match driverTimes dates dbd e.1 r.driver_id with
            | none => r
            | some q => optimizeRouteOrder tf branchPt targets r q.1 q.2)
          (reseq tf branchPt dates dbd targets t) d h]
      exact routesOf_reseq tf branchPt dates dbd targets d t

theorem CoversDrivers_reseq (tf : Pt → Pt → ℚ) (branchPt : Pt) (dates : List String)
    (dbd : DBD) (targets : List Target) (s : Scheds) (d : String)
    (h : CoversDrivers dbd s d) :
    CoversDrivers dbd (reseq tf branchPt dates dbd targets s) d := by
  intro drv hdrv
  rcases h drv hdrv with ⟨r, hr, hid, hne⟩
  refine ⟨(fun r0 => match driverTimes dates dbd d r0.driver_id with
      | none => r0
      | some q => optimizeRouteOrder tf branchPt targets r0 q.1 q.2) r, ?_, ?_, ?_⟩
  · rw [routesOf_reseq]
    exact List.mem_map_of_mem _ hr
  · show (match driverTimes dates dbd d r.driver_id with
      | none => r
      | some q => optimizeRouteOrder tf branchPt targets r q.1 q.2).driver_id = drv.id
    cases hdt : driverTimes dates dbd d r.driver_id with
    | none => exact hid
    | some q => exact (optimizeRouteOrder_driver tf branchPt targets r q.1 q.2).trans hid
  · show (match driverTimes dates dbd d r.driver_id with
      | none => r
      | some q => optimizeRouteOrder tf branchPt targets r q.1 q.2).stops ≠ []
    cases hdt : driverTimes dates dbd d r.driver_id with
    | none => exact hne
    | some q => exact optimizeRouteOrder_stops_ne tf branchPt targets r q.1 q.2 hne

theorem AllRoutes_reseq {P : String → Route → Prop} (tf : Pt → Pt → ℚ) (branchPt : Pt)
    (dates : List String) (dbd : DBD) (targets : List Target) {s : Scheds}
    (hs : AllRoutes P s)
    (hf : ∀ d r q, driverTimes dates dbd d r.driver_id = some q → P d r →
      P d (optimizeRouteOrder tf branchPt targets r q.1 q.2)) :
    AllRoutes P (reseq tf branchPt dates dbd targets s) := by
  intro e he r hr
  unfold reseq at he
  rcases List.mem_map.mp he with ⟨e0, he0, heq⟩
  subst heq
  rcases List.mem_map.mp hr with ⟨r0, hr0, hreq⟩
  subst hreq
  show P e0.1 (match driverTimes dates dbd e0.1 r0.driver_id with
    | none => r0
    | some q => optimizeRouteOrder tf branchPt targets r0 q.1 q.2)
  cases hdt : driverTimes dates dbd e0.1 r0.driver_id with
  | none => exact hs e0 he0 r0 hr0
  | some q => exact hf e0.1 r0 q hdt (hs e0 he0 r0 hr0)

/-! ## Well-formedness consequences and schedule-skeleton facts -/

theorem lookup_mem {α β : Type} [BEq α] [LawfulBEq α] :
    ∀ (l : List (α × β)) (a : α) (b : β), l.lookup a = some b → (a, b) ∈ l
  | [], a, b, h => by simp [List.lookup] at h
  | (k, v) :: t, a, b, h => by
    cases hk : (a == k) with
    | true =>
      have h2 := h
      simp only [List.lookup, hk] at h2
      have hka : a = k := eq_of_beq hk
      have hv : v = b := Option.some.inj h2
      subst hka
      subst hv
      exact List.mem_cons_self _ _
    | false =>
      have h2 := h
      simp only [List.lookup, hk] at h2
      exact List.mem_cons_of_mem _ (lookup_mem t a b h2)

theorem WFa_driver_ids_nodup (a : Args) (hwf : WFa a) (d : String) :
    ((lookupD a.dbd d).map Driver.id).Nodup := by
  unfold lookupD
  cases hl : a.dbd.lookup d with
  | none => simp
  | some v => exact (hwf.2.2.2.1 (d, v) (lookup_mem _ _ _ hl)).2

theorem WFa_start_le_end (a : Args) (hwf : WFa a) (d : String) (drv : Driver)
    (h : drv ∈ lookupD a.dbd d) : drv.start_time ≤ drv.end_time := by
  unfold lookupD at h
  cases hl : a.dbd.lookup d with
  | none =>
    rw [hl] at h
    simp at h
  | some v =>
    rw [hl] at h
    exact hwf.2.2.2.2 (d, v) (lookup_mem _ _ _ hl) drv h

theorem offsetOf_enum (dates : List String) (hnd : dates.Nodup) (p : ℕ × String)
    (hp : p ∈ dates.enum) : offsetOf dates p.2 = (p.1 : ℚ) * 1440 := by
  unfold offsetOf
  have h1 : dates[p.1]? = some p.2 := List.mem_enum_iff_getElem?.mp hp
  have hlt : p.1 < dates.length := by
    by_contra hc
    push_neg at hc
    rw [List.getElem?_eq_none hc] at h1
    exact Option.noConfusion h1
  have h2 : dates[p.1] = p.2 := by
    rw [List.getElem?_eq_getElem hlt] at h1
    exact Option.some.inj h1
  have h3 : List.indexOf p.2 dates = p.1 := by
    rw [← h2]
    exact List.indexOf_getElem hnd p.1 hlt
  rw [h3]

theorem mem_vehicles (dates : List String) (dbd : DBD) (v : Vehicle)
    (h : v ∈ vehicles dates dbd) :
    ∃ p ∈ dates.enum, ∃ drv ∈ lookupD dbd p.2,
      v = ⟨drv.id, p.2, p.1, (p.1 : ℚ) * 1440 + drv.start_time,
        (p.1 : ℚ) * 1440 + drv.end_time⟩ := by
  unfold vehicles at h
  rcases List.mem_flatMap.mp h with ⟨p, hp, hv⟩
  rcases List.mem_map.mp hv with ⟨drv, hdrv, heq⟩
  exact ⟨p, hp, drv, hdrv, heq.symm⟩

theorem stage0_keys (a : Args) : (stage0 a).map Prod.fst = a.dates := by
  unfold stage0
  rw [List.map_map]
  have : (Prod.fst ∘ fun d => ((d, []) : String × List Route)) = fun d => d := rfl
  rw [this]
  exact List.map_id' a.dates

theorem backfillMissing_avail (dbd : DBD) (s : Scheds) (fd : String) :
    ∀ i ∈ backfillMissing dbd s fd, ∃ drv ∈ lookupD dbd fd, drv.id = i := by
  intro i hi
  unfold backfillMissing at hi
  have hi2 := List.mem_of_mem_filter hi
  rcases List.mem_map.mp hi2 with ⟨drv, hdrv, hid⟩
  exact ⟨drv, hdrv, hid⟩

theorem backfill_facts (dates : List String) (dbd : DBD) (s : Scheds)
    (hnd : (s.map Prod.fst).Nodup) (hsub : ∀ d ∈ dates, d ∈ s.map Prod.fst) :
    ((backfill dates dbd s).map Prod.fst = s.map Prod.fst) ∧
    (planIds (backfill dates dbd s)).Perm (planIds s) := by
  cases hud : usedDays dates s with
  | nil =>
    have hred : backfill dates dbd s = s := by
      unfold backfill
      rw [hud]
    rw [hred]
    exact ⟨rfl, List.Perm.refl _⟩
  | cons fd rest =>
    have hfd_dates : fd ∈ dates := by
      have hmem : fd ∈ usedDays dates s := by
        rw [hud]
        exact List.mem_cons_self _ _
      exact List.mem_of_mem_filter hmem
    have hfd : fd ∈ s.map Prod.fst := hsub fd hfd_dates
    by_cases hme : (backfillMissing dbd s fd).isEmpty
    · have hred : backfill dates dbd s = s := by
        unfold backfill
        simp only [hud]
        rw [if_pos hme]
      rw [hred]
      exact ⟨rfl, List.Perm.refl _⟩
    · have hloop := backfillLoop_results (lookupD dbd fd) fd (offsetOf dates fd)
        (backfillMissing dbd s fd) (donorSlots s (usedDays dates s)) s hnd hfd
        (backfillMissing_avail dbd s fd)
      by_cases hun : (backfillLoop (lookupD dbd fd) fd (offsetOf dates fd)
          (backfillMissing dbd s fd) (donorSlots s (usedDays dates s)) s).2.isEmpty
      · have hred : backfill dates dbd s =
            (backfillLoop (lookupD dbd fd) fd (offsetOf dates fd)
              (backfillMissing dbd s fd) (donorSlots s (usedDays dates s)) s).1 := by
          unfold backfill
          simp only [hud]
          rw [if_neg hme, if_pos (by rw [← hud]; exact hun)]
        rw [hred]
        exact ⟨hloop.1, hloop.2.1⟩
      · have hne2 : (backfillLoop (lookupD dbd fd) fd (offsetOf dates fd)
            (backfillMissing dbd s fd) (donorSlots s (usedDays dates s)) s).2 ≠ [] := by
          simpa [List.isEmpty_iff] using hun
        rcases List.exists_mem_of_ne_nil _ hne2 with ⟨i, hi⟩
        have hex : ∃ i2 ∈ (backfillLoop (lookupD dbd fd) fd (offsetOf dates fd)
            (backfillMissing dbd s fd) (donorSlots s (usedDays dates s)) s).2,
            ∃ drv ∈ lookupD dbd fd, drv.id = i2 :=
          ⟨i, hi, backfillMissing_avail dbd s fd i (hloop.2.2 i hi)⟩
        have hfb := backfillFallback_facts (lookupD dbd fd) fd (offsetOf dates fd)
          ((backfillLoop (lookupD dbd fd) fd (offsetOf dates fd)
            (backfillMissing dbd s fd) (donorSlots s (usedDays dates s)) s).2)
          ((backfillLoop (lookupD dbd fd) fd (offsetOf dates fd)
            (backfillMissing dbd s fd) (donorSlots s (usedDays dates s)) s).1)
          (by rw [hloop.1]; exact hnd) (by rw [hloop.1]; exact hfd) hex
        have hred : backfill dates dbd s =
            backfillFallback (lookupD dbd fd) fd (offsetOf dates fd)
              ((backfillLoop (lookupD dbd fd) fd (offsetOf dates fd)
                (backfillMissing dbd s fd) (donorSlots s (usedDays dates s)) s).2)
              ((backfillLoop (lookupD dbd fd) fd (offsetOf dates fd)
                (backfillMissing dbd s fd) (donorSlots s (usedDays dates s)) s).1) := by
          unfold backfill
          simp only [hud]
          rw [if_neg hme, if_neg (by rw [← hud]; exact hun)]
        rw [hred]
        exact ⟨hfb.1.trans hloop.1, hfb.2.trans hloop.2.1⟩

theorem planIds_skeleton : ∀ ds : List String, planIds (ds.map fun d => (d, [])) = []
  | [] => rfl
  | d :: t => by
    rw [List.map_cons, planIds_cons, planIds_skeleton t]
    rfl

theorem AllRoutes_skeleton (P : String → Route → Prop) (ds : List String) :
    AllRoutes P (ds.map fun d => (d, [])) := by
  intro e he r hr
  rcases List.mem_map.mp he with ⟨d, _, heq⟩
  subst heq
  simp at hr

theorem stage1_keys (a : Args) (sol : CPSol) : (stage1 a sol).map Prod.fst = a.dates := by
  unfold stage1
  rw [extractAll_keys, stage0_keys]

theorem stage2_keys (a : Args) (sol : CPSol) : (stage2 a sol).map Prod.fst = a.dates := by
  unfold stage2 sweepResult
  by_cases h : (remaining0 a sol).isEmpty
  · rw [if_pos h]
    exact stage1_keys a sol
  · rw [if_neg h]
    rw [(sweepDates_master a.tf a.maxStops a.branchPt a.dbd a.dates.enum
      (remaining0 a sol) (stage1 a sol)).1]
    exact stage1_keys a sol

theorem stage3_keys (a : Args) (sol : CPSol) (hwf : WFa a) :
    (stage3 a sol).map Prod.fst = a.dates := by
  unfold stage3
  rw [(backfill_facts a.dates a.dbd (stage2 a sol)
    (by rw [stage2_keys]; exact hwf.1)
    (by intro d hd; rw [stage2_keys]; exact hd)).1]
  exact stage2_keys a sol

theorem stage4_keys (a : Args) (sol : CPSol) (hwf : WFa a) :
    (stage4 a sol).map Prod.fst = a.dates := by
  unfold stage4
  rw [reseq_keys]
  exact stage3_keys a sol hwf

/-! ## planIds across stages, and the remaining / pyKeys dictionaries -/

theorem planIds_stage1_perm (a : Args) (sol : CPSol) (hwf : WFa a) :
    (planIds (stage1 a sol)).Perm
      (((vehOf a).zip (sol.visits.zip sol.endArr)).flatMap
        fun q => q.2.1.map fun p => (cloneAt (expOf a) p.1).base.id) := by
  unfold stage1 extractAll
  have h := planIds_extractFold (expOf a) ((vehOf a).zip (sol.visits.zip sol.endArr)) (stage0 a)
    (by rw [stage0_keys]; exact hwf.1)
    (by
      intro q hq
      rw [stage0_keys]
      have hv : q.1 ∈ vehOf a := (List.mem_zip hq).1
      rcases mem_vehicles a.dates a.dbd q.1 hv with ⟨p, hp, drv, hdrv, heq⟩
      have hdq : q.1.date = p.2 := by rw [heq]
      rw [hdq]
      have he := List.enum_map_snd a.dates
      exact he ▸ List.mem_map_of_mem Prod.snd hp)
  have h0 : planIds (stage0 a) = [] := planIds_skeleton a.dates
  rw [h0, List.nil_append] at h
  exact h

theorem planIds_stage2_perm (a : Args) (sol : CPSol) (hwf : WFa a) :
    (planIds (stage2 a sol)).Perm (planIds (stage1 a sol) ++
      ((greedyRoutes a sol).flatMap fun pr => pr.2.stops.map Stop.target_id)) := by
  unfold stage2 greedyRoutes sweepResult
  by_cases h : (remaining0 a sol).isEmpty
  · rw [if_pos h]
    simp
  · rw [if_neg h]
    exact (sweepDates_master a.tf a.maxStops a.branchPt a.dbd a.dates.enum
      (remaining0 a sol) (stage1 a sol)).2.2.2
      (by rw [stage1_keys]; exact hwf.1)
      (by
        intro p hp
        rw [stage1_keys]
        have he := List.enum_map_snd a.dates
        exact he ▸ List.mem_map_of_mem Prod.snd hp)

theorem greedy_ids_take (a : Args) (sol : CPSol) :
    ∃ k, ((greedyRoutes a sol).flatMap fun pr => pr.2.stops.map Stop.target_id) =
        ((remaining0 a sol).map Target.id).take k ∧
      (sweepResult a sol).2.1 = (remaining0 a sol).drop k := by
  unfold greedyRoutes sweepResult
  by_cases h : (remaining0 a sol).isEmpty
  · rw [if_pos h]
    refine ⟨0, by simp, ?_⟩
    simp [List.isEmpty_iff.mp h]
  · rw [if_neg h]
    rcases (sweepDates_master a.tf a.maxStops a.branchPt a.dbd a.dates.enum (remaining0 a sol)
      (stage1 a sol)).2.1 with ⟨k, h1, h2⟩
    exact ⟨k, h2, h1⟩

theorem pyKeys_aux_mem : ∀ (ts : List Target) (ks : List String) (i : String),
    (i ∈ ts.foldl (fun ks t => if ks.contains t.id then ks else ks ++ [t.id]) ks ↔
      i ∈ ks ∨ ∃ t ∈ ts, t.id = i)
  | [], ks, i => by simp
  | t :: ts, ks, i => by
    rw [List.foldl_cons]
    by_cases hc : ks.contains t.id
    · rw [if_pos hc, pyKeys_aux_mem ts ks i]
      constructor
      · rintro (h | ⟨u, hu, he⟩)
        · exact Or.inl h
        · exact Or.inr ⟨u, List.mem_cons_of_mem _ hu, he⟩
      · rintro (h | ⟨u, hu, he⟩)
        · exact Or.inl h
        · rcases List.mem_cons.mp hu with rfl | hu2
          · exact Or.inl (by rw [← he]; simpa using hc)
          · exact Or.inr ⟨u, hu2, he⟩
    · rw [if_neg hc, pyKeys_aux_mem ts (ks ++ [t.id]) i]
      constructor
      · rintro (h | ⟨u, hu, he⟩)
        · rcases List.mem_append.mp h with h2 | h2
          · exact Or.inl h2
          · have h3 : i = t.id := by simpa using h2
            exact Or.inr ⟨t, List.mem_cons_self _ _, h3.symm⟩
        · exact Or.inr ⟨u, List.mem_cons_of_mem _ hu, he⟩
      · rintro (h | ⟨u, hu, he⟩)
        · exact Or.inl (List.mem_append.mpr (Or.inl h))
        · rcases List.mem_cons.mp hu with rfl | hu2
          · exact Or.inl (List.mem_append.mpr (Or.inr (by simp [he])))
          · exact Or.inr ⟨u, hu2, he⟩

theorem pyKeys_aux_nodup : ∀ (ts : List Target) (ks : List String), ks.Nodup →
    (ts.foldl (fun ks t => if ks.contains t.id then ks else ks ++ [t.id]) ks).Nodup
  | [], _, h => h
  | t :: ts, ks, h => by
    rw [List.foldl_cons]
    by_cases hc : ks.contains t.id
    · rw [if_pos hc]
      exact pyKeys_aux_nodup ts ks h
    · rw [if_neg hc]
      apply pyKeys_aux_nodup ts
      refine List.Nodup.append h (List.nodup_singleton _) ?_
      intro x hx hy
      have hxy : x = t.id := by simpa using hy
      subst hxy
      exact hc (by simpa using hx)

theorem pyKeys_mem (targets : List Target) (i : String) :
    i ∈ pyKeys targets ↔ ∃ t ∈ targets, t.id = i := by
  unfold pyKeys
  rw [pyKeys_aux_mem]
  simp

theorem pyKeys_nodup (targets : List Target) : (pyKeys targets).Nodup :=
  pyKeys_aux_nodup targets [] List.nodup_nil

theorem lastWithId_id (targets : List Target) (i : String)
    (h : ∃ t ∈ targets, t.id = i) : (lastWithId targets i).id = i := by
  unfold lastWithId
  rcases h with ⟨t, ht, hid⟩
  have hmem : t ∈ targets.filter (fun u => u.id == i) := by
    rw [List.mem_filter]
    exact ⟨ht, by simp [hid]⟩
  have hne : targets.filter (fun u => u.id == i) ≠ [] := by
    intro he
    rw [he] at hmem
    simp at hmem
  rw [List.getLast?_eq_getLast _ hne]
  have hl := List.getLast_mem hne
  have h2 := (List.mem_filter.mp hl).2
  show ((targets.filter fun u => u.id == i).getLast hne).id = i
  exact eq_of_beq h2

theorem remaining0_ids (a : Args) (sol : CPSol) :
    ((remaining0 a sol).map Target.id).Perm
      ((pyKeys a.targets).filter fun k => !(aset1 a sol).contains k) := by
  unfold remaining0
  have hperm := (isortBy_perm (fun t u => strLe t.id u.id)
    (((pyKeys a.targets).filter fun k => !(aset1 a sol).contains k).map
      (lastWithId a.targets))).map Target.id
  rw [List.map_map] at hperm
  have h2 : ((pyKeys a.targets).filter fun k => !(aset1 a sol).contains k).map
      (Target.id ∘ lastWithId a.targets) =
      (pyKeys a.targets).filter fun k => !(aset1 a sol).contains k := by
    have hcong : ∀ k ∈ (pyKeys a.targets).filter fun k => !(aset1 a sol).contains k,
        (Target.id ∘ lastWithId a.targets) k = (fun x => x) k := by
      intro k hk
      have hk2 := List.mem_of_mem_filter hk
      exact lastWithId_id a.targets k ((pyKeys_mem a.targets k).mp hk2)
    rw [List.map_congr_left hcong, List.map_id']
  rw [h2] at hperm
  exact hperm

theorem remaining0_ids_nodup (a : Args) (sol : CPSol) :
    ((remaining0 a sol).map Target.id).Nodup := by
  rw [(remaining0_ids a sol).nodup_iff]
  exact List.Nodup.filter _ (pyKeys_nodup a.targets)

/-! ## assigned_ids and the split("@") defect -/

theorem AllRoutes_extractFold {P : String → Route → Prop} (exp : List Clone) :
    ∀ (l : List (Vehicle × List (ℕ × ℚ) × ℚ)) (s0 : Scheds), AllRoutes P s0 →
      (∀ q ∈ l, P q.1.date (extractVeh exp q.1 q.2.1 q.2.2)) →
      AllRoutes P (l.foldl
        (fun s q => appendRoute s q.1.date (extractVeh exp q.1 q.2.1 q.2.2)) s0)
  | [], s0, hs, _ => hs
  | q :: t, s0, hs, hq => by
    rw [List.foldl_cons]
    exact AllRoutes_extractFold exp t _
      (AllRoutes_appendRoute hs (hq q (List.mem_cons_self _ _)))
      (fun q' hq' => hq q' (List.mem_cons_of_mem _ hq'))

theorem AllRoutes_extractAll {P : String → Route → Prop} (exp : List Clone)
    (veh : List Vehicle) (sol : CPSol) (s0 : Scheds) (hs : AllRoutes P s0)
    (hv : ∀ q ∈ veh.zip (sol.visits.zip sol.endArr),
      P q.1.date (extractVeh exp q.1 q.2.1 q.2.2)) :
    AllRoutes P (extractAll exp veh sol s0) := by
  unfold extractAll
  exact AllRoutes_extractFold exp _ s0 hs hv

theorem cloneAt_base_noAt (a : Args) (hna : NoAtIds a) (nk : ℕ) :
    '@' ∉ (cloneAt (expOf a) nk).base.id.toList := by
  unfold cloneAt
  by_cases h : nk - 1 < (expOf a).length
  · rw [List.getD_eq_getElem _ _ h]
    rcases expandedTargets_base a.dates a.dbd a.targets _ (List.getElem_mem h) with
      ⟨t, ht, hb, _⟩
    rw [hb]
    exact hna t ht
  · rw [List.getD_eq_default _ _ (not_lt.mp h)]
    simp [dfltClone, dfltTarget]

theorem cloneAt_base_id_eq (a : Args) (nk : ℕ) :
    (cloneAt (expOf a) nk).base_id = (cloneAt (expOf a) nk).base.id := by
  unfold cloneAt
  by_cases h : nk - 1 < (expOf a).length
  · rw [List.getD_eq_getElem _ _ h]
    rcases expandedTargets_base a.dates a.dbd a.targets _ (List.getElem_mem h) with
      ⟨t, _, hb, hbid⟩
    rw [hb, hbid]
  · rw [List.getD_eq_default _ _ (not_lt.mp h)]
    rfl

theorem planIds_prop_of_AllRoutes {s : Scheds} {Q : String → Prop}
    (h : AllRoutes (fun _ r => ∀ i ∈ r.stops.map Stop.target_id, Q i) s) :
    ∀ i ∈ planIds s, Q i := by
  intro i hi
  unfold planIds at hi
  rcases List.mem_flatMap.mp hi with ⟨e, he, hi2⟩
  rcases List.mem_flatMap.mp hi2 with ⟨r, hr, hi3⟩
  exact h e he r hr i hi3

theorem AllRoutes_stage1_noAt (a : Args) (sol : CPSol) (hna : NoAtIds a) :
    AllRoutes (fun _ r => ∀ i ∈ r.stops.map Stop.target_id, '@' ∉ i.toList)
      (stage1 a sol) := by
  unfold stage1
  refine AllRoutes_extractAll (expOf a) (vehOf a) sol (stage0 a)
    (AllRoutes_skeleton _ a.dates) ?_
  intro q _
  rw [extractVeh_ids]
  intro i hi
  rcases List.mem_map.mp hi with ⟨p, _, heq⟩
  rw [← heq]
  exact cloneAt_base_noAt a hna p.1

theorem map_split_planIds (s : Scheds) :
    (s.flatMap fun e => e.2.flatMap fun r => r.stops.map fun st =>
      splitAtSign st.target_id) = (planIds s).map splitAtSign := by
  unfold planIds
  simp only [List.map_flatMap, List.map_map]
  rfl

theorem aset1_eq (a : Args) (sol : CPSol) :
    aset1 a sol = (planIds (stage1 a sol)).map splitAtSign := by
  unfold aset1
  exact map_split_planIds (stage1 a sol)

theorem aset1_eq_planIds (a : Args) (sol : CPSol) (hna : NoAtIds a) :
    aset1 a sol = planIds (stage1 a sol) := by
  rw [aset1_eq]
  have hcong : ∀ i ∈ planIds (stage1 a sol), splitAtSign i = (fun x => x) i := by
    intro i hi
    exact splitAtSign_eq_self i
      (planIds_prop_of_AllRoutes (AllRoutes_stage1_noAt a sol hna) i hi)
  rw [List.map_congr_left hcong, List.map_id']

theorem zip_snd_fst {A B C : Type} : ∀ (l1 : List A) (l2 : List B) (l3 : List C),
    l1.length = l2.length → l2.length = l3.length →
    (l1.zip (l2.zip l3)).map (fun q => q.2.1) = l2
  | [], l2, l3, h1, h2 => by
    have h3 : l2 = [] := List.length_eq_zero.mp (by rw [← h1]; rfl)
    subst h3
    rfl
  | a :: t1, l2, l3, h1, h2 => by
    cases l2 with
    | nil => simp at h1
    | cons b t2 =>
      cases l3 with
      | nil => simp at h2
      | cons c t3 =>
        rw [List.zip_cons_cons, List.zip_cons_cons, List.map_cons]
        rw [zip_snd_fst t1 t2 t3 (by simpa using h1) (by simpa using h2)]

theorem map_flatten_eq {A B : Type} (f : A → B) : ∀ L : List (List A),
    (L.flatten).map f = L.flatMap fun v => v.map f
  | [] => rfl
  | v :: L => by
    rw [List.flatten_cons, List.map_append, List.flatMap_cons, map_flatten_eq f L]

theorem planIds_stage1_nodup (a : Args) (sol : CPSol) (hwf : WFa a)
    (hcp : CPValid (expOf a) (vehOf a) sol) : (planIds (stage1 a sol)).Nodup := by
  rw [(planIds_stage1_perm a sol hwf).nodup_iff]
  have hv : ((vehOf a).zip (sol.visits.zip sol.endArr)).map (fun q => q.2.1) = sol.visits :=
    zip_snd_fst (vehOf a) sol.visits sol.endArr hcp.1.symm (hcp.1.trans hcp.2.1.symm)
  have he : ((vehOf a).zip (sol.visits.zip sol.endArr)).flatMap
      (fun q => q.2.1.map fun p => (cloneAt (expOf a) p.1).base.id) =
      sol.visits.flatMap (fun v => v.map fun p => (cloneAt (expOf a) p.1).base.id) := by
    conv_rhs => rw [← hv]
    rw [List.flatMap_map]
  rw [he, ← map_flatten_eq]
  have hcong : sol.visits.flatten.map (fun p => (cloneAt (expOf a) p.1).base.id) =
      sol.visits.flatten.map (fun p => (cloneAt (expOf a) p.1).base_id) :=
    List.map_congr_left fun p _ => (cloneAt_base_id_eq a p.1).symm
  rw [hcong]
  exact hcp.2.2.2

theorem asetFinal_perm (a : Args) (sol : CPSol) (hwf : WFa a) (hna : NoAtIds a) :
    (asetFinal a sol).Perm (planIds (stage2 a sol)) := by
  unfold asetFinal
  rw [aset1_eq_planIds a sol hna]
  exact (planIds_stage2_perm a sol hwf).symm

theorem planIds_stage4_perm (a : Args) (sol : CPSol) (hwf : WFa a) :
    (planIds (stage4 a sol)).Perm (planIds (stage2 a sol)) := by
  unfold stage4 stage3
  exact (planIds_reseq a.tf a.branchPt a.dates a.dbd a.targets _).trans
    (backfill_facts a.dates a.dbd (stage2 a sol)
      (by rw [stage2_keys]; exact hwf.1)
      (by intro d hd; rw [stage2_keys]; exact hd)).2

theorem mem_planIds_stage4_iff (a : Args) (sol : CPSol) (hwf : WFa a) (hna : NoAtIds a)
    (i : String) : i ∈ planIds (stage4 a sol) ↔ i ∈ asetFinal a sol :=
  ((planIds_stage4_perm a sol hwf).trans (asetFinal_perm a sol hwf hna).symm).mem_iff

theorem planIds_stage4_nodup (a : Args) (sol : CPSol) (hwf : WFa a) (hna : NoAtIds a)
    (hcp : CPValid (expOf a) (vehOf a) sol) : (planIds (stage4 a sol)).Nodup := by
  rw [(planIds_stage4_perm a sol hwf).nodup_iff, (planIds_stage2_perm a sol hwf).nodup_iff]
  rcases greedy_ids_take a sol with ⟨k, hids, _⟩
  refine List.nodup_append.mpr ⟨planIds_stage1_nodup a sol hwf hcp, ?_, ?_⟩
  · rw [hids]
    exact (List.take_sublist _ _).nodup (remaining0_ids_nodup a sol)
  · intro i hi1 hi2
    rw [hids] at hi2
    have hi3 : i ∈ (remaining0 a sol).map Target.id := (List.take_sublist _ _).subset hi2
    have hi4 := (remaining0_ids a sol).mem_iff.mp hi3
    have hi5 := (List.mem_filter.mp hi4).2
    have hi6 : i ∉ aset1 a sol := by
      intro hc
      have hc2 : (aset1 a sol).contains i = true := by simpa using hc
      rw [hc2] at hi5
      simp at hi5
    exact hi6 (by rw [aset1_eq_planIds a sol hna]; exact hi1)

theorem contains_eq_of_mem_iff {l1 l2 : List String} (h : ∀ x, x ∈ l1 ↔ x ∈ l2)
    (k : String) : l1.contains k = l2.contains k := by
  cases h1 : l1.contains k with
  | true =>
    have hm : k ∈ l2 := (h k).mp (by simpa using h1)
    have h2 : l2.contains k = true := by simpa using hm
    rw [h2]
  | false =>
    cases h2 : l2.contains k with
    | true =>
      have hm : k ∈ l1 := (h k).mpr (by simpa using h2)
      have h3 : l1.contains k = true := by simpa using hm
      rw [h1] at h3
      exact absurd h3 (by simp)
    | false => rfl

theorem unassigned_eq_final (a : Args) (sol : CPSol) (hwf : WFa a) (hna : NoAtIds a) :
    unassignedFinal a sol =
      isortBy strLe ((pyKeys a.targets).filter fun k =>
        !(planIds (stage4 a sol)).contains k) := by
  unfold unassignedFinal
  congr 1
  apply List.filter_congr
  intro k _
  have hc := contains_eq_of_mem_iff
    (fun x => (mem_planIds_stage4_iff a sol hwf hna x).symm) k
  rw [hc]

theorem planIds_stage4_sub_pyKeys (a : Args) (sol : CPSol) (hwf : WFa a) (hna : NoAtIds a)
    (hcp : CPValid (expOf a) (vehOf a) sol) :
    ∀ i ∈ planIds (stage4 a sol), i ∈ pyKeys a.targets := by
  intro i hi
  have hi2 := (mem_planIds_stage4_iff a sol hwf hna i).mp hi
  unfold asetFinal at hi2
  rcases List.mem_append.mp hi2 with h1 | h1
  · rw [aset1_eq_planIds a sol hna] at h1
    have h2 := (planIds_stage1_perm a sol hwf).mem_iff.mp h1
    rcases List.mem_flatMap.mp h2 with ⟨q, hq, h3⟩
    rcases List.mem_map.mp h3 with ⟨p, hp, heq⟩
    have hvr : q.2.1 ∈ sol.visits := (List.mem_zip (List.mem_zip hq).2).1
    rcases hcp.2.2.1 q.2.1 hvr p hp with ⟨hp1, hp2, _, _⟩
    have hcl := cloneAt_mem (expOf a) p.1 hp1 hp2
    rcases expandedTargets_base a.dates a.dbd a.targets _ hcl with ⟨t, ht, hb, _⟩
    rw [← heq, hb]
    exact (pyKeys_mem a.targets t.id).mpr ⟨t, ht, rfl⟩
  · rcases greedy_ids_take a sol with ⟨k, hids, _⟩
    rw [hids] at h1
    have h2 : i ∈ (remaining0 a sol).map Target.id := (List.take_sublist _ _).subset h1
    have h3 := (remaining0_ids a sol).mem_iff.mp h2
    exact List.mem_of_mem_filter h3

/-! ## C1, C10, C5: amended claim theorems -/

/-- C1 (amended): for a successful plan over well-formed input whose target ids
avoid the reserved `'@'` character, `unassigned` is exactly the sorted list of
base target ids that appear in no stop of the final schedules, each base id
appears in at most one stop (hence at most one route) across all dates, every
scheduled id is a base target id absent from `unassigned`, and every base id is
either scheduled or unassigned.  (The original claim is false for ids
containing `'@'` because `assigned_ids` re-derives base ids via
`split("@")[0]`; see the counterexample.) -/
theorem C1_unassigned_amended (a : Args) (sol : CPSol) (hwf : WFa a) (hna : NoAtIds a)
    (hcp : CPValid (expOf a) (vehOf a) sol) :
    unassignedFinal a sol =
      isortBy strLe ((pyKeys a.targets).filter fun k =>
        !(planIds (stage4 a sol)).contains k) ∧
    (planIds (stage4 a sol)).Nodup ∧
    (∀ i ∈ planIds (stage4 a sol), i ∈ pyKeys a.targets ∧ i ∉ unassignedFinal a sol) ∧
    (∀ i ∈ pyKeys a.targets, i ∈ planIds (stage4 a sol) ∨ i ∈ unassignedFinal a sol) := by
  refine ⟨unassigned_eq_final a sol hwf hna, planIds_stage4_nodup a sol hwf hna hcp, ?_, ?_⟩
  · intro i hi
    refine ⟨planIds_stage4_sub_pyKeys a sol hwf hna hcp i hi, ?_⟩
    intro hc
    rw [unassigned_eq_final a sol hwf hna, mem_isortBy, List.mem_filter] at hc
    have h2 := hc.2
    have h3 : (planIds (stage4 a sol)).contains i = true := by simpa using hi
    rw [h3] at h2
    simp at h2
  · intro i hi
    by_cases h : i ∈ planIds (stage4 a sol)
    · exact Or.inl h
    · refine Or.inr ?_
      rw [unassigned_eq_final a sol hwf hna, mem_isortBy, List.mem_filter]
      exact ⟨hi, by simpa using h⟩

/-- C10 (amended): the backfill and the re-sequencer preserve the dates and the
multiset of scheduled target ids (every transplanted stop leaves one donor
route and enters one new route; re-sequencing permutes a route's stops), and —
provided no target id contains `'@'` — `unassigned`, computed before these
phases, still consists exactly of the base ids absent from the final routes.
(The `'@'`-free proviso is forced by the counterexample.) -/
theorem C10_preservation_amended (a : Args) (sol : CPSol) (hwf : WFa a) :
    ((stage3 a sol).map Prod.fst = (stage2 a sol).map Prod.fst ∧
      (planIds (stage3 a sol)).Perm (planIds (stage2 a sol))) ∧
    ((stage4 a sol).map Prod.fst = (stage3 a sol).map Prod.fst ∧
      (planIds (stage4 a sol)).Perm (planIds (stage3 a sol))) ∧
    (NoAtIds a → CPValid (expOf a) (vehOf a) sol →
      ∀ i ∈ pyKeys a.targets,
        (i ∈ unassignedFinal a sol ↔ i ∉ planIds (stage4 a sol))) := by
  have hb := backfill_facts a.dates a.dbd (stage2 a sol)
    (by rw [stage2_keys]; exact hwf.1) (by intro d hd; rw [stage2_keys]; exact hd)
  refine ⟨⟨hb.1, hb.2⟩, ⟨reseq_keys _ _ _ _ _ _, planIds_reseq _ _ _ _ _ _⟩, ?_⟩
  intro hna hcp i hi
  constructor
  · intro hu hmem
    rw [unassigned_eq_final a sol hwf hna, mem_isortBy, List.mem_filter] at hu
    have h2 := hu.2
    have h3 : (planIds (stage4 a sol)).contains i = true := by simpa using hmem
    rw [h3] at h2
    simp at h2
  · intro hn
    rw [unassigned_eq_final a sol hwf hna, mem_isortBy, List.mem_filter]
    exact ⟨hi, by simpa using hn⟩

/-- C5 (amended): the greedy sweeper consumes a prefix of the leftover targets
in ascending id order (`remaining0` is the id-sorted leftover list): the ids it
schedules are exactly `take k` of that sorted list and the final leftover is
`drop k`; each appended route respects the stop cap and every appended stop
departs at `arrival + stay`, no later than the driver's absolute day end.  The
route built for a driver is appended to the day's schedule unconditionally —
the original claim's "an empty route is never added" clause is false (see the
counterexample); only the return leg is conditional on non-emptiness. -/
theorem C5_greedy_amended (a : Args) (sol : CPSol) :
    ∃ k, ((greedyRoutes a sol).flatMap fun pr => pr.2.stops.map Stop.target_id) =
        ((remaining0 a sol).map Target.id).take k ∧
      (sweepResult a sol).2.1 = (remaining0 a sol).drop k ∧
      ∀ pr ∈ greedyRoutes a sol, pr.2.stops.length ≤ a.maxStops ∧
        ∀ st ∈ pr.2.stops, st.depart_min = st.arrival_min + st.stay_minutes ∧
          st.depart_min ≤ pr.1 := by
  rcases greedy_ids_take a sol with ⟨k, h1, h2⟩
  refine ⟨k, h1, h2, ?_⟩
  intro pr hpr
  unfold greedyRoutes sweepResult at hpr
  by_cases h : (remaining0 a sol).isEmpty
  · rw [if_pos h] at hpr
    simp at hpr
  · rw [if_neg h] at hpr
    rcases (sweepDates_master a.tf a.maxStops a.branchPt a.dbd a.dates.enum (remaining0 a sol)
      (stage1 a sol)).2.2.1 pr hpr with ⟨p, _, drv, _, rem', heq⟩
    rcases sweepDriver_facts a.tf a.maxStops a.branchPt ((p.1 : ℚ) * 1440) drv rem' with
      ⟨k2, _, _, _, _, hlen, hstops, _⟩
    subst heq
    exact ⟨hlen, fun st hst => ⟨(hstops st hst).1, (hstops st hst).2⟩⟩

/-! ## Route-invariant preservation through the sweeper and the backfill -/

theorem sweepDrivers_AllRoutesMem (tf : Pt → Pt → ℚ) (maxStops : ℕ) (branchPt : Pt)
    (offset : ℚ) (d : String) (P : String → Route → Prop) :
    ∀ (drvs : List Driver) (rem : List Target) (s : Scheds), AllRoutes P s →
      (∀ drv ∈ drvs, ∀ rem', P d (sweepDriver tf maxStops branchPt offset drv rem').1) →
      AllRoutes P (sweepDrivers tf maxStops branchPt offset d drvs rem s).1
  | [], rem, s, hs, _ => hs
  | drv :: ds, rem, s, hs, hnew => by
    by_cases hrem : rem.isEmpty
    · rw [show sweepDrivers tf maxStops branchPt offset d (drv :: ds) rem s = (s, rem, []) by
        rw [sweepDrivers, if_pos hrem]]
      exact hs
    · rw [sweepDrivers, if_neg hrem]
      exact sweepDrivers_AllRoutesMem tf maxStops branchPt offset d P ds
        (sweepDriver tf maxStops branchPt offset drv rem).2
        (appendRoute s d (sweepDriver tf maxStops branchPt offset drv rem).1)
        (AllRoutes_appendRoute hs (hnew drv (List.mem_cons_self _ _) rem))
        (fun drv' hd' rem' => hnew drv' (List.mem_cons_of_mem _ hd') rem')

theorem sweepDates_AllRoutesMem (tf : Pt → Pt → ℚ) (maxStops : ℕ) (branchPt : Pt)
    (dbd : DBD) (P : String → Route → Prop) :
    ∀ (ds : List (ℕ × String)) (rem : List Target) (s : Scheds), AllRoutes P s →
      (∀ p ∈ ds, ∀ drv ∈ lookupD dbd p.2, ∀ rem',
        P p.2 (sweepDriver tf maxStops branchPt ((p.1 : ℚ) * 1440) drv rem').1) →
      AllRoutes P (sweepDates tf maxStops branchPt dbd ds rem s).1
  | [], rem, s, hs, _ => hs
  | p :: ds, rem, s, hs, hnew => by
    by_cases hrem : rem.isEmpty
    · rw [show sweepDates tf maxStops branchPt dbd (p :: ds) rem s = (s, rem, []) by
        rw [sweepDates, if_pos hrem]]
      exact hs
    · rw [sweepDates, if_neg hrem]
      exact sweepDates_AllRoutesMem tf maxStops branchPt dbd P ds
        (sweepDrivers tf maxStops branchPt ((p.1 : ℚ) * 1440) p.2 (lookupD dbd p.2) rem s).2.1
        (sweepDrivers tf maxStops branchPt ((p.1 : ℚ) * 1440) p.2 (lookupD dbd p.2) rem s).1
        (sweepDrivers_AllRoutesMem tf maxStops branchPt ((p.1 : ℚ) * 1440) p.2 P
          (lookupD dbd p.2) rem s hs
          (fun drv hd rem' => hnew p (List.mem_cons_self _ _) drv hd rem'))
        (fun p' hp' => hnew p' (List.mem_cons_of_mem _ hp'))

theorem AllRoutes_giveToFirst {P : String → Route → Prop} (avail : List Driver) (fd : String)
    (offset : ℚ) (st : Stop)
    (hnew : ∀ drvId drv, avail.find? (fun x => x.id == drvId) = some drv →
      P fd (newBackfillRoute drvId offset drv st)) :
    ∀ (unserved : List String) (s : Scheds), AllRoutes P s →
      AllRoutes P (giveToFirst avail fd offset st unserved s)
  | [], _, hs => hs
  | drvId :: rest, s, hs => by
    cases hfind : avail.find? (fun x => x.id == drvId) with
    | none =>
      rw [show giveToFirst avail fd offset st (drvId :: rest) s =
          giveToFirst avail fd offset st rest s by rw [giveToFirst, hfind]]
      exact AllRoutes_giveToFirst avail fd offset st hnew rest s hs
    | some drv =>
      rw [show giveToFirst avail fd offset st (drvId :: rest) s =
          appendRoute s fd (newBackfillRoute drvId offset drv st) by
        rw [giveToFirst, hfind]]
      exact AllRoutes_appendRoute hs (hnew drvId drv hfind)

theorem AllRoutes_backfillLoop {P : String → Route → Prop} (avail : List Driver)
    (fd : String) (offset : ℚ)
    (hpop : ∀ d r st, P d r → P d (popRoute r st))
    (hnew : ∀ drvId drv st, avail.find? (fun x => x.id == drvId) = some drv →
      P fd (newBackfillRoute drvId offset drv st)) :
    ∀ (missing : List String) (slots : List (String × ℕ)) (s : Scheds), AllRoutes P s →
      AllRoutes P (backfillLoop avail fd offset missing slots s).1
  | [], _, s, hs => hs
  | drvId :: rest, [], s, hs => hs
  | drvId :: rest, sl :: slots, s, hs => by
    by_cases hempty : ((routesOf s sl.1).getD sl.2 dfltRoute).stops.isEmpty
    · rw [show backfillLoop avail fd offset (drvId :: rest) (sl :: slots) s =
          backfillLoop avail fd offset rest slots s by rw [backfillLoop, if_pos hempty]]
      exact AllRoutes_backfillLoop avail fd offset hpop hnew rest slots s hs
    · cases hfind : avail.find? (fun x => x.id == drvId) with
      | none =>
        rw [show backfillLoop avail fd offset (drvId :: rest) (sl :: slots) s =
            backfillLoop avail fd offset rest slots
              (updRoute s sl.1 sl.2 (fun r => popRoute r
                (((routesOf s sl.1).getD sl.2 dfltRoute).stops.getLast?.getD dfltStop))) by
          rw [backfillLoop, if_neg hempty, hfind]]
        exact AllRoutes_backfillLoop avail fd offset hpop hnew rest slots _
          (AllRoutes_updRoute hs (fun r hr => hpop _ r _ hr))
      | some drv =>
        rw [show backfillLoop avail fd offset (drvId :: rest) (sl :: slots) s =
            backfillLoop avail fd offset rest slots
              (appendRoute
                (updRoute s sl.1 sl.2 (fun r => popRoute r
                  (((routesOf s sl.1).getD sl.2 dfltRoute).stops.getLast?.getD dfltStop)))
                fd
                (newBackfillRoute drvId offset drv
                  (((routesOf s sl.1).getD sl.2 dfltRoute).stops.getLast?.getD dfltStop))) by
          rw [backfillLoop, if_neg hempty, hfind]]
        exact AllRoutes_backfillLoop avail fd offset hpop hnew rest slots _
          (AllRoutes_appendRoute (AllRoutes_updRoute hs (fun r hr => hpop _ r _ hr))
            (hnew drvId drv _ hfind))

theorem AllRoutes_backfillFallback {P : String → Route → Prop} (avail : List Driver)
    (fd : String) (offset : ℚ)
    (hpop : ∀ d r st, P d r → P d (popRoute r st))
    (hnew : ∀ drvId drv st, avail.find? (fun x => x.id == drvId) = some drv →
      P fd (newBackfillRoute drvId offset drv st))
    (unserved : List String) (s : Scheds) (hs : AllRoutes P s) :
    AllRoutes P (backfillFallback avail fd offset unserved s) := by
  cases hq : longestRouteIdx (routesOf s fd) with
  | none =>
    have hred : backfillFallback avail fd offset unserved s = s := by
      unfold backfillFallback
      rw [hq]
    rw [hred]
    exact hs
  | some q =>
    by_cases hempty : q.2.stops.isEmpty
    · have hred : backfillFallback avail fd offset unserved s = s := by
        unfold backfillFallback
        rw [hq]
        exact if_pos hempty
      rw [hred]
      exact hs
    · have hred : backfillFallback avail fd offset unserved s =
          giveToFirst avail fd offset (q.2.stops.getLast?.getD dfltStop) unserved
            (updRoute s fd q.1 (fun rt => popRoute rt (q.2.stops.getLast?.getD dfltStop))) := by
        unfold backfillFallback
        rw [hq]
        exact if_neg hempty
      rw [hred]
      exact AllRoutes_giveToFirst avail fd offset _ (fun drvId drv hf => hnew drvId drv _ hf)
        unserved _ (AllRoutes_updRoute hs (fun r hr => hpop _ r _ hr))

theorem AllRoutes_backfill {P : String → Route → Prop} (dates : List String) (dbd : DBD)
    (hpop : ∀ d r st, P d r → P d (popRoute r st))
    (hnew : ∀ fd, fd ∈ dates → ∀ drvId drv st,
      (lookupD dbd fd).find? (fun x => x.id == drvId) = some drv →
      P fd (newBackfillRoute drvId (offsetOf dates fd) drv st))
    (s : Scheds) (hs : AllRoutes P s) : AllRoutes P (backfill dates dbd s) := by
  cases hud : usedDays dates s with
  | nil =>
    have hred : backfill dates dbd s = s := by
      unfold backfill
      rw [hud]
    rw [hred]
    exact hs
  | cons fd rest =>
    have hfd : fd ∈ dates := by
      have hmem : fd ∈ usedDays dates s := by
        rw [hud]
        exact List.mem_cons_self _ _
      exact List.mem_of_mem_filter hmem
    by_cases hme : (backfillMissing dbd s fd).isEmpty
    · have hred : backfill dates dbd s = s := by
        unfold backfill
        simp only [hud]
        rw [if_pos hme]
      rw [hred]
      exact hs
    · have hloop := AllRoutes_backfillLoop (lookupD dbd fd) fd (offsetOf dates fd) hpop
        (hnew fd hfd) (backfillMissing dbd s fd) (donorSlots s (usedDays dates s)) s hs
      by_cases hun : (backfillLoop (lookupD dbd fd) fd (offsetOf dates fd)
          (backfillMissing dbd s fd) (donorSlots s (usedDays dates s)) s).2.isEmpty
      · have hred : backfill dates dbd s =
            (backfillLoop (lookupD dbd fd) fd (offsetOf dates fd)
              (backfillMissing dbd s fd) (donorSlots s (usedDays dates s)) s).1 := by
          unfold backfill
          simp only [hud]
          rw [if_neg hme, if_pos (by rw [← hud]; exact hun)]
        rw [hred]
        exact hloop
      · have hred : backfill dates dbd s =
            backfillFallback (lookupD dbd fd) fd (offsetOf dates fd)
              ((backfillLoop (lookupD dbd fd) fd (offsetOf dates fd)
                (backfillMissing dbd s fd) (donorSlots s (usedDays dates s)) s).2)
              ((backfillLoop (lookupD dbd fd) fd (offsetOf dates fd)
                (backfillMissing dbd s fd) (donorSlots s (usedDays dates s)) s).1) := by
          unfold backfill
          simp only [hud]
          rw [if_neg hme, if_neg (by rw [← hud]; exact hun)]
        rw [hred]
        exact AllRoutes_backfillFallback (lookupD dbd fd) fd (offsetOf dates fd) hpop
          (hnew fd hfd) _ _ hloop

/-! ## C2: stop-time laws per stage -/

theorem extractVeh_C2 (a : Args) (sol : CPSol) (hcp : CPValid (expOf a) (vehOf a) sol)
    (q : Vehicle × List (ℕ × ℚ) × ℚ) (hq : q ∈ (vehOf a).zip (sol.visits.zip sol.endArr)) :
    ∀ st ∈ (extractVeh (expOf a) q.1 q.2.1 q.2.2).stops, C2Prop (expOf a) st := by
  intro st hst
  rcases extractVeh_mem (expOf a) q.1 q.2.1 q.2.2 st hst with ⟨p, hp, hid, harr, hdep, hstay⟩
  have hvr : q.2.1 ∈ sol.visits := (List.mem_zip (List.mem_zip hq).2).1
  rcases hcp.2.2.1 q.2.1 hvr p hp with ⟨h1, h2, h3, h4⟩
  constructor
  · refine ⟨cloneAt (expOf a) p.1, cloneAt_mem (expOf a) p.1 h1 h2, hid.symm, ?_, ?_⟩
    · rw [harr]
      exact h3
    · rw [harr]
      exact h4
  · rw [hdep, harr, hstay]

theorem AllRoutes_stage1_C2 (a : Args) (sol : CPSol)
    (hcp : CPValid (expOf a) (vehOf a) sol) :
    AllRoutes (fun _ r => ∀ st ∈ r.stops, C2Prop (expOf a) st) (stage1 a sol) := by
  unfold stage1
  refine AllRoutes_extractAll _ _ _ _ (AllRoutes_skeleton _ a.dates) ?_
  intro q hq
  exact extractVeh_C2 a sol hcp q hq

theorem rebuildLoop_depart (tf : Pt → Pt → ℚ) (targets : List Target) (stops : List Stop) :
    ∀ (idxs : List ℕ) (acc : List Stop) (cur tv sy : ℚ) (pp : Pt),
    (∀ st ∈ acc, st.depart_min = st.arrival_min + st.stay_minutes) →
    ∀ st ∈ (rebuildLoop tf targets stops idxs (acc, cur, tv, sy, pp)).1,
      st.depart_min = st.arrival_min + st.stay_minutes
  | [], acc, cur, tv, sy, pp, hacc => by simpa [rebuildLoop] using hacc
  | idx :: rest, acc, cur, tv, sy, pp, hacc => by
    simp only [rebuildLoop]
    apply rebuildLoop_depart tf targets stops rest _ _ _ _ _
    intro st hst
    rcases List.mem_append.mp hst with h | h
    · exact hacc st h
    · have h2 := List.mem_singleton.mp h
      rw [h2]

theorem optimizeRouteOrder_depart (tf : Pt → Pt → ℚ) (branchPt : Pt)
    (targets : List Target) (r : Route) (dS dE : ℚ)
    (h : ∀ st ∈ r.stops, st.depart_min ≤ st.arrival_min + st.stay_minutes) :
    ∀ st ∈ (optimizeRouteOrder tf branchPt targets r dS dE).stops,
      st.depart_min ≤ st.arrival_min + st.stay_minutes := by
  unfold optimizeRouteOrder
  by_cases h1 : r.stops.length < 3
  · rw [if_pos h1]
    exact h
  · rw [if_neg h1]
    by_cases h2 : r.stops.any (fun st =>
        (lastWithId targets st.target_id).time_window.isSome ||
        (lastWithId targets st.target_id).datetime_window.isSome)
    · rw [if_pos h2]
      exact h
    · rw [if_neg h2]
      intro st hst
      have hstops : (rebuildRoute tf branchPt targets r dS dE).stops =
          (rebuildRes tf branchPt targets r.stops dS).1 := rfl
      rw [hstops] at hst
      unfold rebuildRes at hst
      exact le_of_eq (rebuildLoop_depart tf targets r.stops
        (routeOrder tf branchPt targets r.stops) [] dS 0 0 branchPt (by simp) st hst)

theorem AllRoutes_stage4_depart (a : Args) (sol : CPSol)
    (hcp : CPValid (expOf a) (vehOf a) sol) :
    AllRoutes (fun _ r => ∀ st ∈ r.stops,
      st.depart_min ≤ st.arrival_min + st.stay_minutes) (stage4 a sol) := by
  have h1 : AllRoutes (fun _ r => ∀ st ∈ r.stops,
      st.depart_min ≤ st.arrival_min + st.stay_minutes) (stage1 a sol) :=
    fun e he r hr st hst => le_of_eq (AllRoutes_stage1_C2 a sol hcp e he r hr st hst).2
  have h2 : AllRoutes (fun _ r => ∀ st ∈ r.stops,
      st.depart_min ≤ st.arrival_min + st.stay_minutes) (stage2 a sol) := by
    unfold stage2 sweepResult
    by_cases h : (remaining0 a sol).isEmpty
    · rw [if_pos h]
      exact h1
    · rw [if_neg h]
      refine sweepDates_AllRoutesMem a.tf a.maxStops a.branchPt a.dbd _ a.dates.enum
        (remaining0 a sol) (stage1 a sol) h1 ?_
      intro p _ drv _ rem' st hst
      rcases sweepDriver_facts a.tf a.maxStops a.branchPt ((p.1 : ℚ) * 1440) drv rem' with
        ⟨k, _, _, _, _, _, hstops, _⟩
      exact le_of_eq (hstops st hst).1
  have h3 : AllRoutes (fun _ r => ∀ st ∈ r.stops,
      st.depart_min ≤ st.arrival_min + st.stay_minutes) (stage3 a sol) := by
    unfold stage3
    refine AllRoutes_backfill a.dates a.dbd ?_ ?_ (stage2 a sol) h2
    · intro d r st hr st' hst'
      exact hr st' ((List.dropLast_sublist r.stops).subset hst')
    · intro fd _ drvId drv st _ st' hst'
      have hstops : (newBackfillRoute drvId (offsetOf a.dates fd) drv st).stops =
          [⟨st.target_id, offsetOf a.dates fd + drv.start_time,
            min (offsetOf a.dates fd + drv.end_time)
              (offsetOf a.dates fd + drv.start_time + st.stay_minutes), 0,
            st.stay_minutes⟩] := rfl
      rw [hstops] at hst'
      have h4 := List.mem_singleton.mp hst'
      rw [h4]
      exact min_le_right _ _
  unfold stage4
  refine AllRoutes_reseq a.tf a.branchPt a.dates a.dbd a.targets h3 ?_
  intro d r q _ hr
  exact optimizeRouteOrder_depart a.tf a.branchPt a.targets r q.1 q.2 hr

/-- C2 (amended): for a successful plan, every stop produced by the CP
extraction satisfies the full claimed invariant — its arrival lies in the
absolute time window of a clone of its target and `depart = arrival + stay` —
but the greedy sweeper and the driver backfill ignore time windows (see the
counterexample), and the backfill clamps departures at the driver's day end,
so over the final schedules only `depart ≤ arrival + stay` holds for every
stop of every route. -/
theorem C2_stop_times_amended (a : Args) (sol : CPSol)
    (hcp : CPValid (expOf a) (vehOf a) sol) :
    AllRoutes (fun _ r => ∀ st ∈ r.stops, C2Prop (expOf a) st) (stage1 a sol) ∧
    AllRoutes (fun _ r => ∀ st ∈ r.stops,
      st.depart_min ≤ st.arrival_min + st.stay_minutes) (stage4 a sol) :=
  ⟨AllRoutes_stage1_C2 a sol hcp, AllRoutes_stage4_depart a sol hcp⟩

/-! ## C7: the end-time bound per stage -/

theorem extractVeh_C7 (a : Args) (hwf : WFa a) (exp : List Clone) (v : Vehicle)
    (hv : v ∈ vehOf a) (vis : List (ℕ × ℚ)) (ea : ℚ) :
    C7PropAmended a.dates a.dbd v.date (extractVeh exp v vis ea) := by
  intro drv hdrv hid
  rcases mem_vehicles a.dates a.dbd v hv with ⟨p, hp, drvV, hdrvV, hveq⟩
  have hdate : v.date = p.2 := by rw [hveq]
  have hident : v.id = drvV.id := by rw [hveq]
  have hendT : v.endT = (p.1 : ℚ) * 1440 + drvV.end_time := by rw [hveq]
  have h3 : (extractVeh exp v vis ea).driver_id = v.id := rfl
  have hid2 : drv.id = drvV.id := hid.trans (h3.trans hident)
  rw [hdate] at hdrv
  have hdeq : drv = drvV := List.inj_on_of_nodup_map (WFa_driver_ids_nodup a hwf p.2)
    hdrv hdrvV hid2
  have h1 : (extractVeh exp v vis ea).end_time = ea := rfl
  have h2 : (extractVeh exp v vis ea).overtime_minutes = max 0 (ea - v.endT) := rfl
  have hoff := offsetOf_enum a.dates hwf.1 p hp
  rw [h1, h2, hdate, hoff, hendT, hdeq]
  have hm1 := le_max_right (0 : ℚ) (ea - ((p.1 : ℚ) * 1440 + drvV.end_time))
  have hm2 := le_max_left (0 : ℚ) (extractVeh exp v vis ea).return_travel_minutes
  linarith

theorem AllRoutes_stage1_C7 (a : Args) (sol : CPSol) (hwf : WFa a) :
    AllRoutes (C7PropAmended a.dates a.dbd) (stage1 a sol) := by
  unfold stage1
  refine AllRoutes_extractAll _ _ _ _ (AllRoutes_skeleton _ a.dates) ?_
  intro q hq
  exact extractVeh_C7 a hwf (expOf a) q.1 (List.mem_zip hq).1 q.2.1 q.2.2

theorem sweepDriver_C7 (a : Args) (hwf : WFa a) (p : ℕ × String) (hp : p ∈ a.dates.enum)
    (drv : Driver) (hdrv : drv ∈ lookupD a.dbd p.2) (rem' : List Target) :
    C7PropAmended a.dates a.dbd p.2
      (sweepDriver a.tf a.maxStops a.branchPt ((p.1 : ℚ) * 1440) drv rem').1 := by
  intro drv2 hdrv2 hid
  rcases sweepDriver_facts a.tf a.maxStops a.branchPt ((p.1 : ℚ) * 1440) drv rem' with
    ⟨k, _, _, hdid, hovt, _, _, hend⟩
  have hid2 : drv2.id = drv.id := hid.trans hdid
  have hdeq : drv2 = drv := List.inj_on_of_nodup_map (WFa_driver_ids_nodup a hwf p.2)
    hdrv2 hdrv hid2
  subst hdeq
  have hoff := offsetOf_enum a.dates hwf.1 p hp
  rw [hoff, hovt]
  have hb := hend (WFa_start_le_end a hwf p.2 drv2 hdrv)
  linarith

theorem AllRoutes_stage2_C7 (a : Args) (sol : CPSol) (hwf : WFa a) :
    AllRoutes (C7PropAmended a.dates a.dbd) (stage2 a sol) := by
  unfold stage2 sweepResult
  by_cases h : (remaining0 a sol).isEmpty
  · rw [if_pos h]
    exact AllRoutes_stage1_C7 a sol hwf
  · rw [if_neg h]
    refine sweepDates_AllRoutesMem a.tf a.maxStops a.branchPt a.dbd _ a.dates.enum
      (remaining0 a sol) (stage1 a sol) (AllRoutes_stage1_C7 a sol hwf) ?_
    intro p hp drv hdrv rem'
    exact sweepDriver_C7 a hwf p hp drv hdrv rem'

theorem driverTimes_some (dates : List String) (dbd : DBD) (d : String) (i : String)
    (q : ℚ × ℚ) (h : driverTimes dates dbd d i = some q) :
    ∃ drvF ∈ lookupD dbd d, drvF.id = i ∧
      q = (offsetOf dates d + drvF.start_time, offsetOf dates d + drvF.end_time) := by
  unfold driverTimes at h
  cases hl : dbd.lookup d with
  | none =>
    rw [hl] at h
    exact Option.noConfusion h
  | some drvs =>
    rw [hl] at h
    rcases Option.map_eq_some'.mp h with ⟨drvF, hfind, hq⟩
    have hmem : drvF ∈ drvs := List.mem_of_find?_eq_some hfind
    have hid : drvF.id = i := by simpa using List.find?_some hfind
    refine ⟨drvF, ?_, hid, hq.symm⟩
    unfold lookupD
    rw [hl]
    exact hmem

theorem optimizeRouteOrder_C7 (a : Args) (hwf : WFa a) (d : String) (r : Route)
    (q : ℚ × ℚ) (hq : driverTimes a.dates a.dbd d r.driver_id = some q)
    (hr : C7PropAmended a.dates a.dbd d r) :
    C7PropAmended a.dates a.dbd d
      (optimizeRouteOrder a.tf a.branchPt a.targets r q.1 q.2) := by
  rcases driverTimes_some a.dates a.dbd d r.driver_id q hq with ⟨drvF, hmem, hidF, hqe⟩
  intro drv2 hdrv2 hid2
  have hdid : (optimizeRouteOrder a.tf a.branchPt a.targets r q.1 q.2).driver_id =
      r.driver_id := optimizeRouteOrder_driver _ _ _ _ _ _
  have hid3 : drv2.id = drvF.id := (hid2.trans hdid).trans hidF.symm
  have hdeq : drv2 = drvF := List.inj_on_of_nodup_map (WFa_driver_ids_nodup a hwf d)
    hdrv2 hmem hid3
  subst hdeq
  have hq2 : q.2 = offsetOf a.dates d + drv2.end_time := by rw [hqe]
  have hbound := optimizeRouteOrder_bound a.tf a.branchPt a.targets r q.1 q.2
    (by rw [hq2]; exact hr drv2 hmem hidF)
  linarith

/-- C7 (amended): over the final schedules of a successful plan on well-formed
input, every route satisfies `end_time ≤ (day_idx·1440 + driver.end_time) +
overtime_minutes + max 0 return_travel_minutes`.  The extra return-leg slack is
forced by the counterexample: the greedy sweeper bounds only the pre-return
time by the driver's day end and records `overtime_minutes = 0`, so its return
leg may overshoot the claimed bound. -/
theorem C7_end_time_amended (a : Args) (sol : CPSol) (hwf : WFa a) :
    AllRoutes (C7PropAmended a.dates a.dbd) (stage4 a sol) := by
  have h3 : AllRoutes (C7PropAmended a.dates a.dbd) (stage3 a sol) := by
    unfold stage3
    refine AllRoutes_backfill a.dates a.dbd ?_ ?_ (stage2 a sol)
      (AllRoutes_stage2_C7 a sol hwf)
    · intro d r st hr drv2 hdrv2 hid2
      exact hr drv2 hdrv2 hid2
    · intro fd _ drvId drv st hfind drv2 hdrv2 hid2
      have hdrvmem : drv ∈ lookupD a.dbd fd := List.mem_of_find?_eq_some hfind
      have hdid : drv.id = drvId := by simpa using List.find?_some hfind
      have hnb : (newBackfillRoute drvId (offsetOf a.dates fd) drv st).driver_id =
          drvId := rfl
      have hid3 : drv2.id = drv.id := (hid2.trans hnb).trans hdid.symm
      have hdeq : drv2 = drv := List.inj_on_of_nodup_map (WFa_driver_ids_nodup a hwf fd)
        hdrv2 hdrvmem hid3
      subst hdeq
      have h1 : (newBackfillRoute drvId (offsetOf a.dates fd) drv2 st).end_time =
          min (offsetOf a.dates fd + drv2.end_time)
            (offsetOf a.dates fd + drv2.start_time + st.stay_minutes) := rfl
      have h2 : (newBackfillRoute drvId (offsetOf a.dates fd) drv2 st).overtime_minutes =
          0 := rfl
      have h4 : (newBackfillRoute drvId (offsetOf a.dates fd) drv2 st).return_travel_minutes =
          0 := rfl
      rw [h1, h2, h4, max_self]
      have hm := min_le_left (offsetOf a.dates fd + drv2.end_time)
        (offsetOf a.dates fd + drv2.start_time + st.stay_minutes)
      linarith
  unfold stage4
  refine AllRoutes_reseq a.tf a.branchPt a.dates a.dbd a.targets h3 ?_
  intro d r q hq hr
  exact optimizeRouteOrder_C7 a hwf d r q hq hr

/-! ## C4: positional route accounting for the backfill -/

theorem length_modifyIdx {α : Type} (f : α → α) :
    ∀ (n : ℕ) (l : List α), (modifyIdx f n l).length = l.length
  | n, [] => by cases n <;> rfl
  | 0, x :: t => rfl
  | n + 1, x :: t => by
    show (x :: modifyIdx f n t).length = _
    simp [length_modifyIdx f n t]

theorem getD_modifyIdx_self {α : Type} (f : α → α) (d : α) :
    ∀ (n : ℕ) (l : List α), n < l.length →
      (modifyIdx f n l).getD n d = f (l.getD n d)
  | _, [], h => by simp at h
  | 0, x :: t, _ => rfl
  | n + 1, x :: t, h => by
    show (x :: modifyIdx f n t).getD (n + 1) d = _
    rw [List.getD_cons_succ, List.getD_cons_succ]
    exact getD_modifyIdx_self f d n t (by simpa using h)

theorem getD_modifyIdx_ne {α : Type} (f : α → α) (d : α) :
    ∀ (n m : ℕ) (l : List α), m ≠ n →
      (modifyIdx f n l).getD m d = l.getD m d
  | n, _, [], _ => by cases n <;> rfl
  | 0, m, x :: t, h => by
    show (f x :: t).getD m d = (x :: t).getD m d
    cases m with
    | zero => exact absurd rfl h
    | succ m2 => rw [List.getD_cons_succ, List.getD_cons_succ]
  | n + 1, m, x :: t, h => by
    show (x :: modifyIdx f n t).getD m d = _
    cases m with
    | zero => rfl
    | succ m2 =>
      rw [List.getD_cons_succ, List.getD_cons_succ]
      exact getD_modifyIdx_ne f d n m2 t (by omega)

theorem getD_append_length {α : Type} (d x : α) : ∀ l : List α,
    (l ++ [x]).getD l.length d = x
  | [] => rfl
  | a :: t => by
    show (a :: (t ++ [x])).getD (t.length + 1) d = x
    rw [List.getD_cons_succ]
    exact getD_append_length d x t

theorem routesOf_appendRoute_self : ∀ (s : Scheds) (d : String) (r : Route),
    d ∈ s.map Prod.fst → routesOf (appendRoute s d r) d = routesOf s d ++ [r]
  | [], d, r, h => by simp at h
  | e :: t, d, r, h => by
    show routesOf ((if e.1 = d then (e.1, e.2 ++ [r]) else e) :: appendRoute t d r) d = _
    by_cases he : e.1 = d
    · rw [if_pos he]
      rw [routesOf_cons_eq (e.1, e.2 ++ [r]) _ d he, routesOf_cons_eq e t d he]
    · rw [if_neg he]
      rw [routesOf_cons_ne e _ d he, routesOf_cons_ne e t d he]
      apply routesOf_appendRoute_self t d r
      rw [List.map_cons] at h
      rcases List.mem_cons.mp h with h1 | h2
      · exact absurd h1.symm he
      · exact h2

theorem routesOf_appendRoute_ne : ∀ (s : Scheds) (d d2 : String) (r : Route), d2 ≠ d →
    routesOf (appendRoute s d r) d2 = routesOf s d2
  | [], _, _, _, _ => rfl
  | e :: t, d, d2, r, h => by
    show routesOf ((if e.1 = d then (e.1, e.2 ++ [r]) else e) :: appendRoute t d r) d2 = _
    by_cases he : e.1 = d2
    · rw [if_neg (fun hc => h (he.symm.trans hc))]
      rw [routesOf_cons_eq e _ d2 he, routesOf_cons_eq e t d2 he]
    · by_cases hd : e.1 = d
      · rw [if_pos hd, routesOf_cons_ne (e.1, e.2 ++ [r]) _ d2 he,
          routesOf_cons_ne e t d2 he]
        exact routesOf_appendRoute_ne t d d2 r h
      · rw [if_neg hd, routesOf_cons_ne e _ d2 he, routesOf_cons_ne e t d2 he]
        exact routesOf_appendRoute_ne t d d2 r h

theorem routesOf_updRoute_self : ∀ (s : Scheds) (d : String) (ri : ℕ) (f : Route → Route),
    d ∈ s.map Prod.fst → routesOf (updRoute s d ri f) d = modifyIdx f ri (routesOf s d)
  | [], d, _, _, h => by simp at h
  | e :: t, d, ri, f, h => by
    show routesOf ((if e.1 = d then (e.1, modifyIdx f ri e.2) else e) ::
      updRoute t d ri f) d = _
    by_cases he : e.1 = d
    · rw [if_pos he]
      rw [routesOf_cons_eq (e.1, modifyIdx f ri e.2) _ d he, routesOf_cons_eq e t d he]
    · rw [if_neg he]
      rw [routesOf_cons_ne e _ d he, routesOf_cons_ne e t d he]
      apply routesOf_updRoute_self t d ri f
      rw [List.map_cons] at h
      rcases List.mem_cons.mp h with h1 | h2
      · exact absurd h1.symm he
      · exact h2

theorem routesOf_updRoute_ne : ∀ (s : Scheds) (d d2 : String) (ri : ℕ) (f : Route → Route),
    d2 ≠ d → routesOf (updRoute s d ri f) d2 = routesOf s d2
  | [], _, _, _, _, _ => rfl
  | e :: t, d, d2, ri, f, h => by
    show routesOf ((if e.1 = d then (e.1, modifyIdx f ri e.2) else e) ::
      updRoute t d ri f) d2 = _
    by_cases he : e.1 = d2
    · rw [if_neg (fun hc => h (he.symm.trans hc))]
      rw [routesOf_cons_eq e _ d2 he, routesOf_cons_eq e t d2 he]
    · by_cases hd : e.1 = d
      · rw [if_pos hd, routesOf_cons_ne (e.1, modifyIdx f ri e.2) _ d2 he,
          routesOf_cons_ne e t d2 he]
        exact routesOf_updRoute_ne t d d2 ri f h
      · rw [if_neg hd, routesOf_cons_ne e _ d2 he, routesOf_cons_ne e t d2 he]
        exact routesOf_updRoute_ne t d d2 ri f h

theorem mem_keys_of_routesOf_ne : ∀ (s : Scheds) (d : String),
    routesOf s d ≠ [] → d ∈ s.map Prod.fst
  | [], d, h => absurd rfl h
  | e :: t, d, h => by
    by_cases he : e.1 = d
    · exact List.mem_cons.mpr (Or.inl he.symm)
    · rw [routesOf_cons_ne e t d he] at h
      exact List.mem_cons_of_mem _ (mem_keys_of_routesOf_ne t d h)

theorem step_len (s : Scheds) (sl : String × ℕ) (fd : String) (new : Route)
    (popf : Route → Route) (hfd : fd ∈ s.map Prod.fst) (hsl : sl.1 ∈ s.map Prod.fst)
    (d : String) :
    (routesOf (appendRoute (updRoute s sl.1 sl.2 popf) fd new) d).length =
      (routesOf s d).length + (if d = fd then 1 else 0) := by
  have hkeys : (updRoute s sl.1 sl.2 popf).map Prod.fst = s.map Prod.fst :=
    updRoute_keys _ _ _ _
  by_cases hdf : d = fd
  · rw [if_pos hdf]
    rw [← hdf] at hfd
    rw [← hdf]
    rw [routesOf_appendRoute_self _ d new (by rw [hkeys]; exact hfd)]
    rw [List.length_append, List.length_singleton]
    congr 1
    by_cases hds : d = sl.1
    · rw [hds, routesOf_updRoute_self s sl.1 sl.2 popf hsl, length_modifyIdx]
    · rw [routesOf_updRoute_ne s sl.1 d sl.2 popf hds]
  · rw [if_neg hdf, Nat.add_zero, routesOf_appendRoute_ne _ fd d new hdf]
    by_cases hds : d = sl.1
    · rw [hds, routesOf_updRoute_self s sl.1 sl.2 popf hsl, length_modifyIdx]
    · rw [routesOf_updRoute_ne s sl.1 d sl.2 popf hds]

theorem step_getD (s : Scheds) (sl : String × ℕ) (fd : String) (new : Route)
    (popf : Route → Route) (hfd : fd ∈ s.map Prod.fst) (hsl : sl.1 ∈ s.map Prod.fst)
    (d : String) (ri : ℕ) (hri : ri < (routesOf s d).length) :
    (routesOf (appendRoute (updRoute s sl.1 sl.2 popf) fd new) d).getD ri dfltRoute =
      (if d = sl.1 ∧ ri = sl.2 then popf ((routesOf s d).getD ri dfltRoute)
       else (routesOf s d).getD ri dfltRoute) := by
  have hkeys : (updRoute s sl.1 sl.2 popf).map Prod.fst = s.map Prod.fst :=
    updRoute_keys _ _ _ _
  have hlenupd : (routesOf (updRoute s sl.1 sl.2 popf) d).length =
      (routesOf s d).length := by
    by_cases hds : d = sl.1
    · rw [hds, routesOf_updRoute_self s sl.1 sl.2 popf hsl, length_modifyIdx]
    · rw [routesOf_updRoute_ne s sl.1 d sl.2 popf hds]
  have hlen2 : ri < (routesOf (updRoute s sl.1 sl.2 popf) d).length := by
    rw [hlenupd]
    exact hri
  have happ : (routesOf (appendRoute (updRoute s sl.1 sl.2 popf) fd new) d).getD ri
      dfltRoute = (routesOf (updRoute s sl.1 sl.2 popf) d).getD ri dfltRoute := by
    by_cases hdf : d = fd
    · rw [hdf] at hlen2 ⊢
      rw [routesOf_appendRoute_self _ fd new (by rw [hkeys]; exact hfd)]
      exact List.getD_append _ _ _ _ hlen2
    · rw [routesOf_appendRoute_ne _ fd d new hdf]
  rw [happ]
  by_cases hc : d = sl.1 ∧ ri = sl.2
  · rw [if_pos hc]
    rcases hc with ⟨hds, hris⟩
    rw [hds, routesOf_updRoute_self s sl.1 sl.2 popf hsl, hris]
    rw [getD_modifyIdx_self popf dfltRoute sl.2 _ (by rw [← hds, ← hris]; exact hri)]
  · rw [if_neg hc]
    by_cases hds : d = sl.1
    · have hris : ri ≠ sl.2 := fun hr => hc ⟨hds, hr⟩
      rw [hds, routesOf_updRoute_self s sl.1 sl.2 popf hsl,
        getD_modifyIdx_ne popf dfltRoute sl.2 ri _ hris, ← hds]
    · rw [routesOf_updRoute_ne s sl.1 d sl.2 popf hds]

theorem step_new (s : Scheds) (sl : String × ℕ) (fd : String) (new : Route)
    (popf : Route → Route) (hfd : fd ∈ s.map Prod.fst) (hsl : sl.1 ∈ s.map Prod.fst) :
    (routesOf (appendRoute (updRoute s sl.1 sl.2 popf) fd new) fd).getD
      (routesOf s fd).length dfltRoute = new := by
  have hkeys : (updRoute s sl.1 sl.2 popf).map Prod.fst = s.map Prod.fst :=
    updRoute_keys _ _ _ _
  rw [routesOf_appendRoute_self _ fd new (by rw [hkeys]; exact hfd)]
  have hlenupd : (routesOf (updRoute s sl.1 sl.2 popf) fd).length =
      (routesOf s fd).length := by
    by_cases hds : fd = sl.1
    · rw [hds, routesOf_updRoute_self s sl.1 sl.2 popf hsl, length_modifyIdx]
    · rw [routesOf_updRoute_ne s sl.1 fd sl.2 popf hds]
  rw [← hlenupd]
  exact getD_append_length dfltRoute new _

theorem slots_inner_nodup (s : Scheds) (d : String) (pFn : ℕ × Route → Bool) :
    ((((routesOf s d).enum.filter pFn).map fun p => (d, p.1)) :
      List (String × ℕ)).Nodup := by
  have h1 : (((routesOf s d).enum.filter pFn).map Prod.fst).Nodup := by
    have hsub : ((((routesOf s d).enum.filter pFn).map Prod.fst)).Sublist
        (((routesOf s d).enum).map Prod.fst) :=
      List.Sublist.map Prod.fst (List.filter_sublist ((routesOf s d).enum))
    have h2 : ((routesOf s d).enum.map Prod.fst).Nodup := by
      rw [List.enum_map_fst]
      exact List.nodup_range _
    exact hsub.nodup h2
  have h3 : (((routesOf s d).enum.filter pFn).map fun p => ((d, p.1) : String × ℕ)) =
      ((((routesOf s d).enum.filter pFn).map Prod.fst).map fun i => (d, i)) := by
    rw [List.map_map]
    rfl
  rw [h3]
  exact List.Nodup.map (fun a b hab => by simpa using congrArg Prod.snd hab) h1

theorem slots_flatMap_nodup (s : Scheds) (pFn : ℕ × Route → Bool) :
    ∀ ds : List String, ds.Nodup →
    (ds.flatMap fun d => ((routesOf s d).enum.filter pFn).map fun p => (d, p.1)).Nodup
  | [], _ => List.nodup_nil
  | d :: ds, hnd => by
    rw [List.flatMap_cons]
    rcases List.nodup_cons.mp hnd with ⟨hd, hds⟩
    refine List.Nodup.append (slots_inner_nodup s d pFn)
      (slots_flatMap_nodup s pFn ds hds) ?_
    intro x hx hy
    rcases List.mem_map.mp hx with ⟨p, _, heq⟩
    rcases List.mem_flatMap.mp hy with ⟨d2, hd2, hy2⟩
    rcases List.mem_map.mp hy2 with ⟨p2, _, heq2⟩
    have h1 : x.1 = d := by rw [← heq]
    have h2 : x.1 = d2 := by rw [← heq2]
    exact hd ((h1.symm.trans h2) ▸ hd2)

theorem mem_slots_flatMap (s : Scheds) (pFn : ℕ × Route → Bool) (ds : List String)
    (sl : String × ℕ)
    (h : sl ∈ ds.flatMap fun d =>
      ((routesOf s d).enum.filter pFn).map fun p => (d, p.1)) :
    sl.1 ∈ ds ∧ pFn (sl.2, (routesOf s sl.1).getD sl.2 dfltRoute) = true ∧
      sl.2 < (routesOf s sl.1).length := by
  rcases List.mem_flatMap.mp h with ⟨d, hd, h2⟩
  rcases List.mem_map.mp h2 with ⟨p, hp, heq⟩
  have h1 : sl.1 = d := by rw [← heq]
  have h2b : sl.2 = p.1 := by rw [← heq]
  rcases List.mem_filter.mp hp with ⟨hpe, hpf⟩
  obtain ⟨i, r⟩ := p
  rcases List.mem_enum hpe with ⟨hlt, hr⟩
  subst h1
  refine ⟨hd, ?_, ?_⟩
  · rw [h2b]
    have hg : (routesOf s sl.1).getD (i, r).1 dfltRoute = r := by
      rw [List.getD_eq_getElem _ _ hlt]
      exact hr.symm
    rw [hg]
    exact hpf
  · rw [h2b]
    exact hlt

theorem count_le_one_of_nodup {α : Type} [BEq α] [LawfulBEq α] {l : List α}
    (h : l.Nodup) (a : α) : List.count a l ≤ 1 := by
  induction l with
  | nil => simp
  | cons b t ih =>
    rcases List.nodup_cons.mp h with ⟨hb, ht⟩
    rw [List.count_cons]
    by_cases hab : (b == a) = true
    · have hba : b = a := eq_of_beq hab
      subst hba
      have hz : List.count b t = 0 := List.count_eq_zero.mpr hb
      simp [hz, hab]
    · have hf : (b == a) = false := by simpa using hab
      simp only [hf, Bool.false_eq_true, if_false]
      have := ih ht
      omega

theorem count_le_of_nodup_parts {α : Type} [BEq α] [LawfulBEq α] (A B : List α)
    (hA : A.Nodup) (hB : B.Nodup) (sl : α) (n : ℕ)
    (hmemA : sl ∈ A → 1 ≤ n) (hmemB : sl ∈ B → 2 ≤ n) (hmem : sl ∈ A ++ B) :
    List.count sl (A ++ B) ≤ n := by
  rw [List.count_append]
  have hcA : List.count sl A ≤ 1 := count_le_one_of_nodup hA sl
  have hcB : List.count sl B ≤ 1 := count_le_one_of_nodup hB sl
  by_cases hb : sl ∈ B
  · have hn := hmemB hb
    omega
  · have hcB0 : List.count sl B = 0 := List.count_eq_zero.mpr hb
    have ha : sl ∈ A := by
      rcases List.mem_append.mp hmem with h | h
      · exact h
      · exact absurd h hb
    have hn := hmemA ha
    omega

theorem donorSlots_count (s : Scheds) (ud : List String) (hnd : ud.Nodup) :
    ∀ sl ∈ donorSlots s ud, List.count sl (donorSlots s ud) ≤
      ((routesOf s sl.1).getD sl.2 dfltRoute).stops.length := by
  intro sl hsl
  unfold donorSlots at hsl ⊢
  refine count_le_of_nodup_parts _ _
    (slots_flatMap_nodup s _ (ud.drop 1) ((List.drop_sublist 1 ud).nodup hnd))
    (slots_flatMap_nodup s _ ud hnd) sl _ ?_ ?_ hsl
  · intro hA
    rcases mem_slots_flatMap s _ (ud.drop 1) sl hA with ⟨_, hp, _⟩
    have hne : ((routesOf s sl.1).getD sl.2 dfltRoute).stops ≠ [] := by
      simpa [List.isEmpty_iff] using hp
    have := List.length_pos.mpr hne
    omega
  · intro hB
    rcases mem_slots_flatMap s _ ud sl hB with ⟨_, hp, _⟩
    have h2 : 1 < ((routesOf s sl.1).getD sl.2 dfltRoute).stops.length := by
      simpa using hp
    omega

theorem donorSlots_count_fd (s : Scheds) (ud : List String) (hnd : ud.Nodup) (fd : String)
    (rest : List String) (hud : ud = fd :: rest) :
    ∀ ri, ((routesOf s fd).getD ri dfltRoute).stops ≠ [] →
      List.count ((fd, ri) : String × ℕ) (donorSlots s ud) <
        ((routesOf s fd).getD ri dfltRoute).stops.length := by
  intro ri hne
  unfold donorSlots
  rw [List.count_append]
  have hA0 : List.count ((fd, ri) : String × ℕ) ((ud.drop 1).flatMap fun d =>
      ((routesOf s d).enum.filter fun p => !p.2.stops.isEmpty).map
        fun p => (d, p.1)) = 0 := by
    rw [List.count_eq_zero]
    intro hmem
    have hfd1 := (mem_slots_flatMap s _ (ud.drop 1) (fd, ri) hmem).1
    rw [hud] at hfd1 hnd
    have hnr : fd ∉ rest := (List.nodup_cons.mp hnd).1
    exact hnr (by simpa using hfd1)
  rw [hA0]
  have hBnd := slots_flatMap_nodup s (fun p => decide (p.2.stops.length > 1)) ud hnd
  have hcB : List.count ((fd, ri) : String × ℕ) (ud.flatMap fun d =>
      ((routesOf s d).enum.filter fun p => p.2.stops.length > 1).map
        fun p => (d, p.1)) ≤ 1 :=
    count_le_one_of_nodup hBnd _
  by_cases hb : ((fd, ri) : String × ℕ) ∈ ud.flatMap fun d =>
      ((routesOf s d).enum.filter fun p => p.2.stops.length > 1).map fun p => (d, p.1)
  · have hp := (mem_slots_flatMap s _ ud (fd, ri) hb).2.1
    have h2 : 1 < ((routesOf s fd).getD ri dfltRoute).stops.length := by
      simpa using hp
    omega
  · have h0 : List.count ((fd, ri) : String × ℕ) (ud.flatMap fun d =>
        ((routesOf s d).enum.filter fun p => p.2.stops.length > 1).map
          fun p => (d, p.1)) = 0 :=
      List.count_eq_zero.mpr hb
    have hpos := List.length_pos.mpr hne
    omega

theorem slot_in_range (s : Scheds) (sl : String × ℕ)
    (h : ((routesOf s sl.1).getD sl.2 dfltRoute).stops ≠ []) :
    sl.1 ∈ s.map Prod.fst ∧ sl.2 < (routesOf s sl.1).length := by
  constructor
  · apply mem_keys_of_routesOf_ne
    intro h0
    apply h
    rw [h0]
    rfl
  · by_contra hc
    push_neg at hc
    rw [List.getD_eq_default _ _ hc] at h
    exact h rfl

theorem backfillLoop_cover (avail : List Driver) (fd : String) (offset : ℚ) :
    ∀ (missing : List String) (slots : List (String × ℕ)) (s : Scheds),
    fd ∈ s.map Prod.fst →
    missing.length ≤ slots.length →
    (∀ i ∈ missing, ∃ drv ∈ avail, drv.id = i) →
    (∀ sl ∈ slots, List.count sl slots ≤
      ((routesOf s sl.1).getD sl.2 dfltRoute).stops.length) →
    (backfillLoop avail fd offset missing slots s).2 = [] ∧
    (∀ (d : String) (ri : ℕ),
      ((routesOf s d).getD ri dfltRoute).stops.length -
          List.count ((d, ri) : String × ℕ) slots ≤
        ((routesOf (backfillLoop avail fd offset missing slots s).1 d).getD ri
          dfltRoute).stops.length) ∧
    (∀ (d : String) (ri : ℕ), ri < (routesOf s d).length →
      ((routesOf (backfillLoop avail fd offset missing slots s).1 d).getD ri
          dfltRoute).driver_id =
        ((routesOf s d).getD ri dfltRoute).driver_id) ∧
    (∀ d : String, (routesOf s d).length ≤
      (routesOf (backfillLoop avail fd offset missing slots s).1 d).length) ∧
    (∀ i ∈ missing, ∃ r ∈ routesOf (backfillLoop avail fd offset missing slots s).1 fd,
      r.driver_id = i ∧ r.stops ≠ [])
  | [], slots, s => by
    intro _ _ _ _
    refine ⟨rfl, fun d ri => Nat.le_trans (Nat.sub_le _ _) (le_refl _),
      fun d ri _ => rfl, fun d => le_refl _, ?_⟩
    intro i hi
    simp at hi
  | drvId :: rest, [], s => by
    intro _ hlen _ _
    simp at hlen
  | drvId :: rest, sl :: slots', s => by
    intro hfd hlen hmiss hcount
    have hc1 : 1 ≤ List.count sl (sl :: slots') := by
      rw [List.count_cons]
      simp
    have hlenpos : 1 ≤ ((routesOf s sl.1).getD sl.2 dfltRoute).stops.length :=
      le_trans hc1 (hcount sl (List.mem_cons_self _ _))
    have hne : ((routesOf s sl.1).getD sl.2 dfltRoute).stops ≠ [] := by
      intro h0
      rw [h0] at hlenpos
      simp at hlenpos
    have hempty : ¬ ((routesOf s sl.1).getD sl.2 dfltRoute).stops.isEmpty = true := by
      simpa [List.isEmpty_iff] using hne
    rcases slot_in_range s sl hne with ⟨hsl1, hrange⟩
    rcases find?_of_exists avail drvId (hmiss drvId (List.mem_cons_self _ _)) with
      ⟨drv, hfind⟩
    have hred : backfillLoop avail fd offset (drvId :: rest) (sl :: slots') s =
        backfillLoop avail fd offset rest slots'
          (appendRoute (updRoute s sl.1 sl.2 (fun r => popRoute r
              (((routesOf s sl.1).getD sl.2 dfltRoute).stops.getLast?.getD dfltStop)))
            fd (newBackfillRoute drvId offset drv
              (((routesOf s sl.1).getD sl.2 dfltRoute).stops.getLast?.getD dfltStop))) := by
      rw [backfillLoop, if_neg hempty, hfind]
    have hkeys2 : (appendRoute (updRoute s sl.1 sl.2 (fun r => popRoute r
        (((routesOf s sl.1).getD sl.2 dfltRoute).stops.getLast?.getD dfltStop)))
        fd (newBackfillRoute drvId offset drv
          (((routesOf s sl.1).getD sl.2 dfltRoute).stops.getLast?.getD dfltStop))).map
        Prod.fst = s.map Prod.fst := by
      rw [appendRoute_keys, updRoute_keys]
    have hlen' : rest.length ≤ slots'.length := by
      simp at hlen
      omega
    have hmiss' : ∀ i ∈ rest, ∃ drv2 ∈ avail, drv2.id = i :=
      fun i hi => hmiss i (List.mem_cons_of_mem _ hi)
    have hcount' : ∀ sl2 ∈ slots', List.count sl2 slots' ≤
        ((routesOf (appendRoute (updRoute s sl.1 sl.2 (fun r => popRoute r
            (((routesOf s sl.1).getD sl.2 dfltRoute).stops.getLast?.getD dfltStop)))
          fd (newBackfillRoute drvId offset drv
            (((routesOf s sl.1).getD sl.2 dfltRoute).stops.getLast?.getD dfltStop)))
          sl2.1).getD sl2.2 dfltRoute).stops.length := by
      intro sl2 hsl2
      have hc2 := hcount sl2 (List.mem_cons_of_mem _ hsl2)
      have hcpos : 1 ≤ List.count sl2 (sl :: slots') := by
        have h1 : 0 < List.count sl2 slots' := List.count_pos_iff.mpr hsl2
        rw [List.count_cons]
        omega
      have hlp2 : 1 ≤ ((routesOf s sl2.1).getD sl2.2 dfltRoute).stops.length :=
        le_trans hcpos hc2
      have hne2 : ((routesOf s sl2.1).getD sl2.2 dfltRoute).stops ≠ [] := by
        intro h0
        rw [h0] at hlp2
        simp at hlp2
      rcases slot_in_range s sl2 hne2 with ⟨_, hrange2⟩
      have hstep := step_getD s sl fd
        (newBackfillRoute drvId offset drv
          (((routesOf s sl.1).getD sl.2 dfltRoute).stops.getLast?.getD dfltStop))
        (fun r => popRoute r
          (((routesOf s sl.1).getD sl.2 dfltRoute).stops.getLast?.getD dfltStop))
        hfd hsl1 sl2.1 sl2.2 hrange2
      by_cases hesl : sl2 = sl
      · rw [if_pos ⟨congrArg Prod.fst hesl, congrArg Prod.snd hesl⟩] at hstep
        rw [hstep]
        have hdl : ((popRoute ((routesOf s sl2.1).getD sl2.2 dfltRoute)
            (((routesOf s sl.1).getD sl.2 dfltRoute).stops.getLast?.getD
              dfltStop)).stops).length =
            ((routesOf s sl2.1).getD sl2.2 dfltRoute).stops.length - 1 := by
          show (((routesOf s sl2.1).getD sl2.2 dfltRoute).stops.dropLast).length = _
          rw [List.length_dropLast]
        rw [hdl]
        have hcnt : List.count sl2 (sl :: slots') = List.count sl2 slots' + 1 := by
          rw [hesl, List.count_cons]
          simp
        omega
      · rw [if_neg (fun hc => hesl (Prod.ext hc.1 hc.2))] at hstep
        rw [hstep]
        have hcnt : List.count sl2 (sl :: slots') = List.count sl2 slots' := by
          rw [List.count_cons]
          have hb : (sl == sl2) = false := beq_false_of_ne (fun h => hesl h.symm)
          simp [hb]
        omega
    rcases backfillLoop_cover avail fd offset rest slots'
      (appendRoute (updRoute s sl.1 sl.2 (fun r => popRoute r
          (((routesOf s sl.1).getD sl.2 dfltRoute).stops.getLast?.getD dfltStop)))
        fd (newBackfillRoute drvId offset drv
          (((routesOf s sl.1).getD sl.2 dfltRoute).stops.getLast?.getD dfltStop)))
      (by rw [hkeys2]; exact hfd) hlen' hmiss' hcount' with ⟨ih0, ih1, ih2, ih3, ih4⟩
    rw [hred]
    have hsteplen := step_len s sl fd
      (newBackfillRoute drvId offset drv
        (((routesOf s sl.1).getD sl.2 dfltRoute).stops.getLast?.getD dfltStop))
      (fun r => popRoute r
        (((routesOf s sl.1).getD sl.2 dfltRoute).stops.getLast?.getD dfltStop))
      hfd hsl1
    refine ⟨ih0, ?_, ?_, ?_, ?_⟩
    · intro d ri
      by_cases hri : ri < (routesOf s d).length
      · have hstep := step_getD s sl fd
          (newBackfillRoute drvId offset drv
            (((routesOf s sl.1).getD sl.2 dfltRoute).stops.getLast?.getD dfltStop))
          (fun r => popRoute r
            (((routesOf s sl.1).getD sl.2 dfltRoute).stops.getLast?.getD dfltStop))
          hfd hsl1 d ri hri
        refine le_trans ?_ (ih1 d ri)
        by_cases hdsl : ((d, ri) : String × ℕ) = sl
        · rw [if_pos ⟨congrArg Prod.fst hdsl, congrArg Prod.snd hdsl⟩] at hstep
          rw [hstep]
          have hdl : ((popRoute ((routesOf s d).getD ri dfltRoute)
              (((routesOf s sl.1).getD sl.2 dfltRoute).stops.getLast?.getD
                dfltStop)).stops).length =
              ((routesOf s d).getD ri dfltRoute).stops.length - 1 := by
            show (((routesOf s d).getD ri dfltRoute).stops.dropLast).length = _
            rw [List.length_dropLast]
          rw [hdl]
          have hcnt : List.count ((d, ri) : String × ℕ) (sl :: slots') =
              List.count ((d, ri) : String × ℕ) slots' + 1 := by
            rw [← hdsl, List.count_cons]
            simp
          omega
        · rw [if_neg (fun hc => hdsl (Prod.ext hc.1 hc.2))] at hstep
          rw [hstep]
          have hcnt : List.count ((d, ri) : String × ℕ) (sl :: slots') =
              List.count ((d, ri) : String × ℕ) slots' := by
            rw [List.count_cons]
            have hb : (sl == ((d, ri) : String × ℕ)) = false :=
              beq_false_of_ne (fun h => hdsl h.symm)
            simp [hb]
          omega
      · push_neg at hri
        rw [List.getD_eq_default _ _ hri]
        show dfltRoute.stops.length - _ ≤ _
        exact Nat.le_trans (by simp [dfltRoute]) (Nat.zero_le _)
    · intro d ri hri
      have hlt2 : ri < (routesOf (appendRoute (updRoute s sl.1 sl.2 (fun r => popRoute r
          (((routesOf s sl.1).getD sl.2 dfltRoute).stops.getLast?.getD dfltStop)))
          fd (newBackfillRoute drvId offset drv
            (((routesOf s sl.1).getD sl.2 dfltRoute).stops.getLast?.getD dfltStop)))
          d).length := by
        rw [hsteplen d]
        split <;> omega
      have hstep := step_getD s sl fd
        (newBackfillRoute drvId offset drv
          (((routesOf s sl.1).getD sl.2 dfltRoute).stops.getLast?.getD dfltStop))
        (fun r => popRoute r
          (((routesOf s sl.1).getD sl.2 dfltRoute).stops.getLast?.getD dfltStop))
        hfd hsl1 d ri hri
      rw [ih2 d ri hlt2, hstep]
      by_cases hc : d = sl.1 ∧ ri = sl.2
      · rw [if_pos hc]
        rfl
      · rw [if_neg hc]
    · intro d
      refine le_trans ?_ (ih3 d)
      rw [hsteplen d]
      by_cases hdf : d = fd <;> simp [hdf]
    · intro i hi
      rcases List.mem_cons.mp hi with rfl | hi2
      · have hL : (routesOf s fd).length <
            (routesOf (appendRoute (updRoute s sl.1 sl.2 (fun r => popRoute r
              (((routesOf s sl.1).getD sl.2 dfltRoute).stops.getLast?.getD dfltStop)))
              fd (newBackfillRoute i offset drv
                (((routesOf s sl.1).getD sl.2 dfltRoute).stops.getLast?.getD dfltStop)))
              fd).length := by
          rw [hsteplen fd]
          simp
        have hnew := step_new s sl fd
          (newBackfillRoute i offset drv
            (((routesOf s sl.1).getD sl.2 dfltRoute).stops.getLast?.getD dfltStop))
          (fun r => popRoute r
            (((routesOf s sl.1).getD sl.2 dfltRoute).stops.getLast?.getD dfltStop))
          hfd hsl1
        have hcnt0 : List.count ((fd, (routesOf s fd).length) : String × ℕ) slots' = 0 := by
          rw [List.count_eq_zero]
          intro hmem
          have hc2 := hcount (fd, (routesOf s fd).length) (List.mem_cons_of_mem _ hmem)
          have hcpos : 1 ≤ List.count ((fd, (routesOf s fd).length) : String × ℕ)
              (sl :: slots') := by
            have h1 : 0 < List.count ((fd, (routesOf s fd).length) : String × ℕ) slots' :=
              List.count_pos_iff.mpr hmem
            rw [List.count_cons]
            omega
          have hdflt : ((routesOf s fd).getD (routesOf s fd).length dfltRoute) =
              dfltRoute := List.getD_eq_default _ _ (le_refl _)
          rw [hdflt] at hc2
          have : (1 : ℕ) ≤ 0 := le_trans hcpos (by simpa [dfltRoute] using hc2)
          omega
        have hone := ih1 fd (routesOf s fd).length
        rw [hnew, hcnt0] at hone
        have hlen1 : (newBackfillRoute i offset drv
            (((routesOf s sl.1).getD sl.2 dfltRoute).stops.getLast?.getD
              dfltStop)).stops.length = 1 := rfl
        rw [hlen1] at hone
        have hdrv := ih2 fd (routesOf s fd).length hL
        rw [hnew] at hdrv
        have hlen3 : (routesOf s fd).length <
            (routesOf (backfillLoop avail fd offset rest slots'
              (appendRoute (updRoute s sl.1 sl.2 (fun r => popRoute r
                (((routesOf s sl.1).getD sl.2 dfltRoute).stops.getLast?.getD dfltStop)))
                fd (newBackfillRoute i offset drv
                  (((routesOf s sl.1).getD sl.2 dfltRoute).stops.getLast?.getD
                    dfltStop)))).1 fd).length :=
          Nat.lt_of_lt_of_le hL (ih3 fd)
        refine ⟨(routesOf (backfillLoop avail fd offset rest slots'
            (appendRoute (updRoute s sl.1 sl.2 (fun r => popRoute r
              (((routesOf s sl.1).getD sl.2 dfltRoute).stops.getLast?.getD dfltStop)))
              fd (newBackfillRoute i offset drv
                (((routesOf s sl.1).getD sl.2 dfltRoute).stops.getLast?.getD
                  dfltStop)))).1 fd).getD (routesOf s fd).length dfltRoute, ?_, ?_, ?_⟩
        · rw [List.getD_eq_getElem _ _ hlen3]
          exact List.getElem_mem hlen3
        · rw [hdrv]
          rfl
        · intro h0
          rw [h0] at hone
          simp at hone
      · exact ih4 i hi2

theorem present_route (dbd : DBD) (s : Scheds) (fd : String) (i : String)
    (hi : i ∈ (lookupD dbd fd).map Driver.id) (hni : i ∉ backfillMissing dbd s fd) :
    ∃ r ∈ routesOf s fd, r.driver_id = i ∧ r.stops ≠ [] := by
  unfold backfillMissing at hni
  have h3 : (((routesOf s fd).filter fun r => !r.stops.isEmpty).map
      Route.driver_id).contains i = true := by
    by_contra hc
    have hcf := Bool.eq_false_iff.mpr hc
    exact hni (List.mem_filter.mpr ⟨hi, by rw [hcf]; rfl⟩)
  have h4 : i ∈ ((routesOf s fd).filter fun r => !r.stops.isEmpty).map Route.driver_id := by
    simpa using h3
  rcases List.mem_map.mp h4 with ⟨r, hr, hid⟩
  have hr2 := List.mem_filter.mp hr
  exact ⟨r, hr2.1, hid, by simpa [List.isEmpty_iff] using hr2.2⟩

theorem backfill_covers (dates : List String) (dbd : DBD) (s : Scheds)
    (hnd : dates.Nodup) (hkeys : s.map Prod.fst = dates)
    (fd : String) (rest : List String)
    (hud : usedDays dates s = fd :: rest)
    (hdon : (backfillMissing dbd s fd).length ≤
      (donorSlots s (usedDays dates s)).length) :
    CoversDrivers dbd (backfill dates dbd s) fd := by
  have hudnd : (fd :: rest).Nodup := by
    rw [← hud]
    exact List.Nodup.filter _ hnd
  have hfds : fd ∈ s.map Prod.fst := by
    rw [hkeys]
    have h1 : fd ∈ usedDays dates s := by
      rw [hud]
      exact List.mem_cons_self _ _
    exact List.mem_of_mem_filter h1
  rw [hud] at hdon
  by_cases hm : (backfillMissing dbd s fd).isEmpty
  · have hred : backfill dates dbd s = s := by
      unfold backfill
      simp only [hud]
      rw [if_pos hm]
    rw [hred]
    intro drv hdrv
    have hmem : drv.id ∉ backfillMissing dbd s fd := by
      rw [List.isEmpty_iff] at hm
      rw [hm]
      simp
    rcases present_route dbd s fd drv.id (List.mem_map_of_mem _ hdrv) hmem with
      ⟨r, hr, hid, hne⟩
    exact ⟨r, hr, hid, hne⟩
  · rcases backfillLoop_cover (lookupD dbd fd) fd (offsetOf dates fd)
      (backfillMissing dbd s fd) (donorSlots s (fd :: rest)) s hfds hdon
      (backfillMissing_avail dbd s fd)
      (donorSlots_count s (fd :: rest) hudnd) with ⟨h0, h1, h2, h3, h4⟩
    have hred : backfill dates dbd s =
        (backfillLoop (lookupD dbd fd) fd (offsetOf dates fd)
          (backfillMissing dbd s fd) (donorSlots s (fd :: rest)) s).1 := by
      unfold backfill
      simp only [hud]
      rw [if_neg hm, if_pos (by rw [h0]; rfl)]
    rw [hred]
    intro drv hdrv
    by_cases hin : drv.id ∈ backfillMissing dbd s fd
    · rcases h4 drv.id hin with ⟨r, hr, hid, hne⟩
      exact ⟨r, hr, hid, hne⟩
    · rcases present_route dbd s fd drv.id (List.mem_map_of_mem _ hdrv) hin with
        ⟨r, hr, hid, hne⟩
      rcases List.mem_iff_getElem.mp hr with ⟨ri, hri, hgetr⟩
      have hgd : (routesOf s fd).getD ri dfltRoute = r := by
        rw [List.getD_eq_getElem _ _ hri, hgetr]
      have hri2 : ri < (routesOf (backfillLoop (lookupD dbd fd) fd (offsetOf dates fd)
          (backfillMissing dbd s fd) (donorSlots s (fd :: rest)) s).1 fd).length :=
        Nat.lt_of_lt_of_le hri (h3 fd)
      refine ⟨(routesOf (backfillLoop (lookupD dbd fd) fd (offsetOf dates fd)
          (backfillMissing dbd s fd) (donorSlots s (fd :: rest)) s).1 fd).getD ri
          dfltRoute, ?_, ?_, ?_⟩
      · rw [List.getD_eq_getElem _ _ hri2]
        exact List.getElem_mem hri2
      · rw [h2 fd ri hri, hgd, hid]
      · have hcnt := donorSlots_count_fd s (fd :: rest) hudnd fd rest rfl ri
          (by rw [hgd]; exact hne)
        have hlen := h1 fd ri
        intro h0s
        rw [h0s] at hlen
        rw [hgd] at hcnt hlen
        have hpos := List.length_pos.mpr hne
        simp at hlen
        omega

/-- C4 (amended): in a successful plan, when the earliest date `fd` with a
non-empty route has at most as many drivers missing from its schedule as there
are donor slots, then after the backfill repair (and the subsequent
re-sequencing) every driver listed in `drivers_by_date` for `fd` appears with
at least one stop in some route of that date's schedule.  (Without the
donor-slot bound the loop runs out of donors and falls back to serving at most
one further driver, leaving the rest uncovered.) -/
theorem C4_backfill_amended (a : Args) (sol : CPSol) (hwf : WFa a)
    (fd : String) (rest : List String)
    (hud : usedDays a.dates (stage2 a sol) = fd :: rest)
    (hdon : (backfillMissing a.dbd (stage2 a sol) fd).length ≤
      (donorSlots (stage2 a sol) (usedDays a.dates (stage2 a sol))).length) :
    CoversDrivers a.dbd (stage4 a sol) fd := by
  unfold stage4
  exact CoversDrivers_reseq a.tf a.branchPt a.dates a.dbd a.targets (stage3 a sol) fd
    (backfill_covers a.dates a.dbd (stage2 a sol) hwf.1 (stage2_keys a sol) fd rest
      hud hdon)

/-! ## Counterexamples to the claims as originally stated -/

/-- C1 counterexample: on the well-formed input `argsA` (target ids `"a"` and
`"a@x"`, both schedulable) with a valid CP assignment visiting only the clone
of `"a@x"`, the plan succeeds, yet the final scheduled-id list is
`["a@x", "a@x"]` — a duplicated assignment — while the base id `"a"` is
neither scheduled nor listed in the (empty) `unassigned`: the partition and
at-most-once clauses of the original claim both fail. -/
theorem C1_counterexample :
    WFa argsA ∧ CPValid (expOf argsA) (vehOf argsA) solA ∧
    buildGlobalPlan argsA (some solA) =
      .success argsA.dates (stage4 argsA solA) (unassignedFinal argsA solA)
        (missingDriverDates argsA.dates argsA.dbd) ∧
    ¬ (planIds (stage4 argsA solA)).Nodup ∧
    "a" ∈ pyKeys argsA.targets ∧
    "a" ∉ planIds (stage4 argsA solA) ∧
    "a" ∉ unassignedFinal argsA solA :=
  ⟨of_decide_eq_true (by with_unfolding_all rfl),
   of_decide_eq_true (by with_unfolding_all rfl),
   by with_unfolding_all rfl,
   of_decide_eq_true (by with_unfolding_all rfl),
   of_decide_eq_true (by with_unfolding_all rfl),
   of_decide_eq_true (by with_unfolding_all rfl),
   of_decide_eq_true (by with_unfolding_all rfl)⟩

/-- C10 counterexample: on `argsA2` (target ids `"b"` and `"b@y"`) the plan
succeeds, but the base id `"b"` appears in no final route and is also absent
from `unassigned` — so after backfill and re-sequencing `unassigned` does not
equal the set of base ids missing from the final routes. -/
theorem C10_counterexample :
    WFa argsA2 ∧ CPValid (expOf argsA2) (vehOf argsA2) solA2 ∧
    buildGlobalPlan argsA2 (some solA2) =
      .success argsA2.dates (stage4 argsA2 solA2) (unassignedFinal argsA2 solA2)
        (missingDriverDates argsA2.dates argsA2.dbd) ∧
    "b" ∈ pyKeys argsA2.targets ∧
    "b" ∉ planIds (stage4 argsA2 solA2) ∧
    "b" ∉ unassignedFinal argsA2 solA2 :=
  ⟨of_decide_eq_true (by with_unfolding_all rfl),
   of_decide_eq_true (by with_unfolding_all rfl),
   by with_unfolding_all rfl,
   of_decide_eq_true (by with_unfolding_all rfl),
   of_decide_eq_true (by with_unfolding_all rfl),
   of_decide_eq_true (by with_unfolding_all rfl)⟩

/-- C2 counterexample: on `argsB` the CP solver drops the time-windowed target
(window 600–601) and the greedy sweeper schedules it at arrival 480, outside
every clone's absolute window — the original all-stops window invariant fails
on the successful final plan. -/
theorem C2_counterexample :
    WFa argsB ∧ CPValid (expOf argsB) (vehOf argsB) solB ∧
    buildGlobalPlan argsB (some solB) =
      .success argsB.dates (stage4 argsB solB) (unassignedFinal argsB solB)
        (missingDriverDates argsB.dates argsB.dbd) ∧
    ¬ ∀ st ∈ planStops (stage4 argsB solB), C2Prop (expOf argsB) st :=
  ⟨of_decide_eq_true (by with_unfolding_all rfl),
   of_decide_eq_true (by with_unfolding_all rfl),
   by with_unfolding_all rfl,
   of_decide_eq_true (by with_unfolding_all rfl)⟩

/-- C4 counterexample: on `argsC` (three drivers, one target) the plan succeeds
and `"d1"` is the earliest date with a non-empty route, yet after the backfill
repair (and re-sequencing) drivers `"B"` and `"C"` still have no non-empty
route: with one one-stop route there are no donor slots, and the fallback
serves at most one missing driver. -/
theorem C4_counterexample :
    WFa argsC ∧ CPValid (expOf argsC) (vehOf argsC) solC ∧
    buildGlobalPlan argsC (some solC) =
      .success argsC.dates (stage4 argsC solC) (unassignedFinal argsC solC)
        (missingDriverDates argsC.dates argsC.dbd) ∧
    usedDays argsC.dates (stage4 argsC solC) = ["d1"] ∧
    ¬ CoversDrivers argsC.dbd (stage4 argsC solC) "d1" :=
  ⟨of_decide_eq_true (by with_unfolding_all rfl),
   of_decide_eq_true (by with_unfolding_all rfl),
   by with_unfolding_all rfl,
   of_decide_eq_true (by with_unfolding_all rfl),
   of_decide_eq_true (by with_unfolding_all rfl)⟩

set_option maxRecDepth 8000 in
/-- C5 counterexample: on `argsD` the lone leftover target (stay 1000) never
fits before the driver's day end, so the greedy sweeper builds an empty route
for driver `"A"` — and appends it to the day's schedule anyway, refuting the
claim that an empty route is never added. -/
theorem C5_counterexample :
    WFa argsD ∧ CPValid (expOf argsD) (vehOf argsD) solD ∧
    buildGlobalPlan argsD (some solD) =
      .success argsD.dates (stage4 argsD solD) (unassignedFinal argsD solD)
        (missingDriverDates argsD.dates argsD.dbd) ∧
    remaining0 argsD solD ≠ [] ∧
    (∃ pr ∈ greedyRoutes argsD solD, pr.2.stops = [] ∧
      pr.2 ∈ routesOf (stage2 argsD solD) "d1") :=
  ⟨of_decide_eq_true (by with_unfolding_all rfl),
   of_decide_eq_true (by with_unfolding_all rfl),
   by with_unfolding_all rfl,
   of_decide_eq_true (by with_unfolding_all rfl),
   of_decide_eq_true (by with_unfolding_all rfl)⟩

/-- C7 counterexample: on `argsE` (travel 60 between distinct points, driver
window 0–100) the plan succeeds, but the greedy route ends at 130 with
`overtime_minutes = 0`: the sweeper bounds only the pre-return time by the
driver's end, so `end_time ≤ abs_end + overtime` fails on the final plan. -/
theorem C7_counterexample :
    WFa argsE ∧ CPValid (expOf argsE) (vehOf argsE) solE ∧
    buildGlobalPlan argsE (some solE) =
      .success argsE.dates (stage4 argsE solE) (unassignedFinal argsE solE)
        (missingDriverDates argsE.dates argsE.dbd) ∧
    ¬ AllRoutes (C7Prop argsE.dates argsE.dbd) (stage4 argsE solE) :=
  ⟨of_decide_eq_true (by with_unfolding_all rfl),
   of_decide_eq_true (by with_unfolding_all rfl),
   by with_unfolding_all rfl,
   of_decide_eq_true (by with_unfolding_all rfl)⟩

/-! ## Witnesses instantiating the amended theorems -/

/-- C1 amended witness: the hypotheses hold on `argsW`/`solW` and the amended
theorem yields the duplicate-freeness of the scheduled ids there. -/
theorem C1_unassigned_amended_witness :
    WFa argsW ∧ NoAtIds argsW ∧ CPValid (expOf argsW) (vehOf argsW) solW ∧
    (planIds (stage4 argsW solW)).Nodup :=
  have hwf : WFa argsW := of_decide_eq_true (by with_unfolding_all rfl)
  have hna : NoAtIds argsW := of_decide_eq_true (by with_unfolding_all rfl)
  have hcp : CPValid (expOf argsW) (vehOf argsW) solW :=
    of_decide_eq_true (by with_unfolding_all rfl)
  ⟨hwf, hna, hcp, (C1_unassigned_amended argsW solW hwf hna hcp).2.1⟩

/-- C10 amended witness: on `argsW`/`solW` the backfill stage preserves the
schedule keys. -/
theorem C10_preservation_amended_witness :
    WFa argsW ∧ (stage3 argsW solW).map Prod.fst = (stage2 argsW solW).map Prod.fst :=
  have hwf : WFa argsW := of_decide_eq_true (by with_unfolding_all rfl)
  ⟨hwf, (C10_preservation_amended argsW solW hwf).1.1⟩

/-- C2 amended witness: on `argsW`/`solW` the CP validity hypothesis holds and
the amended theorem yields the final depart-versus-arrival bound. -/
theorem C2_stop_times_amended_witness :
    CPValid (expOf argsW) (vehOf argsW) solW ∧
    AllRoutes (fun _ r => ∀ st ∈ r.stops,
      st.depart_min ≤ st.arrival_min + st.stay_minutes) (stage4 argsW solW) :=
  have hcp : CPValid (expOf argsW) (vehOf argsW) solW :=
    of_decide_eq_true (by with_unfolding_all rfl)
  ⟨hcp, (C2_stop_times_amended argsW solW hcp).2⟩

/-- C7 amended witness: on the well-formed `argsW`/`solW` every final route
satisfies the amended end-time bound. -/
theorem C7_end_time_amended_witness :
    WFa argsW ∧ AllRoutes (C7PropAmended argsW.dates argsW.dbd) (stage4 argsW solW) :=
  have hwf : WFa argsW := of_decide_eq_true (by with_unfolding_all rfl)
  ⟨hwf, C7_end_time_amended argsW solW hwf⟩

/-- C4 amended witness: on `argsW`/`solW` the earliest used day is `"d1"`, the
single missing driver `"B"` is covered by the single donor slot, and the
amended theorem delivers full driver coverage of the final plan. -/
theorem C4_backfill_amended_witness :
    WFa argsW ∧ usedDays argsW.dates (stage2 argsW solW) = ["d1"] ∧
    (backfillMissing argsW.dbd (stage2 argsW solW) "d1").length ≤
      (donorSlots (stage2 argsW solW) (usedDays argsW.dates (stage2 argsW solW))).length ∧
    CoversDrivers argsW.dbd (stage4 argsW solW) "d1" :=
  have hwf : WFa argsW := of_decide_eq_true (by with_unfolding_all rfl)
  have hud : usedDays argsW.dates (stage2 argsW solW) = ["d1"] := by
    with_unfolding_all rfl
  have hdon : (backfillMissing argsW.dbd (stage2 argsW solW) "d1").length ≤
      (donorSlots (stage2 argsW solW) (usedDays argsW.dates (stage2 argsW solW))).length :=
    of_decide_eq_true (by with_unfolding_all rfl)
  ⟨hwf, hud, hdon, C4_backfill_amended argsW solW hwf "d1" [] hud hdon⟩

end VRP
